import Mathlib

/-!
The esm.sh build task (`server/build.go`).

A shallow embedding of the build task of the esm.sh CDN: the rebuild loop that
drives the bundler, the output assembler (header generation, source-map
offset), the manifest dependency list and `resolveExternal`.

Go strings are modelled as lists of characters (`Str`).  Collaborators that
live outside `server/build.go` (the bundler, the analyzer, the file store, the
package-metadata resolver, helper tables) are parameters of the definitions.
-/

namespace EsmSh

/-! ## Strings -/

/-- Go `string`, as its sequence of characters. -/
abbrev Str := List Char

/-- The double-quote character. -/
def dq : Char := Char.ofNat 34

/-- Go `strings.HasPrefix(s, p)`. -/
def hasPrefix (s p : Str) : Bool := p.isPrefixOf s

/-- Go `strings.HasSuffix(s, p)`. -/
def hasSuffix (s p : Str) : Bool := p.reverse.isPrefixOf s.reverse

/-- Go `strings.TrimPrefix(s, p)`. -/
def trimPrefix (s p : Str) : Str := if hasPrefix s p then s.drop p.length else s

/-- Go `strings.TrimSuffix(s, p)`. -/
def trimSuffix (s p : Str) : Str :=
  if hasSuffix s p then s.take (s.length - p.length) else s

/-- Go `strings.Contains(s, sub)` / `bytes.Contains`. -/
def strContains : Str → Str → Bool
  | [], sub => sub.isEmpty
  | c :: cs, sub => sub.isPrefixOf (c :: cs) || strContains cs sub

/-- Go `strings.Split(s, sep)` for a one-character separator: the pieces between
the separators, always at least one piece. -/
def splitChar (sep : Char) : Str → List Str
  | [] => [[]]
  | c :: cs =>
    if c = sep then [] :: splitChar sep cs
    else
      match splitChar sep cs with
      | [] => [[c]]
      | p :: ps => (c :: p) :: ps

/-- Scan of `strings.Count`: `skip` characters of the current match remain to be
stepped over, so matches do not overlap. -/
def countFrom (sub : Str) : Str → Nat → Nat
  | [], _ => 0
  | _ :: cs, skip + 1 => countFrom sub cs skip
  | c :: cs, 0 =>
    if sub.isPrefixOf (c :: cs) then 1 + countFrom sub cs (sub.length - 1)
    else countFrom sub cs 0

/-- Go `strings.Count(s, sub)`: the number of non-overlapping occurrences of
`sub` in `s`; for the empty `sub` it is the length plus one. -/
def stringsCount (s sub : Str) : Nat :=
  if sub = [] then s.length + 1 else countFrom sub s 0

/-- Lower-case hexadecimal rendering of a number (Go format verb `%x`). -/
def hex (n : Nat) : Str := Nat.toDigits 16 n

/-! ## String sets -/

/-- Modelled from the spec: the `StringSet` type is declared outside
`server/build.go`; the spec describes it as a set of strings that only grows
(`Add`) and is queried by membership (`Has`).  The elements are kept in the
order in which they were first added. -/
structure StringSet where
  values : List Str
deriving DecidableEq, Repr

/-- Go `newStringSet()`. -/
def newStringSet : StringSet := ⟨[]⟩

namespace StringSet

/-- Go `set.Has(key)`. -/
def Has (s : StringSet) (key : Str) : Bool := decide (key ∈ s.values)

/-- Go `set.Add(key)`. -/
def Add (s : StringSet) (key : Str) : StringSet :=
  if key ∈ s.values then s else ⟨s.values ++ [key]⟩

/-- Go `set.Len()`. -/
def Len (s : StringSet) : Nat := s.values.length

/-- Go `set.Values()`. -/
def Values (s : StringSet) : List Str := s.values

end StringSet

/-! ## Manifest dependency list (`build`, end of the function) -/

/-- Go helper `filter(a, fn)`: the elements of `a` on which `fn` answers true,
in their order.  The callback of the source is a closure over mutable state;
that state is threaded through explicitly. -/
def filter {α σ : Type} (fn : α → σ → Bool × σ) : List α → σ → List α
  | [], _ => []
  | x :: xs, st =>
    match fn x st with
    | (true, st1) => x :: filter fn xs st1
    | (false, st1) => filter fn xs st1

/-- The prefix test of the `Deps` callback. -/
def isUrlDep (dep : Str) : Bool :=
  hasPrefix dep "/".toList || hasPrefix dep "http:".toList || hasPrefix dep "https:".toList

/-- The callback passed to `filter` when `esm.Deps` is computed: `record` is the
set of imports already seen. -/
def depsCallback (dep : Str) (record : StringSet) : Bool × StringSet :=
  if record.Has dep then (false, record)
  else (isUrlDep dep, record.Add dep)

/-- The value assigned to `esm.Deps` at the end of `build`. -/
def computeDeps (imports : List Str) : List Str :=
  filter depsCallback imports newStringSet

/-! ## Data model -/

/-- The import kinds of the bundler (`api.ResolveKind`). -/
inductive ResolveKind
  | ResolveEntryPoint
  | ResolveJSImportStatement
  | ResolveJSRequireCall
  | ResolveJSDynamicImport
  | ResolveJSRequireResolve
  | ResolveCSSImportRule
  | ResolveCSSURLToken
deriving DecidableEq, Repr

/-- Package locator `Pkg`. -/
structure Pkg where
  Name : Str := []
  Version : Str := []
  SubPath : Str := []
  SubModule : Str := []
  FromGithub : Bool := false
  FromEsmsh : Bool := false
deriving DecidableEq, Repr

/-- Build arguments `BuildArgs`; `deps` is the pinned-version list of the
`deps` query, in the order written. -/
structure BuildArgs where
  /-- The field `alias` of the source. -/
  aliases : List (Str × Str) := []
  deps : List Pkg := []
  external : StringSet := newStringSet
  exports : StringSet := newStringSet
  conditions : StringSet := newStringSet
  denoStdVersion : Str := []
  ignoreRequire : Bool := false
  keepNames : Bool := false
  ignoreAnnotations : Bool := false
deriving DecidableEq, Repr

/-- A value of the `exports` or `imports` map of a package manifest, as far as
the resolve hook inspects it: a string, a map from condition names to values
(each value given as `some s` when it is the string `s`), or anything else. -/
inductive Paths
  | str (s : Str)
  | conds (m : List (Str × Option Str))
  | other
deriving DecidableEq, Repr

/-- The fields of `NpmPackageInfo` that `build` and `resolveExternal` read.
Go maps are association lists read with `List.lookup`. -/
structure NpmPackageInfo where
  Name : Str := []
  Version : Str := []
  /-- The field `Type` of the source. -/
  ModuleType : Str := []
  Main : Str := []
  Module : Str := []
  Types : Str := []
  Dependencies : List (Str × Str) := []
  PeerDependencies : List (Str × Str) := []
  Browser : List (Str × Str) := []
  /-- The `imports` map. -/
  Imports : List (Str × Paths) := []
  /-- The `exports` field: `some` of its entries in order when it is an ordered
  map, `none` otherwise. -/
  PkgExports : Option (List (Str × Paths)) := none
  /-- The side-effects declaration; `none` is the nil pointer. -/
  SideEffects : Option StringSet := none
  /-- The `esm` configuration map; `none` is the nil map.  A value is `some b`
  when it is the boolean `b`. -/
  ESMConfig : Option (List (Str × Option Bool)) := none
deriving DecidableEq, Repr

/-- The build manifest `ESMBuild`. -/
structure ESMBuild where
  NamedExports : List Str := []
  HasExportDefault : Bool := false
  FromCJS : Bool := false
  Dts : Str := []
  TypesOnly : Bool := false
  PackageCSS : Bool := false
  Deps : List Str := []
deriving DecidableEq, Repr

/-- The build task `BuildTask`.  `subBuilds` says whether the task's registry
pointer is non-nil; the registry it points to is shared by all the tasks of a
request and lives in `Shared`.  `esm` is `none` for a nil pointer. -/
structure BuildTask where
  Args : BuildArgs := {}
  Pkg : Pkg := {}
  CdnOrigin : Str := []
  Target : Str := []
  Dev : Bool := false
  Bundle : Bool := false
  NoBundle : Bool := false
  npm : NpmPackageInfo := {}
  esm : Option ESMBuild := none
  deprecated : Str := []
  stage : Str := []
  wd : Str := []
  resolveDir : Str := []
  packageDir : Str := []
  imports : List Str := []
  requires : List (Str × Str) := []
  smOffset : Int := 0
  subBuilds : Bool := false
deriving DecidableEq, Repr

/-- State shared by the tasks of one request: the sub-build registry that
`task.subBuilds` points to, and the identifiers of the nested builds that were
run, in the order they were started. -/
structure Shared where
  subBuilds : StringSet := newStringSet
  started : List Str := []
deriving DecidableEq, Repr

/-- Go `PkgSlice.Get(name)`: the first pinned package of that name. -/
def PkgSliceGet (deps : List Pkg) (name : Str) : Option Pkg :=
  deps.find? (fun p => decide (p.Name = name))

/-- Collaborators of `resolveExternal` that are declared outside
`server/build.go`. -/
structure Env where
  /-- The configuration value `cfg.CdnBasePath`. -/
  CdnBasePath : Str
  /-- The table `nodejsInternalModules`. -/
  nodejsInternalModules : Str → Bool
  /-- The table `denoNextUnspportedNodeModules`. -/
  denoNextUnspportedNodeModules : Str → Bool
  /-- The helper `getPkgName(specifier)`. -/
  getPkgName : Str → Str
  /-- The helper `splitPkgPath(specifier)`: package name, version, sub-path. -/
  splitPkgPath : Str → Str × Str × Str
  /-- The helper `toModuleBareName(path, stripIndexSuffix)`. -/
  toModuleBareName : Str → Bool → Str
  /-- The method `task.ID()`. -/
  taskID : BuildTask → Str
  /-- The method `task.getImportPath(pkg, buildArgsPrefix)`. -/
  getImportPath : BuildTask → Pkg → Str → Str
  /-- The helper `encodeBuildArgsPrefix(args, pkg, isDts)`. -/
  encodeBuildArgsPrefix : BuildArgs → Pkg → Bool → Str
  /-- Reading `server/embed/polyfills/npm_<specifier>.js` from the embedded
  file system; `none` when the read fails. -/
  embedPolyfill : Str → Option Str
  /-- Standard base64 encoding. -/
  base64 : Str → Str
  /-- The pattern `regexpFullVersion`. -/
  regexpFullVersion : Str → Bool
  /-- The helper `getPackageInfo(dir, name, version)`; `none` on error. -/
  getPackageInfo : Str → Str → Str → Option NpmPackageInfo
  /-- The helper `fixBuildArgs(args, pkg)`. -/
  fixBuildArgs : BuildArgs → Pkg → BuildArgs
  /-- The library function `utils.SplitByLastByte(s, c)`. -/
  splitByLastByte : Str → Char → Str × Str

/-! ## `resolveExternal` -/

/-- Rule 1 of `resolveExternal` (node builtin module): the path assigned when
the specifier is in the builtin table. -/
def builtinPath (env : Env) (task : BuildTask) (specifier : Str) : Str :=
  if task.Args.external.Has ("node:".toList ++ specifier) || task.Args.external.Has "*".toList then
    "node:".toList ++ specifier
  else if task.Target = "node".toList then
    "node:".toList ++ specifier
  else if task.Target = "denonext".toList && !env.denoNextUnspportedNodeModules specifier then
    "node:".toList ++ specifier
  else if task.Target = "deno".toList then
    "https://deno.land/std@".toList ++ task.Args.denoStdVersion ++ "/node/".toList
      ++ specifier ++ ".ts".toList
  else
    env.CdnBasePath ++ "/node/".toList ++ specifier ++ ".js".toList

/-- The version that the fallback rule of `resolveExternal` chooses for
`pkgName`, before range resolution; `version` is the version part that
`splitPkgPath` found in the specifier. -/
def chooseVersion (task : BuildTask) (pkgName version : Str) : Str :=
  let version :=
    if version = [] then
      if pkgName = task.Pkg.Name then task.Pkg.Version
      else match PkgSliceGet task.Args.deps pkgName with
        | some pkg => pkg.Version
        | none =>
          match task.npm.Dependencies.lookup pkgName with
          | some v => v
          | none =>
            match task.npm.PeerDependencies.lookup pkgName with
            | some v => v
            | none => "latest".toList
    else version
  -- use version defined in the deps query if it exists
  let version := task.Args.deps.foldl
    (fun version dep => if pkgName = dep.Name then dep.Version else version) version
  -- force the version of react (as dependency) equal to react-dom
  if task.Pkg.Name = "react-dom".toList && pkgName = "react".toList then task.Pkg.Version
  else version

/-- The fallback rule of `resolveExternal` (common npm dependency). -/
def fallbackPath (env : Env) (task : BuildTask) (specifier : Str) : Str :=
  match env.splitPkgPath specifier with
  | (pkgName, version, subpath) =>
    let version := chooseVersion task pkgName version
    let version :=
      if !env.regexpFullVersion version then
        match env.getPackageInfo task.resolveDir pkgName version with
        | some p => p.Version
        | none => version
      else version
    let pkg : Pkg :=
      { Name := pkgName, Version := version, SubPath := subpath,
        SubModule := env.toModuleBareName subpath true }
    let args : BuildArgs :=
      { aliases := task.Args.aliases, conditions := task.Args.conditions,
        deps := task.Args.deps, external := task.Args.external,
        exports := newStringSet }
    let args := env.fixBuildArgs args pkg
    env.getImportPath task pkg (env.encodeBuildArgsPrefix args pkg false)

/-- The sub-package that the sub-module rule of `resolveExternal` derives. -/
def subPkgOf (env : Env) (task : BuildTask) (specifier : Str) : Pkg :=
  let subPath := trimPrefix specifier (task.Pkg.Name ++ "/".toList)
  { Name := task.Pkg.Name, Version := task.Pkg.Version, SubPath := subPath,
    SubModule := env.toModuleBareName subPath false }

/-- The task literal `subBuild` of the sub-module rule. -/
def subBuildOf (task : BuildTask) (subPkg : Pkg) : BuildTask :=
  { Args := task.Args, Pkg := subPkg, CdnOrigin := task.CdnOrigin, Target := task.Target,
    Dev := task.Dev, Bundle := task.Bundle, NoBundle := task.NoBundle, wd := task.wd,
    deprecated := task.deprecated, resolveDir := task.resolveDir,
    packageDir := task.packageDir, subBuilds := task.subBuilds }

/-- The registry step of the sub-module rule: when the task has a registry and
the identifier of the sub-build is not in it, the identifier is added and the
nested `build` runs (`build` is its effect on the shared state). -/
def scheduleSubBuild (env : Env) (build : BuildTask → Shared → Shared)
    (task : BuildTask) (subPkg : Pkg) (sh : Shared) : Shared :=
  if task.subBuilds then
    let subBuild := subBuildOf task subPkg
    let id := env.taskID subBuild
    if !sh.subBuilds.Has id then
      build subBuild { subBuilds := sh.subBuilds.Add id, started := sh.started ++ [id] }
    else sh
  else sh

/-- The part of `resolveExternal` that computes `resolvedPath` (everything
before the recording of imports and requires). -/
def resolvePath (env : Env) (build : BuildTask → Shared → Shared)
    (task : BuildTask) (specifier : Str) (sh : Shared) : Str × Shared :=
  -- node builtin module
  let resolvedPath : Str :=
    if env.nodejsInternalModules specifier then builtinPath env task specifier else []
  -- check the external query
  let resolvedPath : Str :=
    if resolvedPath = [] && (task.Args.external.Has "*".toList
        || task.Args.external.Has (env.getPkgName specifier)) then specifier
    else resolvedPath
  -- is sub-module of current package
  let (resolvedPath, sh) : Str × Shared :=
    if resolvedPath = [] && hasPrefix specifier (task.Pkg.Name ++ "/".toList) then
      let subPkg := subPkgOf env task specifier
      let sh := scheduleSubBuild env build task subPkg sh
      let resolvedPath := env.getImportPath task subPkg (env.encodeBuildArgsPrefix task.Args subPkg false)
      if task.NoBundle then
        match env.splitByLastByte resolvedPath '.' with
        | (n, e) => (n ++ ".nobundle.".toList ++ e, sh)
      else (resolvedPath, sh)
    else (resolvedPath, sh)
  -- replace some npm polyfills with native APIs
  let resolvedPath : Str :=
    if resolvedPath = [] then
      match env.embedPolyfill specifier with
      | some data => "data:application/javascript;base64,".toList ++ env.base64 data
      | none => resolvedPath
    else resolvedPath
  let resolvedPath : Str :=
    if resolvedPath = [] && task.Target ≠ "node".toList && specifier = "node-fetch".toList then
      env.CdnBasePath ++ "/npm_node-fetch.js".toList
    else resolvedPath
  -- common npm dependency
  let resolvedPath : Str :=
    if resolvedPath = [] then fallbackPath env task specifier else resolvedPath
  (resolvedPath, sh)

/-- Go `task.resolveExternal(specifier, kind)`: the returned path, the task
after the call and the shared state after the call. -/
def resolveExternal (env : Env) (build : BuildTask → Shared → Shared)
    (task : BuildTask) (specifier : Str) (kind : ResolveKind) (sh : Shared) :
    Str × BuildTask × Shared :=
  match resolvePath env build task specifier sh with
  | (resolvedPath, sh) =>
    let task : BuildTask :=
      if kind ≠ ResolveKind.ResolveJSDynamicImport then
        { task with imports := task.imports ++ [resolvedPath] }
      else task
    -- a require call
    if kind = ResolveKind.ResolveJSRequireCall then
      (specifier, { task with requires := task.requires ++ [(specifier, resolvedPath)] }, sh)
    else (resolvedPath, task, sh)

/-- The `resolveExternal` calls of one bundling pass, in the order they are
made.  `nested` lists the calls that the nested build of a call makes on the
sub-build task, should that call start one. -/
inductive Calls
  | done
  | call (specifier : Str) (kind : ResolveKind) (nested : Calls) (rest : Calls)
deriving Repr

/-- Running a sequence of `resolveExternal` calls on a task; a nested build is
the run of its own calls on the sub-build task. -/
def runCalls (env : Env) : Calls → BuildTask → Shared → BuildTask × Shared
  | Calls.done, task, sh => (task, sh)
  | Calls.call specifier kind nested rest, task, sh =>
    match resolveExternal env (fun t s => (runCalls env nested t s).2) task specifier kind sh with
    | (_, task1, sh1) => runCalls env rest task1 sh1

/-! ## The rebuild loop of `build` -/

/-- Go map assignment `m[k] = v` on an association list. -/
def mapSet {β : Type} (m : List (Str × β)) (k : Str) (v : β) : List (Str × β) :=
  match m with
  | [] => [(k, v)]
  | (k1, v1) :: rest => if k1 = k then (k, v) :: rest else (k1, v1) :: mapSet rest k v

/-- The two discovery sets of the rebuild loop: `implicitExternal` and the map
`browserExclude` from a stub path to the export names expected of it. -/
structure RetryState where
  implicitExternal : StringSet := newStringSet
  browserExclude : List (Str × StringSet) := []
deriving DecidableEq, Repr

/-- What `build` does after a pass that reported errors. -/
inductive Verdict
  /-- The statement `goto rebuild`, with the grown discovery sets. -/
  | retry (st : RetryState)
  /-- The statement `return` with the error text. -/
  | fail (err : Str)
deriving DecidableEq, Repr

/-- The error branch of `build` after `api.Build`: `msg` is the text of the
first error, `importPath` is `task.Pkg.ImportPath()`.  (`a[1]` after a
successful prefix test always exists; the index is read with a default.) -/
def onBuildError (importPath : Str) (st : RetryState) (msg : Str) : Verdict :=
  let afterResolve : Option Verdict :=
    if hasPrefix msg "Could not resolve \"".toList then
      -- current package/module can not be marked as external
      if strContains msg ("Could not resolve \"".toList ++ importPath ++ "\"".toList) then
        some (Verdict.fail ("could not resolve \"".toList ++ importPath ++ "\"".toList))
      else
        let name := (splitChar dq msg).getD 1 []
        if !st.implicitExternal.Has name then
          some (Verdict.retry { st with implicitExternal := st.implicitExternal.Add name })
        else none
    else none
  match afterResolve with
  | some v => v
  | none =>
    let afterExport : Option Verdict :=
      if hasPrefix msg "No matching export in \"".toList then
        let a := splitChar dq msg
        if a.length > 4 then
          let path := a.getD 1 []
          let exportName := a.getD 3 []
          if hasPrefix path "browser-exclude:".toList && exportName ≠ "default".toList then
            let path := trimPrefix path "browser-exclude:".toList
            let (exports, browserExclude) :=
              match st.browserExclude.lookup path with
              | some exports => (exports, st.browserExclude)
              | none => (newStringSet, mapSet st.browserExclude path newStringSet)
            if !exports.Has exportName then
              some (Verdict.retry
                { st with browserExclude := mapSet browserExclude path (exports.Add exportName) })
            else none
          else none
        else none
      else none
    match afterExport with
    | some v => v
    | none => Verdict.fail ("esbuild: ".toList ++ msg)

/-- An output file of the bundler (`api.OutputFile`). -/
structure OutputFile where
  Path : Str
  Contents : Str
deriving DecidableEq, Repr

/-- What one call of `api.Build` yields: the `resolveExternal` calls that the
resolve hook made during the pass, and the fields of `api.BuildResult` (the
messages by their text). -/
structure PassResult where
  calls : Calls := Calls.done
  Errors : List Str := []
  Warnings : List Str := []
  OutputFiles : List OutputFile := []

/-- How the rebuild loop ended. -/
inductive LoopEnd
  /-- A pass without errors. -/
  | built (result : PassResult)
  /-- A fatal diagnostic. -/
  | failed (err : Str)

/-- A finished run of the rebuild loop. -/
structure LoopRun where
  passes : Nat
  state : RetryState
  task : BuildTask
  shared : Shared
  ending : LoopEnd

/-- The loop `rebuild: ... goto rebuild` of `build`.  `apiBuild pass st` is the
bundler's answer on pass number `pass` with the discovery sets `st`; `fuel`
bounds the number of passes, and `none` means the bound was reached. -/
def rebuild (env : Env) (apiBuild : Nat → RetryState → PassResult) (importPath : Str) :
    Nat → Nat → RetryState → BuildTask → Shared → Option LoopRun
  | 0, _, _, _, _ => none
  | fuel + 1, pass, st, task, sh =>
    let result := apiBuild pass st
    match runCalls env result.calls task sh with
    | (task1, sh1) =>
      match result.Errors with
      | [] => some { passes := pass + 1, state := st, task := task1, shared := sh1,
                     ending := LoopEnd.built result }
      | msg :: _ =>
        match onBuildError importPath st msg with
        | Verdict.retry st1 => rebuild env apiBuild importPath fuel (pass + 1) st1 task1 sh1
        | Verdict.fail err =>
          some { passes := pass + 1, state := st, task := task1, shared := sh1,
                 ending := LoopEnd.failed err }

/-! ## Output assembler: the header of a JS output -/

/-- Modelled from the spec: the constant `EOL` is declared outside
`server/build.go`; the spec counts header lines by their line terminator. -/
def EOL : Str := "\n".toList

/-- One `Fprintf` into the `header` buffer. -/
inductive HeaderPart
  /-- The banner comment (package, lower-cased target, node environment). -/
  | banner (pkg target nodeEnv : Str)
  /-- The line that imports `__Process$` from `src`. -/
  | processImport (src : Str)
  /-- The line that imports `__Buffer$` from `src`. -/
  | bufferImport (src : Str)
  /-- The line that declares `__global$`. -/
  | globalVar
  /-- The line that declares `__setImmediate$`. -/
  | setImmediateVar
  /-- The line that declares `__rResolve$`. -/
  | rResolveVar
  /-- The namespace import of the `i`-th recorded require. -/
  | requireImport (i : Nat) (path : Str)
  /-- The opening of the `require` dispatcher. -/
  | requireOpen
  /-- One `case` of the dispatcher. -/
  | requireCase (specifier : Str) (esModule : Bool) (i : Nat)
  /-- The default branch and the end of the dispatcher. -/
  | requireDefault
deriving DecidableEq, Repr

/-- The text that each `Fprintf` writes. -/
def HeaderPart.render : HeaderPart → Str
  | banner pkg target nodeEnv =>
    "/* esm.sh - esbuild bundle(".toList ++ pkg ++ ") ".toList ++ target ++ " ".toList
      ++ nodeEnv ++ " */\n".toList
  | processImport src => "import __Process$ from \"".toList ++ src ++ "\";".toList ++ EOL
  | bufferImport src =>
    "import \x7b Buffer as __Buffer$ \x7d from \"".toList ++ src ++ "\";".toList ++ EOL
  | globalVar =>
    "var __global$ = globalThis || (typeof window !== \"undefined\" ? window : self);".toList ++ EOL
  | setImmediateVar =>
    "var __setImmediate$ = (cb, ...args) => setTimeout(cb, 0, ...args);".toList ++ EOL
  | rResolveVar => "var __rResolve$ = p => p;".toList ++ EOL
  | requireImport i path =>
    "import * as __".toList ++ hex i ++ "$ from \"".toList ++ path ++ "\";".toList ++ EOL
  | requireOpen =>
    "var require=n=>\x7bconst e=m=>typeof m.default<\"u\"?m.default:m,c=m=>Object.assign(\x7b\x7d,m);switch(n)\x7b".toList
  | requireCase specifier esModule i =>
    if esModule then
      "case\"".toList ++ specifier ++ "\":return c(__".toList ++ hex i ++ "$);".toList
    else
      "case\"".toList ++ specifier ++ "\":return e(__".toList ++ hex i ++ "$);".toList
  | requireDefault =>
    "default:throw new Error(\"module \\\"\"+n+\"\\\" not found\");\x7d\x7d;".toList ++ EOL

/-- The contents of the `header` buffer. -/
def renderHeader (parts : List HeaderPart) : Str := parts.flatMap HeaderPart.render

/-- Collaborators of `build` that are declared outside `server/build.go`. -/
structure BuildEnv extends Env where
  /-- The bundler `api.Build` with the resolve and load hooks installed,
  by pass number and discovery sets. -/
  apiBuild : Nat → RetryState → PassResult
  /-- The method `pkg.ImportPath()`. -/
  ImportPath : Pkg → Str
  /-- The method `pkg.String()`. -/
  PkgString : Pkg → Str
  /-- The helper `existsFile(path)`. -/
  existsFile : Str → Bool
  /-- The call `os.ReadFile(path)`. -/
  readFile : Str → Except Str Str
  /-- The file store `fs.WriteFile(path, content)`; `some` is its error. -/
  fsWriteFile : Str → Str → Option Str
  /-- The method `task.getSavepath()`. -/
  getSavepath : BuildTask → Str
  /-- The method `task.analyze(forceCjsOnly)`: manifest, package info,
  re-export target and error.  Every caller that goes on dereferences the
  manifest without a nil test, so it is taken as a value. -/
  analyze : BuildTask → Bool → ESMBuild × NpmPackageInfo × Str × Option Str
  /-- The method `task.getPackageInfo(specifier)`: package, package info and
  the from-JSON flag, or the error. -/
  taskGetPackageInfo : BuildTask → Str → Except Str (Pkg × NpmPackageInfo × Bool)
  /-- The helper `installPackage(wd, pkg)`; `some` is its error. -/
  installPackage : Str → Pkg → Option Str
  /-- Go `path.Join`. -/
  pathJoin : List Str → Str
  /-- Go `path.Ext`. -/
  pathExt : Str → Str
  /-- Go `filepath.Base`. -/
  filepathBase : Str → Str
  /-- Go `strings.ToLower`. -/
  toLower : Str → Str
  /-- The method `task._ghPrefix()`. -/
  ghPrefix : BuildTask → Str
  /-- The method `task.toTypesPath(wd, p, version, prefix, submodule)`. -/
  toTypesPath : BuildTask → Str → NpmPackageInfo → Str → Str → Str → Str
  /-- The helper `toTypesPackageName(name)`. -/
  toTypesPackageName : Str → Str
  /-- All matches of the pattern `regexpGlobalIdent` in a JS output. -/
  regexpGlobalIdentFindAll : Str → List Str
  /-- The test of `build` that a required module is bound to a variable that is
  later called as a function (the patterns `regexpVarEqual` and the compiled
  call pattern), on the JS output and the specifier. -/
  requireCalledAsFunction : Str → Str → Bool
  /-- The helper `isLocalSpecifier(specifier)`. -/
  isLocalSpecifier : Str → Bool
  /-- The method `task.rewriteJS(js)`: the replacement (nil when there is none)
  and the drop-source-map flag. -/
  rewriteJS : BuildTask → Str → Option Str × Bool
  /-- Go `json.Unmarshal` of a source map: the `mappings` field when it is a
  string, and the remaining fields; `none` when decoding fails. -/
  jsonUnmarshal : Str → Option (Option Str × Str)
  /-- Go `json.NewEncoder(buf).Encode` of a source map; `none` when it fails. -/
  jsonEncode : Option Str × Str → Option Str

/-- The local `nodeEnv` of `build`. -/
def nodeEnvOf (task : BuildTask) : Str :=
  if task.Dev then "development".toList else "production".toList

/-- Go `bytes.IndexByte(b, c)`. -/
def indexByte (b : Str) (c : Char) : Int :=
  if c ∈ b then (b.indexOf c : Nat) else -1

/-- The step that removes a shebang: the JS content and `task.smOffset` after
it. -/
def removeShebang (jsContent : Str) (smOffset : Int) : Str × Int :=
  if hasPrefix jsContent "#!/".toList then
    (jsContent.drop (indexByte jsContent '\n' + 1).toNat, smOffset - 1)
  else (jsContent, smOffset)

/-- The header line for `__Process$`, given the set `ids` of global
identifiers found in the JS output. -/
def processParts (env : BuildEnv) (task : BuildTask) (npm : NpmPackageInfo)
    (ids : StringSet) : List HeaderPart :=
  if ids.Has "__Process$".toList then
    if task.Args.external.Has "node:process".toList || task.Args.external.Has "*".toList then
      [HeaderPart.processImport "node:process".toList]
    else if task.Target = "denonext".toList then
      [HeaderPart.processImport "node:process".toList]
    else if task.Target = "deno".toList then
      [HeaderPart.processImport ("https://deno.land/std@".toList ++ task.Args.denoStdVersion
        ++ "/node/process.ts".toList)]
    else
      let browserExclude : Bool :=
        if npm.Browser.length > 0 then
          match npm.Browser.lookup "process".toList with
          | some name => decide (name = [])
          | none => false
        else false
      if !browserExclude then
        [HeaderPart.processImport (env.CdnBasePath ++ "/node/process.js".toList)]
      else []
  else []

/-- The header line for `__Buffer$`. -/
def bufferParts (env : BuildEnv) (task : BuildTask) (npm : NpmPackageInfo)
    (ids : StringSet) : List HeaderPart :=
  if ids.Has "__Buffer$".toList then
    if task.Args.external.Has "node:buffer".toList || task.Args.external.Has "*".toList then
      [HeaderPart.bufferImport "node:buffer".toList]
    else if task.Target = "denonext".toList then
      [HeaderPart.bufferImport "node:buffer".toList]
    else if task.Target = "deno".toList then
      [HeaderPart.bufferImport ("https://deno.land/std@".toList ++ task.Args.denoStdVersion
        ++ "/node/buffer.ts".toList)]
    else
      let browserExclude : Bool :=
        if npm.Browser.length > 0 then
          match npm.Browser.lookup "buffer".toList with
          | some name => decide (name = [])
          | none => false
        else false
      if !browserExclude then
        [HeaderPart.bufferImport (env.CdnBasePath ++ "/node/buffer.js".toList)]
      else []
  else []

/-- The block `add nodejs compatibility` of `build`. -/
def compatParts (env : BuildEnv) (task : BuildTask) (npm : NpmPackageInfo)
    (jsContent : Str) : List HeaderPart :=
  if task.Target ≠ "node".toList then
    let ids := (env.regexpGlobalIdentFindAll jsContent).foldl StringSet.Add newStringSet
    processParts env task npm ids ++ bufferParts env task npm ids
      ++ (if ids.Has "__global$".toList then [HeaderPart.globalVar] else [])
      ++ (if ids.Has "__setImmediate$".toList then [HeaderPart.setImmediateVar] else [])
      ++ (if ids.Has "__rResolve$".toList then [HeaderPart.rResolveVar] else [])
  else []

/-- The value of `isEsModule[i]` that the first loop over `task.requires`
computes for a recorded specifier. -/
def isEsModuleOf (env : BuildEnv) (task : BuildTask) (jsContent specifier : Str) : Bool :=
  if strContains jsContent ("(\"".toList ++ specifier ++ "\").default".toList) then true
  else if !env.isLocalSpecifier specifier && !env.nodejsInternalModules specifier then
    if env.requireCalledAsFunction jsContent specifier then false
    else
      match env.taskGetPackageInfo task specifier with
      | Except.ok (pkg, p, formJson) =>
        if p.ModuleType = "module".toList then true
        else
          let t : BuildTask :=
            { Args := task.Args, Pkg := pkg, Target := task.Target, Dev := task.Dev,
              wd := task.resolveDir }
          let e : Option Str := if !formJson then env.installPackage task.wd t.Pkg else none
          match e with
          | none =>
            match env.analyze t true with
            | (m, _, _, e) => e.isNone && decide ("__esModule".toList ∈ m.NamedExports)
          | some _ => false
      | Except.error _ => false
  else false

/-- The first loop over `task.requires`, from index `i` on: one
namespace import per recorded pair. -/
def requireImports : List (Str × Str) → Nat → List HeaderPart
  | [], _ => []
  | d :: rest, i => HeaderPart.requireImport i d.2 :: requireImports rest (i + 1)

/-- The second loop over `task.requires`, from index `i` on, with the set
`record` of specifiers that already have a case. -/
def requireCases (isEsModule : Nat → Bool) : List (Str × Str) → Nat → StringSet → List HeaderPart
  | [], _, _ => []
  | d :: rest, i, record =>
    if record.Has d.1 then requireCases isEsModule rest (i + 1) record
    else
      HeaderPart.requireCase d.1 (isEsModule i) i
        :: requireCases isEsModule rest (i + 1) (record.Add d.1)

/-- The block `if len(task.requires) > 0` of `build`. -/
def requireParts (env : BuildEnv) (task : BuildTask) (jsContent : Str) : List HeaderPart :=
  if task.requires.length > 0 then
    let isEsModule : Nat → Bool := fun i =>
      match task.requires.get? i with
      | some d => isEsModuleOf env task jsContent d.1
      | none => false
    requireImports task.requires 0 ++ [HeaderPart.requireOpen]
      ++ requireCases isEsModule task.requires 0 newStringSet ++ [HeaderPart.requireDefault]
  else []

/-- The `header` buffer that `build` assembles for a JS output whose content
(after the shebang step) is `jsContent`. -/
def headerParts (env : BuildEnv) (task : BuildTask) (npm : NpmPackageInfo)
    (jsContent : Str) : List HeaderPart :=
  HeaderPart.banner (env.PkgString task.Pkg) (env.toLower task.Target) (nodeEnvOf task)
    :: (compatParts env task npm jsContent ++ requireParts env task jsContent)

/-! ## Output assembler: artifacts -/

/-- An effect of `build` on its collaborators. -/
inductive Effect
  /-- A call `fs.WriteFile(path, content)`. -/
  | writeFile (path content : Str)
  /-- A call `task.storeToDB()`: `db.Put` of the task identifier and manifest. -/
  | storeToDB (id : Str) (esm : Option ESMBuild)
  /-- A call `task.buildDTS(dts)`. -/
  | buildDTS (dts : Str)
deriving DecidableEq, Repr

/-- How a call of `build` ends. -/
inductive Outcome
  /-- The function returns `err` (`none` is nil). -/
  | returned (err : Option Str)
  /-- A run-time panic. -/
  | panicked
deriving DecidableEq, Repr

/-- Go `strings.ReplaceAll(s, "\"", "\\\"")`. -/
def escapeQuotes (s : Str) : Str :=
  s.flatMap (fun c => if c = dq then "\\\"".toList else [c])

/-- The processing of one `.js` output file in the first loop over
`result.OutputFiles`: the task after it (only `smOffset` changes) and the
content handed to `fs.WriteFile`. -/
def assembleJS (env : BuildEnv) (task : BuildTask) (npm : NpmPackageInfo)
    (contents : Str) : BuildTask × Str :=
  -- remove shebang
  match removeShebang contents task.smOffset with
  | (jsContent, smOffset) =>
    let task : BuildTask := { task with smOffset := smOffset }
    let header := renderHeader (headerParts env task npm jsContent)
    -- to fix the source map
    let task : BuildTask := { task with smOffset := task.smOffset + stringsCount header EOL }
    match env.rewriteJS task jsContent with
    | (ret, dropSourceMap) =>
      let jsContent := match ret with
        | some r => r
        | none => jsContent
      let finalContent := header ++ jsContent
      let finalContent :=
        if task.deprecated ≠ [] then
          finalContent ++ "console.warn(\"[npm] %cdeprecated%c ".toList ++ task.Pkg.Name
            ++ "@".toList ++ task.Pkg.Version ++ ": ".toList ++ escapeQuotes task.deprecated
            ++ "\", \"color:red\", \"\");".toList ++ "\n".toList
        else finalContent
      -- add the source map url
      let finalContent :=
        if !dropSourceMap then
          finalContent ++ "//# sourceMappingURL=".toList ++ env.filepathBase (env.taskID task)
            ++ ".map".toList
        else finalContent
      (task, finalContent)

/-- The first loop over `result.OutputFiles` (`.js` files), threading the
named result `err`.  The first component is true when a write failed and
`build` returns at once. -/
def writeJSFiles (env : BuildEnv) (npm : NpmPackageInfo) :
    List OutputFile → Option Str → BuildTask → List Effect →
      Bool × Option Str × BuildTask × List Effect
  | [], err, task, effects => (false, err, task, effects)
  | file :: rest, err, task, effects =>
    if hasSuffix file.Path ".js".toList then
      match assembleJS env task npm file.Contents with
      | (task1, finalContent) =>
        let effects1 := effects ++ [Effect.writeFile (env.getSavepath task1) finalContent]
        match env.fsWriteFile (env.getSavepath task1) finalContent with
        | some e => (true, some e, task1, effects1)
        | none => writeJSFiles env npm rest none task1 effects1
    else writeJSFiles env npm rest err task effects

/-- Go `copy(dst[at:], src)`. -/
def copyAt (dst : Str) (pos : Nat) (src : Str) : Str :=
  dst.take pos ++ src.take (dst.length - pos) ++ dst.drop (pos + src.length)

/-- The rewriting of the `mappings` string of a source map: a buffer of
`smOffset + len(mapping)` bytes, its first `smOffset` bytes set to `;`, the
mapping copied behind them.  `none` is the panic of `make` or of the slice
expression on a negative `smOffset`. -/
def fixMappings (smOffset : Int) (mapping : Str) : Option Str :=
  if smOffset + mapping.length < 0 then none
  else
    let fixedMapping : Str := List.replicate (smOffset + mapping.length).toNat (Char.ofNat 0)
    let fixedMapping : Str :=
      (List.range smOffset.toNat).foldl (fun buf i => buf.set i ';') fixedMapping
    if smOffset < 0 then none
    else some (copyAt fixedMapping smOffset.toNat mapping)

/-- The second loop over `result.OutputFiles` (`.css` and `.js.map` files),
threading the named result `err`.  The first component is `some` when the loop
ends `build` at once. -/
def writeOtherFiles (env : BuildEnv) :
    List OutputFile → Option Str → BuildTask → List Effect →
      Option Outcome × Option Str × BuildTask × List Effect
  | [], err, task, effects => (none, err, task, effects)
  | file :: rest, err, task, effects =>
    if hasSuffix file.Path ".css".toList then
      let savePath := env.getSavepath task
      let cssPath := trimSuffix savePath (env.pathExt savePath) ++ ".css".toList
      let effects1 := effects ++ [Effect.writeFile cssPath file.Contents]
      match env.fsWriteFile cssPath file.Contents with
      | some e => (some (Outcome.returned (some e)), some e, task, effects1)
      | none =>
        writeOtherFiles env rest none
          { task with esm := task.esm.map (fun esm => { esm with PackageCSS := true }) } effects1
    else if hasSuffix file.Path ".js.map".toList then
      match env.jsonUnmarshal file.Contents with
      | some (mappings, others) =>
        let fixed : Option (Option Str) :=
          match mappings with
          | some mapping => (fixMappings task.smOffset mapping).map some
          | none => some none
        match fixed with
        | none => (some Outcome.panicked, err, task, effects)
        | some mappings1 =>
          match env.jsonEncode (mappings1, others) with
          | some buf =>
            let mapPath := env.getSavepath task ++ ".map".toList
            let effects1 := effects ++ [Effect.writeFile mapPath buf]
            match env.fsWriteFile mapPath buf with
            | some e => (some (Outcome.returned (some e)), some e, task, effects1)
            | none => writeOtherFiles env rest none task effects1
          | none => writeOtherFiles env rest err task effects
      | none => writeOtherFiles env rest err task effects
    else writeOtherFiles env rest err task effects

/-! ## `checkDTS`, `storeToDB` and `build` -/

/-- Go `strings.Join(parts, sep)`. -/
def joinWith (sep : Str) : List Str → Str
  | [] => []
  | [a] => a
  | a :: b :: rest => a ++ sep ++ joinWith sep (b :: rest)

/-- Go `task.checkDTS()`. -/
def checkDTS (env : BuildEnv) (task : BuildTask) : BuildTask :=
  let name := task.Pkg.Name
  let submodule := task.Pkg.SubModule
  let dts : Str :=
    if task.npm.Types ≠ [] then
      env.toTypesPath task task.wd task.npm [] (env.encodeBuildArgsPrefix task.Args task.Pkg true)
        submodule
    else if !hasPrefix name "@types/".toList then
      let versionParts := splitChar '.' task.Pkg.Version
      let versions : List Str :=
        if versionParts.length > 2 then
          [ "~".toList ++ joinWith ".".toList (versionParts.take 2),
            "~".toList ++ versionParts.getD 0 [],
            "latest".toList ]
        else ["latest".toList]
      let typesPkgName := env.toTypesPackageName name
      let versions : List Str :=
        match PkgSliceGet task.Args.deps typesPkgName with
        | some pkg => pkg.Version :: versions
        | none => versions
      let found := versions.findSome? (fun version =>
        (env.getPackageInfo task.resolveDir typesPkgName version).map (fun p => (p, version)))
      match found with
      | some (p, version) =>
        env.toTypesPath task task.wd p version
          (env.encodeBuildArgsPrefix task.Args { Name := p.Name } true) submodule
      | none => []
    else []
  if dts ≠ [] then
    { task with esm := task.esm.map (fun esm => { esm with Dts := env.ghPrefix task ++ dts }) }
  else task

/-- Go `task.storeToDB()`, as the effect it has. -/
def storeToDB (env : BuildEnv) (task : BuildTask) : Effect :=
  Effect.storeToDB (env.taskID task) task.esm

/-- A finished call of `build`. -/
structure BuildRun where
  outcome : Outcome
  task : BuildTask
  shared : Shared
  effects : List Effect
  passes : Nat

/-- The part of `build` after the trivial cases: the rebuild loop, the output
assembler and the result builder.  `err` is the value of the named result
when the part is entered. -/
def bundleAndStore (env : BuildEnv) (fuel : Nat) (task : BuildTask) (npm : NpmPackageInfo)
    (err : Option Str) (sh : Shared) : Option BuildRun :=
  match rebuild env.toEnv env.apiBuild (env.ImportPath task.Pkg) fuel 0 {} task sh with
  | none => none
  | some run =>
    match run.ending with
    | LoopEnd.failed e =>
      some { outcome := Outcome.returned (some e), task := run.task, shared := run.shared,
             effects := [], passes := run.passes }
    | LoopEnd.built result =>
      match writeJSFiles env npm result.OutputFiles err run.task [] with
      | (true, err1, task1, effects1) =>
        some { outcome := Outcome.returned err1, task := task1, shared := run.shared,
               effects := effects1, passes := run.passes }
      | (false, err1, task1, effects1) =>
        match writeOtherFiles env result.OutputFiles err1 task1 effects1 with
        | (some out, _, task2, effects2) =>
          some { outcome := out, task := task2, shared := run.shared, effects := effects2,
                 passes := run.passes }
        | (none, err2, task2, effects2) =>
          let task3 : BuildTask :=
            { task2 with esm := task2.esm.map (fun esm =>
                { esm with Deps := computeDeps task2.imports }) }
          let task4 := checkDTS env task3
          some { outcome := Outcome.returned err2, task := task4, shared := run.shared,
                 effects := effects2 ++ [storeToDB env task4], passes := run.passes }

/-- Go `task.build()`.  `fuel` bounds the number of bundling passes; `none`
means the bound was reached. -/
def build (env : BuildEnv) (fuel : Nat) (task : BuildTask) (sh : Shared) : Option BuildRun :=
  let ret (out : Outcome) (task : BuildTask) (effects : List Effect) : Option BuildRun :=
    some { outcome := out, task := task, shared := sh, effects := effects, passes := 0 }
  -- build json
  let jsonPath := env.pathJoin
    [env.pathJoin [task.wd, "node_modules".toList], task.Pkg.Name, task.Pkg.SubModule]
  if hasSuffix task.Pkg.SubModule ".json".toList && env.existsFile jsonPath then
    match env.readFile jsonPath with
    | Except.error e => ret (Outcome.returned (some e)) task []
    | Except.ok json =>
      let buffer := "export default ".toList ++ json
      let effects := [Effect.writeFile (env.getSavepath task) buffer]
      match env.fsWriteFile (env.getSavepath task) buffer with
      | some e => ret (Outcome.returned (some e)) task effects
      | none =>
        let task : BuildTask := { task with esm := some { HasExportDefault := true } }
        ret (Outcome.returned none) task (effects ++ [storeToDB env task])
  else
    match env.analyze task false with
    | (esm, npm, reexport, err) =>
      if err.isSome ∧ ¬ hasPrefix (err.getD []) "cjsLexer: Can\x27t resolve".toList then
        ret (Outcome.returned err) task []
      else
        let task : BuildTask := { task with npm := npm, esm := some esm }
        if task.Target = "types".toList then
          if npm.Types ≠ [] then
            let dts := npm.Name ++ "@".toList ++ npm.Version ++ env.pathJoin ["/".toList, npm.Types]
            ret (Outcome.returned err) task [Effect.buildDTS dts]
          else ret (Outcome.returned err) task []
        else if esm.TypesOnly then
          let dts := npm.Name ++ "@".toList ++ npm.Version ++ env.pathJoin ["/".toList, npm.Types]
          let task : BuildTask :=
            { task with esm := some { esm with Dts := env.ghPrefix task ++ dts } }
          ret (Outcome.returned err) task [Effect.buildDTS dts, storeToDB env task]
        -- cjs reexport
        else if reexport ≠ [] then
          match env.taskGetPackageInfo task reexport with
          | Except.error e => ret (Outcome.returned (some e)) task []
          | Except.ok (pkg, _, formJson) =>
            let t : BuildTask :=
              { Args := task.Args, Pkg := pkg, Target := task.Target, Dev := task.Dev,
                wd := task.resolveDir }
            match (if !formJson then env.installPackage task.wd t.Pkg else none) with
            | some e => ret (Outcome.returned (some e)) task []
            | none =>
              match env.analyze t false with
              | (_, _, _, some e) => ret (Outcome.returned (some e)) task []
              | (m, _, _, none) =>
                let importPath :=
                  env.getImportPath task t.Pkg (env.encodeBuildArgsPrefix task.Args task.Pkg false)
                let buf := "export * from \"".toList ++ importPath ++ "\";".toList
                let buf :=
                  if m.HasExportDefault then
                    buf ++ "\n".toList ++ "export \x7b default \x7d from \"".toList ++ importPath
                      ++ "\";".toList
                  else buf
                let effects := [Effect.writeFile (env.getSavepath task) buf]
                match env.fsWriteFile (env.getSavepath task) buf with
                | some e => ret (Outcome.returned (some e)) task effects
                | none =>
                  let task := checkDTS env task
                  ret (Outcome.returned none) task (effects ++ [storeToDB env task])
        else bundleAndStore env fuel task npm err sh

/-! ## The load hook of browser-excluded modules -/

/-- The `OnLoad` callback of the namespace `browser-exclude`: the contents
returned for the stub `path`, given the map `browserExclude` of the discovery
sets. -/
def browserExcludeLoad (st : RetryState) (path : Str) : Str :=
  let contents := "export default \x7b\x7d;".toList
  match st.browserExclude.lookup path with
  | some exports =>
    exports.Values.foldl
      (fun contents name => contents ++ "export const ".toList ++ name ++ " = \x7b\x7d;".toList)
      contents
  | none => contents

/-! ## The resolve hook (`OnResolve`) -/

/-- The arguments of the resolve hook (`api.OnResolveArgs`). -/
structure OnResolveArgs where
  Path : Str
  Kind : ResolveKind
  ResolveDir : Str := []
  Importer : Str := []
deriving DecidableEq, Repr

/-- The result of the resolve hook (`api.OnResolveResult`); the zero value
leaves the specifier to the bundler. -/
structure OnResolveResult where
  Path : Str := []
  External : Bool := false
  Namespace : Str := []
deriving DecidableEq, Repr

/-- A parsed URL (`*url.URL`): its fields `Scheme`, `Path`, `Fragment` and the
values of its methods `Hostname()` and `Port()`. -/
structure URL where
  Scheme : Str := []
  Hostname : Str := []
  Port : Str := []
  Path : Str := []
  Fragment : Str := []
deriving DecidableEq, Repr

/-- Collaborators of the resolve hook that are declared outside
`server/build.go`, on top of those of `build`. -/
structure HookEnv extends BuildEnv where
  /-- The list `nativeNodePackages`. -/
  nativeNodePackages : List Str
  /-- The method `task.isServerTarget()`. -/
  isServerTarget : BuildTask → Bool
  /-- Go `filepath.Join`. -/
  filepathJoin : List Str → Str
  /-- Go `path.Base`. -/
  pathBase : Str → Str
  /-- The helper `stripModuleExt(path)`. -/
  stripModuleExt : Str → Str
  /-- Go `url.Parse`; `none` when it returns an error. -/
  urlParse : Str → Option URL
  /-- Go `url.QueryEscape`. -/
  urlQueryEscape : Str → Str
  /-- The size reported by `os.Lstat(path)`; `none` when it returns an error. -/
  lstatSize : Str → Option Nat
  /-- The helper `minify(code, target, loader)`; `none` when it returns an
  error. -/
  minify : Str → Option Str

/-- What the resolve hook does with a specifier. -/
inductive Decision
  /-- It returns this result. -/
  | result (r : OnResolveResult)
  /-- It returns the external result whose path is
  `task.resolveExternal(specifier, args.Kind)`. -/
  | external (specifier : Str)
  /-- It panics. -/
  | panic
deriving DecidableEq, Repr

/-- The local `entryPoint` of `build`. -/
def entryPointOf (env : BuildEnv) (task : BuildTask) (npm : NpmPackageInfo) : Str :=
  if npm.Module = [] then []
  else if task.Args.exports.Len > 0 then []
  else env.pathJoin [task.wd, "node_modules".toList, npm.Name, npm.Module]

/-- The local `noBundle` of `build`. -/
def noBundleOf (task : BuildTask) (npm : NpmPackageInfo) : Bool :=
  let noBundle : Bool :=
    task.NoBundle || (match npm.SideEffects with
      | some sideEffects => decide (sideEffects.Len > 0)
      | none => false)
  match npm.ESMConfig with
  | some config =>
    match config.lookup "bundle".toList with
    | some (some b) => if !b then true else noBundle
    | _ => noBundle
  | none => noBundle

/-- The block `normalize specifier` of the hook. -/
def normalizeSpecifier (path : Str) : Str :=
  let specifier := trimSuffix path "/".toList
  let specifier := trimPrefix specifier "node:".toList
  trimPrefix specifier "npm:".toList

/-- The block `resolve alias in dependencies` of the hook: the specifier it
leaves (`Sum.inr`), or the way the hook ends there (`Sum.inl`).  The slice
`gitUrl.Path[1:]` panics on an empty path. -/
def resolveDependencyAlias (env : HookEnv) (npm : NpmPackageInfo) (specifier : Str) :
    Decision ⊕ Str :=
  match npm.Dependencies.lookup specifier with
  | some v =>
    if hasPrefix v "npm:".toList then Sum.inr (v.drop 4)
    else if hasPrefix v "git+ssh://".toList || hasPrefix v "git+https://".toList
        || hasPrefix v "git://".toList then
      match env.urlParse v with
      | some gitUrl =>
        if gitUrl.Hostname = "github.com".toList then
          if gitUrl.Path.length < 1 then Sum.inl Decision.panic
          else
            let repo := trimSuffix (gitUrl.Path.drop 1) ".git".toList
            let repo :=
              if gitUrl.Scheme = "git+ssh".toList then gitUrl.Port ++ "/".toList ++ repo else repo
            let path := "/gh/".toList ++ repo
            let path :=
              if gitUrl.Fragment ≠ [] then path ++ "@".toList ++ env.urlQueryEscape gitUrl.Fragment
              else path
            Sum.inl (Decision.result { Path := path, External := true })
        else Sum.inr specifier
      | none => Sum.inr specifier
    else Sum.inr specifier
  | none => Sum.inr specifier

/-- The block `resolve specifier with package imports field` of the hook. -/
def resolveImports (env : HookEnv) (task : BuildTask) (npm : NpmPackageInfo)
    (specifier : Str) : Str :=
  match npm.Imports.lookup specifier with
  | some (Paths.str s) => s
  | some (Paths.conds m) =>
    let targets : List Str :=
      if env.isServerTarget task then ["node".toList, "default".toList, "browser".toList]
      else ["browser".toList, "default".toList, "node".toList]
    match targets.findSome? (fun t =>
        match m.lookup t with
        | some (some s) => some s
        | _ => none) with
    | some s => s
    | none => specifier
  | _ => specifier

/-- The block `resolve specifier with package browser field` of the hook. -/
def resolveBrowser (env : HookEnv) (task : BuildTask) (npm : NpmPackageInfo)
    (args : OnResolveArgs) (specifier : Str) : Decision ⊕ Str :=
  if npm.Browser.length > 0 && !env.isServerTarget task then
    let spec : Str :=
      if hasPrefix specifier "./".toList || hasPrefix specifier "../".toList
          || specifier = "..".toList then
        let fullFilepath := env.filepathJoin [args.ResolveDir, specifier]
        ".".toList ++ trimPrefix fullFilepath
          (env.pathJoin [task.resolveDir, "node_modules".toList, npm.Name])
      else specifier
    let spec : Str :=
      if (npm.Browser.lookup spec).isNone && env.pathExt spec = [] then spec ++ ".js".toList
      else spec
    match npm.Browser.lookup spec with
    | some name =>
      if name = [] then
        -- browser exclude
        Sum.inl (Decision.result { Path := args.Path, Namespace := "browser-exclude".toList })
      else if hasPrefix name "./".toList then
        Sum.inr (env.pathJoin [task.resolveDir, "node_modules".toList, npm.Name, name])
      else Sum.inr name
    | none => Sum.inr specifier
  else Sum.inr specifier

/-- The block `resolve specifier by checking the alias query` of the hook. -/
def resolveAliasQuery (env : HookEnv) (task : BuildTask) (specifier : Str) : Str :=
  if task.Args.aliases.length > 0 then
    match task.Args.aliases.lookup specifier with
    | some name => name
    | none =>
      match env.splitPkgPath specifier with
      | (pkgName, _, subpath) =>
        if subpath ≠ [] then
          match task.Args.aliases.lookup pkgName with
          | some name => name ++ "/".toList ++ subpath
          | none => specifier
        else specifier
  else specifier

/-- The block `ignore native node packages` of the hook; `buildErr` is the
named result `err` of `build`, which the closure reads.  `none` means that no
listed package matches. -/
def nativePackageRule (env : HookEnv) (task : BuildTask) (npm : NpmPackageInfo)
    (buildErr : Option Str) (specifier : Str) : Option Decision :=
  if env.nativeNodePackages.any
      (fun name => decide (specifier = name) || hasPrefix specifier (name ++ "/".toList)) then
    let deno : Option Decision :=
      if task.Target = "denonext".toList then
        match env.splitPkgPath specifier with
        | (pkgName, _, subPath) =>
          let version : Str :=
            if pkgName = task.Pkg.Name then task.Pkg.Version
            else match npm.Dependencies.lookup pkgName with
              | some v => v
              | none =>
                match npm.PeerDependencies.lookup pkgName with
                | some v => v
                | none => "latest".toList
          let version : Str :=
            if !env.regexpFullVersion version then
              match env.getPackageInfo task.resolveDir pkgName version with
              | some p => p.Version
              | none => version
            else version
          if buildErr.isNone then
            some (Decision.result
              { Path := "npm:".toList ++ env.PkgString
                  { Name := pkgName, Version := version, SubPath := subPath,
                    SubModule := env.toModuleBareName subPath true },
                External := true })
          else none
      else none
    match deno with
    | some d => some d
    | none =>
      if specifier = "fsevents".toList then
        some (Decision.result
          { Path := env.CdnBasePath ++ "/npm_fsevents.js".toList, External := true })
      else
        some (Decision.result
          { Path := env.CdnBasePath ++ "/error.js?type=unsupported-npm-package&name=".toList
              ++ specifier ++ "&importer=".toList ++ env.PkgString task.Pkg,
            External := true })
  else none

/-- The test of one string target of a wildcard `exports` entry: whether the
file matches it, and the part of the target before its `*`. -/
def wildcardMatch (env : HookEnv) (bareName modulePath s : Str) : Bool × Str :=
  match env.splitByLastByte s '*' with
  | (pre, suffix) =>
    (hasPrefix bareName pre && (decide (suffix = []) || hasSuffix modulePath suffix), pre)

/-- The loop over the values of a condition map of a wildcard `exports` entry:
it stops at the first string value that matches; `acc` holds `match` and
`prefix` as left by the values seen so far. -/
def condsWildcardMatch (env : HookEnv) (bareName modulePath : Str) :
    List (Str × Option Str) → Bool × Str → Bool × Str
  | [], acc => acc
  | (_, some s) :: rest, _ =>
    if (wildcardMatch env bareName modulePath s).1 then wildcardMatch env bareName modulePath s
    else condsWildcardMatch env bareName modulePath rest (wildcardMatch env bareName modulePath s)
  | (_, none) :: rest, acc => condsWildcardMatch env bareName modulePath rest acc

/-- The loop over the entries of the `exports` map: the sub-module that the
first matching entry redirects to, unless it is the task's own import path or
that path followed by `/index`. -/
def exportsRedirect (env : HookEnv) (task : BuildTask) (npm : NpmPackageInfo)
    (bareName modulePath : Str) : List (Str × Paths) → Option Str
  | [] => none
  | (name, paths) :: rest =>
    if !(decide (name = ".".toList) || hasPrefix name "./".toList) then
      exportsRedirect env task npm bareName modulePath rest
    else if '*' ∈ name then
      let m : Bool × Str :=
        match paths with
        | Paths.str s => wildcardMatch env bareName modulePath s
        | Paths.conds values => condsWildcardMatch env bareName modulePath values (false, [])
        | Paths.other => (false, [])
      if m.1 then
        let url := env.pathJoin [npm.Name, (env.splitByLastByte name '*').1 ++ trimPrefix bareName m.2]
        if url ≠ env.ImportPath task.Pkg ∧ url ≠ env.ImportPath task.Pkg ++ "/index".toList then
          some url
        else exportsRedirect env task npm bareName modulePath rest
      else exportsRedirect env task npm bareName modulePath rest
    else
      let m : Bool :=
        match paths with
        | Paths.str s => decide (env.stripModuleExt s = bareName)
        | Paths.conds values =>
          values.any (fun v =>
            match v.2 with
            | some s => decide (env.stripModuleExt s = bareName)
            | none => false)
        | Paths.other => false
      if m then
        let url := env.pathJoin [npm.Name, env.stripModuleExt name]
        if url ≠ env.ImportPath task.Pkg ∧ url ≠ env.ImportPath task.Pkg ++ "/index".toList then
          some url
        else exportsRedirect env task npm bareName modulePath rest
      else exportsRedirect env task npm bareName modulePath rest

/-- The block `split the module that is an alias of a dependency` of the hook:
the dependency that a short file re-exports with a single `export * from`. -/
def reexportTarget (env : HookEnv) (fullFilepath : Str) : Option Str :=
  match env.lstatSize fullFilepath with
  | some size =>
    if size < 256 then
      match env.readFile fullFilepath with
      | Except.ok data =>
        match env.minify data with
        | some out =>
          let p := splitChar dq out
          if p.length = 3 ∧ p.getD 0 [] = "export*from".toList ∧ p.getD 2 [] = ";\n".toList then
            if !env.isLocalSpecifier (p.getD 1 []) then some (p.getD 1 []) else none
          else none
        | none => none
      | Except.error _ => none
    else none
  | none => none

/-- The rule for in-package local files, entered with the specifier made
relative to `node_modules`. -/
def inPackageRule (env : HookEnv) (task : BuildTask) (npm : NpmPackageInfo) (noBundle : Bool)
    (kind : ResolveKind) (fullFilepath specifier : Str) : Decision :=
  if hasPrefix specifier (npm.Name ++ "/".toList) then
    let modulePath := ".".toList ++ trimPrefix specifier npm.Name
    let bareName := env.stripModuleExt modulePath
    -- the file is the sub-module being built: the bundler handles it
    if bareName = "./".toList ++ task.Pkg.SubModule then Decision.result {}
    else
      -- split modules based on the exports defined in package.json
      match npm.PkgExports.bind (exportsRedirect env task npm bareName modulePath) with
      | some url => Decision.external url
      | none =>
        match reexportTarget env fullFilepath with
        | some url => Decision.external url
        | none =>
          -- bundle the module
          if kind ≠ ResolveKind.ResolveJSDynamicImport ∧ ¬ noBundle then Decision.result {}
          else Decision.external specifier
  else Decision.external specifier

/-- The rules of the hook from the native-package test on, entered with the
specifier that the normalization and the alias, `imports`, `browser` and alias
query substitutions left. -/
def resolveSpecifier (env : HookEnv) (task : BuildTask) (npm : NpmPackageInfo)
    (st : RetryState) (buildErr : Option Str) (args : OnResolveArgs) (specifier : Str) :
    Decision :=
  -- ignore native node packages
  match nativePackageRule env task npm buildErr specifier with
  | some d => d
  | none =>
    let fullFilepath : Str :=
      if env.isLocalSpecifier specifier then env.filepathJoin [args.ResolveDir, specifier]
      else env.filepathJoin [task.resolveDir, "node_modules".toList, specifier]
    -- native node modules do not work via http import
    if hasSuffix fullFilepath ".node".toList && env.existsFile fullFilepath then
      Decision.result
        { Path := env.CdnBasePath
            ++ "/error.js?type=unsupported-node-native-module&name=".toList
            ++ env.pathBase args.Path ++ "&importer=".toList ++ env.PkgString task.Pkg,
          External := true }
    -- bundles json module
    else if hasSuffix fullFilepath ".json".toList && env.existsFile fullFilepath then
      Decision.result {}
    -- embed wasm as WebAssembly.Module
    else if hasSuffix fullFilepath ".wasm".toList && env.existsFile fullFilepath then
      Decision.result { Path := fullFilepath, Namespace := "wasm".toList }
    -- externalize the parent module
    else if task.Pkg.SubModule ≠ [] ∧ task.Pkg.Name = specifier ∧ ¬ task.Bundle then
      Decision.external specifier
    -- it is the entry point
    else if specifier = entryPointOf env.toBuildEnv task npm
        ∨ specifier = env.ImportPath task.Pkg
        ∨ specifier = env.pathJoin [npm.Name, npm.Module]
        ∨ specifier = env.pathJoin [npm.Name, npm.Main] then
      Decision.result {}
    -- it is a nodejs internal module
    else if env.nodejsInternalModules specifier then Decision.external specifier
    -- bundles all dependencies in bundle mode, apart from peer dependencies and
    -- the external query
    else if task.Bundle && !task.Args.external.Has (env.getPkgName specifier)
        && !st.implicitExternal.Has specifier
        && (npm.PeerDependencies.lookup (env.getPkgName specifier)).isNone then
      Decision.result {}
    else if env.isLocalSpecifier specifier then
      inPackageRule env task npm (noBundleOf task npm) args.Kind fullFilepath
        (trimPrefix fullFilepath
          (env.filepathJoin [task.resolveDir, "node_modules".toList] ++ "/".toList))
    -- dynamic external
    else Decision.external specifier

/-- The callback passed to `build.OnResolve`, up to the call of
`resolveExternal`: what the hook decides for the arguments `args`, given the
task, the package info, the discovery sets and the named result `err` of
`build`. -/
def onResolveDecision (env : HookEnv) (task : BuildTask) (npm : NpmPackageInfo)
    (st : RetryState) (buildErr : Option Str) (args : OnResolveArgs) : Decision :=
  -- ban file urls
  if hasPrefix args.Path "file:".toList then
    Decision.result
      { Path := env.CdnBasePath ++ "/error.js?type=unsupported-file-dependency&name=".toList
          ++ trimPrefix args.Path "file:".toList ++ "&importer=".toList
          ++ env.PkgString task.Pkg,
        External := true }
  -- skip http modules
  else if hasPrefix args.Path "data:".toList || hasPrefix args.Path "https:".toList
      || hasPrefix args.Path "http:".toList then
    Decision.result { Path := args.Path, External := true }
  -- ignore a specifier that is a require call when the query asks for it
  else if task.Args.ignoreRequire && decide (args.Kind = ResolveKind.ResolveJSRequireCall)
      && decide (npm.Module ≠ []) then
    Decision.result { Path := args.Path, External := true }
  -- ignore yarn PnP API
  else if args.Path = "pnpapi".toList then
    Decision.result { Path := args.Path, Namespace := "browser-exclude".toList }
  -- it is implicit external
  else if st.implicitExternal.Has args.Path then Decision.external args.Path
  else
    -- normalize specifier
    let specifier := normalizeSpecifier args.Path
    -- resolve alias in dependencies
    match resolveDependencyAlias env npm specifier with
    | Sum.inl d => d
    | Sum.inr specifier =>
      -- resolve specifier with package imports field
      let specifier := resolveImports env task npm specifier
      -- resolve specifier with package browser field
      match resolveBrowser env task npm args specifier with
      | Sum.inl d => d
      | Sum.inr specifier =>
        -- resolve specifier by checking the alias query
        let specifier := resolveAliasQuery env task specifier
        resolveSpecifier env task npm st buildErr args specifier

/-- The callback passed to `build.OnResolve`: the result it returns with the
task and the shared state after it; `none` is a panic.  `nested` lists the
`resolveExternal` calls of the nested build that the call may start. -/
def OnResolve (env : HookEnv) (nested : Calls) (task : BuildTask) (npm : NpmPackageInfo)
    (st : RetryState) (buildErr : Option Str) (args : OnResolveArgs) (sh : Shared) :
    Option (OnResolveResult × BuildTask × Shared) :=
  match onResolveDecision env task npm st buildErr args with
  | Decision.result r => some (r, task, sh)
  | Decision.external specifier =>
    match resolveExternal env.toEnv (fun t s => (runCalls env.toEnv nested t s).2) task
        specifier args.Kind sh with
    | (path, task1, sh1) => some ({ Path := path, External := true }, task1, sh1)
  | Decision.panic => none

/-! ## A concrete environment

A small, fully executable instance of the collaborators, used to evaluate the
definitions on concrete inputs. -/

/-- A simple `splitPkgPath`: `name@version/subpath`, each part optional after
the name. -/
def demoSplitPkgPath (specifier : Str) : Str × Str × Str :=
  let nameVersion := specifier.takeWhile (fun c => c ≠ '/')
  let subpath := (specifier.dropWhile (fun c => c ≠ '/')).drop 1
  (nameVersion.takeWhile (fun c => c ≠ '@'),
    (nameVersion.dropWhile (fun c => c ≠ '@')).drop 1, subpath)

/-- The last element of a path as `filepath.Base` gives it: trailing slashes
are dropped, the empty path gives `.` and a path of slashes only gives `/`. -/
def demoBase (path : Str) : Str :=
  if path = [] then ".".toList
  else
    match ((splitChar '/' path).filter (fun seg => seg ≠ [])).getLast? with
    | some seg => seg
    | none => "/".toList

/-- Whether a character may stand in a `mappings` string (the base-64 digits
and the two separators). -/
def isMappingsChar (c : Char) : Bool :=
  c.isAlphanum || c = '+' || c = '/' || c = ',' || c = ';'

/-- The opening of the source-map documents that `demoJsonUnmarshal` reads. -/
def demoMapOpening : Str := "\x7b\"version\":3,\"mappings\":\"".toList

/-- The closing of the source-map documents that `demoJsonUnmarshal` reads. -/
def demoMapClosing : Str := "\"\x7d".toList

/-- A decoder for the JSON documents of the form
`{"version":3,"mappings":"<m>"}`, where `<m>` consists of base-64 digits,
commas and semicolons: it gives `<m>` and, as the rest of the object, the
member `"version":3`. Any other text is refused, as a decoding error. -/
def demoJsonUnmarshal (s : Str) : Option (Option Str × Str) :=
  if hasPrefix s demoMapOpening && hasSuffix s demoMapClosing
      && decide (demoMapOpening.length + demoMapClosing.length ≤ s.length) then
    let m := (s.drop demoMapOpening.length).take
      (s.length - demoMapOpening.length - demoMapClosing.length)
    if m.all isMappingsChar then some (some m, "\"version\":3".toList) else none
  else none

/-- The encoder that goes with `demoJsonUnmarshal`: as `json.Encoder` does for a
map, the members are written in the order of their keys (`mappings` before
`version`) and the document ends with a line feed. -/
def demoJsonEncode (m : Option Str × Str) : Option Str :=
  match m.1 with
  | some mappings =>
    some ("\x7b\"mappings\":\"".toList ++ mappings ++ "\",".toList ++ m.2 ++ "\x7d\n".toList)
  | none => some ("\x7b".toList ++ m.2 ++ "\x7d\n".toList)

/-- The environment used for concrete evaluations: builtin table
`fs`, `path`, `process`, `buffer`; import paths of the form
`/name@version/submodule`; a bundler that reports nothing; a file store that
never fails; source maps that are JSON documents of the form
`{"version":3,"mappings":"<m>"}`. -/
def demoEnv : BuildEnv where
  CdnBasePath := []
  nodejsInternalModules := fun s =>
    decide (s ∈ ["fs".toList, "path".toList, "process".toList, "buffer".toList])
  denoNextUnspportedNodeModules := fun _ => false
  getPkgName := fun s => (demoSplitPkgPath s).1
  splitPkgPath := demoSplitPkgPath
  toModuleBareName := fun p _ => p
  taskID := fun t => t.Pkg.Name ++ "@".toList ++ t.Pkg.Version ++ "/".toList ++ t.Pkg.SubModule
  getImportPath := fun _ pkg pre =>
    "/".toList ++ pkg.Name ++ "@".toList ++ pkg.Version ++ "/".toList ++ pre ++ pkg.SubModule
  encodeBuildArgsPrefix := fun _ _ _ => []
  embedPolyfill := fun _ => none
  base64 := fun s => s
  regexpFullVersion := fun _ => true
  getPackageInfo := fun _ _ _ => none
  fixBuildArgs := fun args _ => args
  splitByLastByte := fun s _ => (s, [])
  apiBuild := fun _ _ => {}
  ImportPath := fun pkg =>
    if pkg.SubModule = [] then pkg.Name else pkg.Name ++ "/".toList ++ pkg.SubModule
  PkgString := fun pkg => pkg.Name ++ "@".toList ++ pkg.Version
  existsFile := fun _ => false
  readFile := fun _ => Except.error "no such file".toList
  fsWriteFile := fun _ _ => none
  getSavepath := fun t => "/builds/".toList ++ t.Pkg.Name ++ ".js".toList
  analyze := fun t _ =>
    ({}, { Name := t.Pkg.Name, Version := t.Pkg.Version, Module := "index.js".toList }, [], none)
  taskGetPackageInfo := fun _ _ => Except.error "not found".toList
  installPackage := fun _ _ => none
  pathJoin := fun parts =>
    match parts with
    | [] => []
    | first :: rest =>
      if first = "/".toList then "/".toList ++ joinWith "/".toList rest
      else joinWith "/".toList (first :: rest)
  pathExt := fun _ => ".js".toList
  filepathBase := demoBase
  toLower := fun s => s.map Char.toLower
  ghPrefix := fun _ => []
  toTypesPath := fun _ _ _ _ _ _ => []
  toTypesPackageName := fun name => "@types/".toList ++ name
  regexpGlobalIdentFindAll := fun js =>
    ["__Process$".toList, "__Buffer$".toList, "__global$".toList, "__setImmediate$".toList,
      "__rResolve$".toList].filter (fun x => strContains js x)
  requireCalledAsFunction := fun _ _ => false
  isLocalSpecifier := fun s => hasPrefix s "./".toList || hasPrefix s "../".toList
  rewriteJS := fun _ _ => (none, false)
  jsonUnmarshal := demoJsonUnmarshal
  jsonEncode := demoJsonEncode

/-- A task for the target `node`. -/
def nodeTask : BuildTask := { Target := "node".toList }

/-- A task for the target `deno` with a standard-library version. -/
def denoTask : BuildTask :=
  { Target := "deno".toList, Args := { denoStdVersion := "0.177.0".toList } }

/-- A task whose `deps` argument pins `foo` to `2.0.0`. -/
def pinnedTask : BuildTask :=
  { Pkg := { Name := "app".toList, Version := "1.2.3".toList },
    Args := { deps := [{ Name := "foo".toList, Version := "2.0.0".toList }] } }

/-- A task of the package `pkg` that owns a sub-build registry. -/
def registryTask : BuildTask :=
  { Pkg := { Name := "pkg".toList, Version := "1.0.0".toList }, subBuilds := true }

/-- A nested build that does nothing but leave a mark with the sub-module of
the task it is run on. -/
def markingBuild (t : BuildTask) (sh : Shared) : Shared :=
  { sh with started := sh.started ++ ["ran ".toList ++ t.Pkg.SubModule] }

/-- Calls in which the sub-modules `pkg/a` and `pkg/b` refer to each other and
`pkg/a` is referred to twice at the top level. -/
def mutualCalls : Calls :=
  Calls.call "pkg/a".toList ResolveKind.ResolveJSImportStatement
    (Calls.call "pkg/b".toList ResolveKind.ResolveJSImportStatement
      (Calls.call "pkg/a".toList ResolveKind.ResolveJSImportStatement Calls.done Calls.done)
      Calls.done)
    (Calls.call "pkg/a".toList ResolveKind.ResolveJSDynamicImport
      (Calls.call "pkg/b".toList ResolveKind.ResolveJSImportStatement Calls.done Calls.done)
      (Calls.call "pkg/b".toList ResolveKind.ResolveJSRequireCall Calls.done Calls.done))

/-! ## Notions used to state the properties -/

/-- The shared state `sh1` extends `sh`: the registry only grows, and the
number of times an identifier was started either is unchanged or grew by one
for an identifier that was not registered in `sh` and is registered in `sh1`. -/
def Shared.Extends (sh sh1 : Shared) : Prop :=
  ∀ id : Str,
    (sh.subBuilds.Has id = true → sh1.subBuilds.Has id = true) ∧
    (sh1.started.count id = sh.started.count id ∨
      (sh.subBuilds.Has id = false ∧ sh1.subBuilds.Has id = true ∧
        sh1.started.count id = sh.started.count id + 1))

/-- Whether `resolveExternal` reaches the sub-module rule for a specifier: it is
no builtin module, it is not forced external, and it starts with the name of
the package being built followed by `/`. -/
def reachesSubModuleRule (env : Env) (task : BuildTask) (specifier : Str) : Bool :=
  !env.nodejsInternalModules specifier
    && !(task.Args.external.Has "*".toList || task.Args.external.Has (env.getPkgName specifier))
    && hasPrefix specifier (task.Pkg.Name ++ "/".toList)

/-- An item that a retry of the rebuild loop discovers: an implicit external
specifier, or an export name expected of a browser-excluded stub path. -/
inductive DiscoveryKey
  | implicitExternal (name : Str)
  | browserExport (path name : Str)
deriving DecidableEq, Repr

/-- Whether the discovery sets hold an item. -/
def RetryState.holds (st : RetryState) : DiscoveryKey → Bool
  | DiscoveryKey.implicitExternal name => st.implicitExternal.Has name
  | DiscoveryKey.browserExport path name =>
    match st.browserExclude.lookup path with
    | some exports => exports.Has name
    | none => false

/-- The item that a diagnostic text names: the unresolved specifier of a
`Could not resolve` text that is not about the task's own import path, or the
stub path and export name of a `No matching export` text about a
browser-excluded module and a non-default export. -/
def diagnosticKey (importPath msg : Str) : Option DiscoveryKey :=
  if hasPrefix msg "Could not resolve \"".toList then
    if strContains msg ("Could not resolve \"".toList ++ importPath ++ "\"".toList) then none
    else some (DiscoveryKey.implicitExternal ((splitChar dq msg).getD 1 []))
  else if hasPrefix msg "No matching export in \"".toList then
    if (splitChar dq msg).length > 4
        && hasPrefix ((splitChar dq msg).getD 1 []) "browser-exclude:".toList
        && decide ((splitChar dq msg).getD 3 [] ≠ "default".toList) then
      some (DiscoveryKey.browserExport
        (trimPrefix ((splitChar dq msg).getD 1 []) "browser-exclude:".toList)
        ((splitChar dq msg).getD 3 []))
    else none
  else none

/-- The strings that a diagnostic text names: the unresolved specifier, or the
stub path and the export name. -/
def diagnosticNames (importPath msg : Str) : List Str :=
  match diagnosticKey importPath msg with
  | some (DiscoveryKey.implicitExternal name) => [name]
  | some (DiscoveryKey.browserExport path name) => [path, name]
  | none => []

/-- Six diagnostics: each of the export names `x`, `y`, `z` is missing from each
of the browser-excluded stubs `a` and `b`. -/
def stubDiagnostics : List Str :=
  [ "No matching export in \"browser-exclude:a\" for import \"x\"".toList,
    "No matching export in \"browser-exclude:b\" for import \"x\"".toList,
    "No matching export in \"browser-exclude:a\" for import \"y\"".toList,
    "No matching export in \"browser-exclude:b\" for import \"y\"".toList,
    "No matching export in \"browser-exclude:a\" for import \"z\"".toList,
    "No matching export in \"browser-exclude:b\" for import \"z\"".toList ]

/-- A bundler that reports the diagnostics of `stubDiagnostics` one per pass
and then succeeds. -/
def stubBundler (pass : Nat) (_ : RetryState) : PassResult :=
  { Errors := (stubDiagnostics.get? pass).toList }

/-- The discovery sets after an item is added the way `onBuildError` adds
it. -/
def RetryState.insert (st : RetryState) : DiscoveryKey → RetryState
  | DiscoveryKey.implicitExternal name =>
    { st with implicitExternal := st.implicitExternal.Add name }
  | DiscoveryKey.browserExport path name =>
    match st.browserExclude.lookup path with
    | some exports => { st with browserExclude := mapSet st.browserExclude path (exports.Add name) }
    | none =>
      { st with browserExclude :=
          mapSet (mapSet st.browserExclude path newStringSet) path (newStringSet.Add name) }

/-- The five strings that the diagnostics of `stubDiagnostics` name. -/
def stubNames : List Str :=
  ["a".toList, "b".toList, "x".toList, "y".toList, "z".toList]

/-- The six discovery items of `stubDiagnostics`. -/
def stubKeys : List DiscoveryKey :=
  [ DiscoveryKey.browserExport "a".toList "x".toList,
    DiscoveryKey.browserExport "b".toList "x".toList,
    DiscoveryKey.browserExport "a".toList "y".toList,
    DiscoveryKey.browserExport "b".toList "y".toList,
    DiscoveryKey.browserExport "a".toList "z".toList,
    DiscoveryKey.browserExport "b".toList "z".toList ]

/-- Package metadata whose `browser` map excludes `process`. -/
def processExcludedNpm : NpmPackageInfo :=
  { Name := "app".toList, Version := "1.2.3".toList, Module := "index.js".toList,
    Browser := [("process".toList, [])] }

/-- A task for a browser target. -/
def browserTask : BuildTask :=
  { Pkg := { Name := "app".toList, Version := "1.2.3".toList }, Target := "es2022".toList }

/-- A JS output that refers to `__Process$`. -/
def processJS : Str := "console.log(__Process$.env);\n".toList

/-- Specification: the distinct elements of a list, in the order of their first
occurrence. -/
def distinctInOrder : List Str → List Str
  | [] => []
  | x :: xs => x :: (distinctInOrder xs).filter (fun y => decide (y ≠ x))

/-- A task with three recorded requires, the first and the last for the same
specifier. -/
def requireTask : BuildTask :=
  { browserTask with
    requires := [("foo".toList, "/foo@1.0.0/".toList), ("bar".toList, "/bar@2.0.0/".toList),
      ("foo".toList, "/foo@1.0.0/".toList)] }

/-- A JS output that begins with a shebang line. -/
def shebangJS : OutputFile :=
  { Path := "/esbuild/app.js".toList,
    Contents := "#!/usr/bin/env node\nexport default 1;\n".toList }

/-- A JS output without a shebang line. -/
def plainJS : OutputFile :=
  { Path := "/esbuild/app.js".toList, Contents := "export default 1;\n".toList }

/-- The source map of the JS output: a JSON document whose `mappings` string is
`AAAA;BBBB`. -/
def appMap : OutputFile :=
  { Path := "/esbuild/app.js.map".toList,
    Contents := "\x7b\"version\":3,\"mappings\":\"AAAA;BBBB\"\x7d".toList }

/-- The environment `demoEnv` with a bundler whose single pass yields the
shebang output and its source map. -/
def shebangEnv : BuildEnv :=
  { demoEnv with apiBuild := fun _ _ => { OutputFiles := [shebangJS, appMap] } }

/-- The environment `demoEnv` with a bundler whose single pass yields the
output without a shebang and its source map. -/
def plainEnv : BuildEnv :=
  { demoEnv with apiBuild := fun _ _ => { OutputFiles := [plainJS, appMap] } }

/-- The environment `demoEnv` with a bundler whose single pass yields the
source map first and the output without a shebang behind it. -/
def mapFirstEnv : BuildEnv :=
  { demoEnv with apiBuild := fun _ _ => { OutputFiles := [appMap, plainJS] } }

/-- The environment `demoEnv` with an analyzer that reports a types-only
package together with the tolerated error `cjsLexer: Can't resolve`. -/
def typesOnlyEnv : BuildEnv :=
  { demoEnv with
    analyze := fun t _ =>
      ({ TypesOnly := true },
       { Name := t.Pkg.Name, Version := t.Pkg.Version, Types := "index.d.ts".toList }, [],
       some "cjsLexer: Can\x27t resolve \"./x\"".toList) }

/-- The environment `demoEnv` with an analyzer that reports the tolerated error
`cjsLexer: Can't resolve` for a package with a module entry; the bundler of
`demoEnv` reports no error and no output file. -/
def tolerantEnv : BuildEnv :=
  { demoEnv with
    analyze := fun t _ =>
      ({}, { Name := t.Pkg.Name, Version := t.Pkg.Version, Module := "index.js".toList }, [],
       some "cjsLexer: Can\x27t resolve \"./x\"".toList) }

/-- Whether an effect is a call of `storeToDB`. -/
def Effect.isStore : Effect → Bool
  | Effect.storeToDB _ _ => true
  | _ => false

/-- The environment `demoEnv` with a file system in which every file exists and
reads as a small JSON object. -/
def jsonEnv : BuildEnv :=
  { demoEnv with
    existsFile := fun _ => true
    readFile := fun _ => Except.ok "\x7b\"a\":1\x7d".toList }

/-- A task for the JSON sub-module `package.json` of the package `app`. -/
def jsonTask : BuildTask :=
  { Pkg := { Name := "app".toList, Version := "1.2.3".toList, SubModule := "package.json".toList },
    Target := "es2022".toList }

/-- The path of the JSON file that `build` probes for a `.json` sub-module. -/
def jsonPathOf (env : BuildEnv) (task : BuildTask) : Str :=
  env.pathJoin [env.pathJoin [task.wd, "node_modules".toList], task.Pkg.Name, task.Pkg.SubModule]

/-- A bundler that reports, on every pass, that the specifier `app` cannot be
resolved. -/
def ownEntryBundler (_ : Nat) (_ : RetryState) : PassResult :=
  { Errors := ["Could not resolve \"app\"".toList] }

/-- A bundler that reports once that `left-pad` cannot be resolved and then
succeeds. -/
def leftPadBundler (pass : Nat) (_ : RetryState) : PassResult :=
  { Errors := if pass = 0 then ["Could not resolve \"left-pad\"".toList] else [] }

/-- The text `No matching export in "browser-exclude:P" for import "X"`. -/
def noMatchingExportText (P X : Str) : Str :=
  "No matching export in \"".toList ++ "browser-exclude:".toList ++ P
    ++ "\" for import \"".toList ++ X ++ "\"".toList

/-- Discovery sets in which the stub `fs` already expects the export
`readFile`. -/
def fsStubState : RetryState :=
  { browserExclude := [("fs".toList, ⟨["readFile".toList]⟩)] }

/-- The environment `demoEnv` with a bundler whose single pass yields two JS
outputs that begin with a shebang line, and a source map. -/
def twoShebangEnv : BuildEnv :=
  { demoEnv with apiBuild := fun _ _ => { OutputFiles := [shebangJS, appMap, shebangJS] } }

/-- A simple `utils.SplitByLastByte`: the parts before and after the last
occurrence of `c`, or the whole string and the empty string. -/
def demoSplitByLastByte (s : Str) (c : Char) : Str × Str :=
  if c ∈ s then
    let after := (s.reverse.takeWhile (fun x => x ≠ c)).reverse
    (s.take (s.length - after.length - 1), after)
  else (s, [])

/-- A simple `path.Join`: the non-empty parts joined with `/`, without empty
and `.` segments. -/
def demoJoin (parts : List Str) : Str :=
  let joined := joinWith "/".toList (parts.filter (fun part => part ≠ []))
  let segments := (splitChar '/' joined).filter (fun seg => seg ≠ [] ∧ seg ≠ ".".toList)
  (if hasPrefix joined "/".toList then "/".toList else []) ++ joinWith "/".toList segments

/-- A simple `stripModuleExt`: the first of a few module extensions that ends
the path is removed. -/
def demoStripModuleExt (path : Str) : Str :=
  match [".mjs".toList, ".js".toList, ".jsx".toList, ".mts".toList, ".ts".toList,
      ".tsx".toList, ".cjs".toList].find? (fun ext => hasSuffix path ext) with
  | some ext => path.take (path.length - ext.length)
  | none => path

/-- A simple `url.Parse` for `scheme://[user@]host[:port][/path][#fragment]`. -/
def demoUrlParse (v : Str) : Option URL :=
  let scheme := v.takeWhile (fun c => c ≠ ':')
  let rest := v.drop scheme.length
  if hasPrefix rest "://".toList then
    let rest := rest.drop 3
    let authority := rest.takeWhile (fun c => c ≠ '/' ∧ c ≠ '#')
    let hostPort :=
      if '@' ∈ authority then (authority.dropWhile (fun c => c ≠ '@')).drop 1 else authority
    let after := rest.drop authority.length
    some
      { Scheme := scheme,
        Hostname := hostPort.takeWhile (fun c => c ≠ ':'),
        Port := (hostPort.dropWhile (fun c => c ≠ ':')).drop 1,
        Path := after.takeWhile (fun c => c ≠ '#'),
        Fragment := (after.dropWhile (fun c => c ≠ '#')).drop 1 }
  else none

/-- The environment used to evaluate the resolve hook: `demoEnv` with the
simple path and string helpers above, the native package `fsevents`, the server
targets `deno`, `denonext` and `node`, and a file system without files. -/
def demoHookEnv : HookEnv :=
  { toBuildEnv :=
      { demoEnv with
        splitByLastByte := demoSplitByLastByte
        pathJoin := demoJoin }
    nativeNodePackages := ["fsevents".toList]
    isServerTarget := fun t =>
      decide (t.Target ∈ ["deno".toList, "denonext".toList, "node".toList])
    filepathJoin := demoJoin
    pathBase := fun path => (splitChar '/' path).getLast?.getD []
    stripModuleExt := demoStripModuleExt
    urlParse := demoUrlParse
    urlQueryEscape := fun s => s
    lstatSize := fun _ => none
    minify := fun _ => none }

/-- A task of the package `pkg`, installed under `/wd`. -/
def pkgTask : BuildTask :=
  { Pkg := { Name := "pkg".toList, Version := "1.0.0".toList }, Target := "es2022".toList,
    wd := "/wd".toList, resolveDir := "/wd".toList }

/-- The task of the sub-module `lib/util` of the package `pkg`. -/
def utilTask : BuildTask :=
  { pkgTask with
    Pkg := { Name := "pkg".toList, Version := "1.0.0".toList, SubModule := "lib/util".toList } }

/-- The task `pkgTask` with the `NoBundle` flag set. -/
def noBundleTask : BuildTask := { pkgTask with NoBundle := true }

/-- Package metadata of `pkg` without an `exports` map. -/
def pkgNpm : NpmPackageInfo :=
  { Name := "pkg".toList, Version := "1.0.0".toList, Module := "index.js".toList }

/-- A static import of the in-package file `./lib/util.js` from the package
directory. -/
def utilArgs : OnResolveArgs :=
  { Path := "./lib/util.js".toList, Kind := ResolveKind.ResolveJSImportStatement,
    ResolveDir := "/wd/node_modules/pkg".toList }

/-- A dynamic import of the in-package file `./lib/util.js`. -/
def utilDynamicArgs : OnResolveArgs :=
  { utilArgs with Kind := ResolveKind.ResolveJSDynamicImport }

/-- Package metadata of `pkg` whose `exports` map sends `./*` to
`./dist/*/index.js`. -/
def dirExportsNpm : NpmPackageInfo :=
  { pkgNpm with PkgExports := some [("./*".toList, Paths.str "./dist/*/index.js".toList)] }

/-- Package metadata of `pkg` whose `exports` map sends `./*` to
`./dist/*.js`. -/
def fileExportsNpm : NpmPackageInfo :=
  { pkgNpm with PkgExports := some [("./*".toList, Paths.str "./dist/*.js".toList)] }

/-- Package metadata of `pkg` whose `exports` map sends `./*` to `./dist/*`. -/
def starExportsNpm : NpmPackageInfo :=
  { pkgNpm with PkgExports := some [("./*".toList, Paths.str "./dist/*".toList)] }

/-- Package metadata of `pkg` whose `exports` map sends `./*` to `./*`. -/
def sameExportsNpm : NpmPackageInfo :=
  { pkgNpm with PkgExports := some [("./*".toList, Paths.str "./*".toList)] }

/-- A static import of the in-package file `./dist/foo/index.js`. -/
def fooIndexArgs : OnResolveArgs :=
  { Path := "./dist/foo/index.js".toList, Kind := ResolveKind.ResolveJSImportStatement,
    ResolveDir := "/wd/node_modules/pkg".toList }

/-- A static import of the in-package file `./dist/foo.js`. -/
def fooArgs : OnResolveArgs :=
  { Path := "./dist/foo.js".toList, Kind := ResolveKind.ResolveJSImportStatement,
    ResolveDir := "/wd/node_modules/pkg".toList }

/-- Package metadata of `pkg` whose dependency `tslib` is the source-control
URL `git+https://github.com`, which has no path. -/
def emptyPathGitNpm : NpmPackageInfo :=
  { pkgNpm with Dependencies := [("tslib".toList, "git+https://github.com".toList)] }

/-- Package metadata of `pkg` whose dependency `tslib` is a source-control URL
with a repository path and a fragment. -/
def gitNpm : NpmPackageInfo :=
  { pkgNpm with
    Dependencies :=
      [("tslib".toList, "git+https://github.com/microsoft/tslib.git#v2.3.0".toList)] }

/-- A static import of the dependency `tslib`. -/
def tslibArgs : OnResolveArgs :=
  { Path := "tslib".toList, Kind := ResolveKind.ResolveJSImportStatement,
    ResolveDir := "/wd/node_modules/pkg".toList }

/-! # Properties -/

/-! ## String sets -/

theorem StringSet.has_iff (s : StringSet) (x : Str) : s.Has x = true ↔ x ∈ s.values := by
  simp [StringSet.Has]

theorem StringSet.has_new (x : Str) : newStringSet.Has x = false := by
  simp [StringSet.Has, newStringSet]

theorem StringSet.has_add (s : StringSet) (k x : Str) :
    (s.Add k).Has x = (decide (x = k) || s.Has x) := by
  unfold StringSet.Add StringSet.Has
  by_cases hk : k ∈ s.values
  · by_cases hx : x = k
    · subst hx; simp [hk]
    · simp [hk, hx]
  · simp [hk, Bool.or_comm]

/-! ## Manifest dependency list -/

theorem filter_depsCallback_seen (dep : Str) (rest : List Str) (record : StringSet)
    (h : record.Has dep = true) :
    filter depsCallback (dep :: rest) record = filter depsCallback rest record := by
  simp [filter, depsCallback, h]

theorem filter_depsCallback_keep (dep : Str) (rest : List Str) (record : StringSet)
    (h : record.Has dep = false) (hu : isUrlDep dep = true) :
    filter depsCallback (dep :: rest) record
      = dep :: filter depsCallback rest (record.Add dep) := by
  simp [filter, depsCallback, h, hu]

theorem filter_depsCallback_skip (dep : Str) (rest : List Str) (record : StringSet)
    (h : record.Has dep = false) (hu : isUrlDep dep = false) :
    filter depsCallback (dep :: rest) record = filter depsCallback rest (record.Add dep) := by
  simp [filter, depsCallback, h, hu]

theorem filter_depsCallback_mem (l : List Str) :
    ∀ (record : StringSet) (d : Str),
      d ∈ filter depsCallback l record ↔ d ∈ l ∧ record.Has d = false ∧ isUrlDep d = true := by
  induction l with
  | nil => intro record d; simp [filter]
  | cons dep rest ih =>
    intro record d
    cases h : record.Has dep with
    | true =>
      rw [filter_depsCallback_seen _ _ _ h, ih, List.mem_cons]
      constructor
      · rintro ⟨h1, h2, h3⟩; exact ⟨Or.inr h1, h2, h3⟩
      · rintro ⟨h1 | h1, h2, h3⟩
        · subst h1; rw [h] at h2; cases h2
        · exact ⟨h1, h2, h3⟩
    | false =>
      cases hu : isUrlDep dep with
      | true =>
        rw [filter_depsCallback_keep _ _ _ h hu, List.mem_cons, ih, StringSet.has_add,
          List.mem_cons]
        constructor
        · rintro (h1 | ⟨h1, h2, h3⟩)
          · subst h1; exact ⟨Or.inl rfl, h, hu⟩
          · simp at h2; exact ⟨Or.inr h1, h2.2, h3⟩
        · rintro ⟨h1 | h1, h2, h3⟩
          · exact Or.inl h1
          · by_cases hd : d = dep
            · exact Or.inl hd
            · exact Or.inr ⟨h1, by simp [hd, h2], h3⟩
      | false =>
        rw [filter_depsCallback_skip _ _ _ h hu, ih, StringSet.has_add, List.mem_cons]
        constructor
        · rintro ⟨h1, h2, h3⟩
          simp at h2; exact ⟨Or.inr h1, h2.2, h3⟩
        · rintro ⟨h1 | h1, h2, h3⟩
          · subst h1; rw [hu] at h3; cases h3
          · have hd : d ≠ dep := by rintro rfl; rw [hu] at h3; cases h3
            exact ⟨h1, by simp [hd, h2], h3⟩

theorem filter_depsCallback_nodup (l : List Str) :
    ∀ record : StringSet, (filter depsCallback l record).Nodup := by
  induction l with
  | nil => intro record; simp [filter]
  | cons dep rest ih =>
    intro record
    cases h : record.Has dep with
    | true => rw [filter_depsCallback_seen _ _ _ h]; exact ih record
    | false =>
      cases hu : isUrlDep dep with
      | true =>
        rw [filter_depsCallback_keep _ _ _ h hu, List.nodup_cons]
        refine ⟨?_, ih _⟩
        rw [filter_depsCallback_mem]
        simp [StringSet.has_add]
      | false => rw [filter_depsCallback_skip _ _ _ h hu]; exact ih _

theorem indexOf_cons_of_ne {a dep : Str} (l : List Str) (h : dep ≠ a) :
    List.indexOf a (dep :: l) = List.indexOf a l + 1 := by
  rw [List.indexOf_cons]
  have : (dep == a) = false := by simpa using h
  rw [this]; rfl

theorem indexOf_cons_same (a : Str) (l : List Str) : List.indexOf a (a :: l) = 0 := by
  rw [List.indexOf_cons]
  have : (a == a) = true := by simp
  rw [this]; rfl

theorem filter_depsCallback_order (l : List Str) :
    ∀ (record : StringSet) (a b : Str),
      a ∈ filter depsCallback l record → b ∈ filter depsCallback l record →
      ((filter depsCallback l record).indexOf a < (filter depsCallback l record).indexOf b ↔
        l.indexOf a < l.indexOf b) := by
  induction l with
  | nil => intro record a b ha; simp [filter] at ha
  | cons dep rest ih =>
    intro record a b
    cases h : record.Has dep with
    | true =>
      rw [filter_depsCallback_seen _ _ _ h]
      intro ha hb
      have ha2 := (filter_depsCallback_mem rest record a).1 ha
      have hb2 := (filter_depsCallback_mem rest record b).1 hb
      have hda : dep ≠ a := by rintro rfl; rw [h] at ha2; cases ha2.2.1
      have hdb : dep ≠ b := by rintro rfl; rw [h] at hb2; cases hb2.2.1
      rw [ih record a b ha hb, indexOf_cons_of_ne _ hda, indexOf_cons_of_ne _ hdb]
      omega
    | false =>
      cases hu : isUrlDep dep with
      | true =>
        rw [filter_depsCallback_keep _ _ _ h hu]
        intro ha hb
        by_cases hda : dep = a
        · by_cases hdb : dep = b
          · subst hda; subst hdb; simp
          · subst hda
            rw [indexOf_cons_same, indexOf_cons_same, indexOf_cons_of_ne _ hdb,
              indexOf_cons_of_ne _ hdb]
            omega
        · by_cases hdb : dep = b
          · subst hdb
            rw [indexOf_cons_same, indexOf_cons_same, indexOf_cons_of_ne _ hda,
              indexOf_cons_of_ne _ hda]
            omega
          · have ha2 : a ∈ filter depsCallback rest (record.Add dep) := by
              rcases List.mem_cons.1 ha with h1 | h1
              · exact absurd h1.symm hda
              · exact h1
            have hb2 : b ∈ filter depsCallback rest (record.Add dep) := by
              rcases List.mem_cons.1 hb with h1 | h1
              · exact absurd h1.symm hdb
              · exact h1
            rw [indexOf_cons_of_ne _ hda, indexOf_cons_of_ne _ hdb,
              indexOf_cons_of_ne _ hda, indexOf_cons_of_ne _ hdb]
            have := ih _ a b ha2 hb2
            omega
      | false =>
        rw [filter_depsCallback_skip _ _ _ h hu]
        intro ha hb
        have ha2 := (filter_depsCallback_mem rest _ a).1 ha
        have hb2 := (filter_depsCallback_mem rest _ b).1 hb
        have hda : dep ≠ a := by rintro rfl; rw [hu] at ha2; cases ha2.2.2
        have hdb : dep ≠ b := by rintro rfl; rw [hu] at hb2; cases hb2.2.2
        rw [ih _ a b ha hb, indexOf_cons_of_ne _ hda, indexOf_cons_of_ne _ hdb]
        omega

/-- C4: the manifest's `Deps` has no duplicates, holds exactly the recorded
imports that start with `/`, `http:` or `https:`, and lists them in the order
of their first occurrence among the recorded imports. -/
theorem computeDeps_spec (imports : List Str) :
    (computeDeps imports).Nodup ∧
    (∀ d, d ∈ computeDeps imports ↔
      d ∈ imports ∧ (hasPrefix d "/".toList = true ∨ hasPrefix d "http:".toList = true
        ∨ hasPrefix d "https:".toList = true)) ∧
    (∀ a b, a ∈ computeDeps imports → b ∈ computeDeps imports →
      ((computeDeps imports).indexOf a < (computeDeps imports).indexOf b ↔
        imports.indexOf a < imports.indexOf b)) := by
  refine ⟨filter_depsCallback_nodup imports _, ?_, filter_depsCallback_order imports _⟩
  intro d
  unfold computeDeps
  rw [filter_depsCallback_mem]
  simp [StringSet.has_new, isUrlDep, or_assoc]

/-! ## `resolveExternal`: builtin modules, version choice, recording -/

theorem lit_append_ne_nil (a b : Str) (h : a ≠ []) : a ++ b ≠ [] := by
  cases a with
  | nil => exact absurd rfl h
  | cons c cs => simp

theorem builtinPath_ne_nil (env : Env) (task : BuildTask) (specifier : Str) :
    builtinPath env task specifier ≠ [] := by
  have hn : "node:".toList ++ specifier ≠ [] := lit_append_ne_nil _ _ (by decide)
  have hd : "https://deno.land/std@".toList ++ task.Args.denoStdVersion ++ "/node/".toList
      ++ specifier ++ ".ts".toList ≠ [] := by
    simp only [List.append_assoc]
    exact lit_append_ne_nil _ _ (by decide)
  have hc : env.CdnBasePath ++ "/node/".toList ++ specifier ++ ".js".toList ≠ [] := by
    intro h
    have h2 := List.append_eq_nil.1 h
    exact absurd h2.2 (by decide)
  unfold builtinPath
  split_ifs <;> assumption

theorem resolvePath_builtin (env : Env) (build : BuildTask → Shared → Shared)
    (task : BuildTask) (specifier : Str) (sh : Shared)
    (h : env.nodejsInternalModules specifier = true) :
    resolvePath env build task specifier sh = (builtinPath env task specifier, sh) := by
  have hne := builtinPath_ne_nil env task specifier
  unfold resolvePath
  simp [h, hne]

theorem resolveExternal_eq (env : Env) (build : BuildTask → Shared → Shared)
    (task : BuildTask) (specifier : Str) (kind : ResolveKind) (sh : Shared) :
    resolveExternal env build task specifier kind sh =
      (if kind = ResolveKind.ResolveJSRequireCall then specifier
        else (resolvePath env build task specifier sh).1,
       { task with
          imports :=
            if kind = ResolveKind.ResolveJSDynamicImport then task.imports
            else task.imports ++ [(resolvePath env build task specifier sh).1],
          requires :=
            if kind = ResolveKind.ResolveJSRequireCall then
              task.requires ++ [(specifier, (resolvePath env build task specifier sh).1)]
            else task.requires },
       (resolvePath env build task specifier sh).2) := by
  unfold resolveExternal
  cases kind <;> simp

/-- C10: after `resolveExternal`, `imports` is the list before the call with
the resolved path appended unless the kind is dynamic-import (then it is
unchanged); `requires` gains the pair (specifier, resolved path) exactly for a
require call and is unchanged otherwise; a require call returns the original
specifier, every other kind the resolved path; no other field of the task
changes. -/
theorem resolveExternal_records (env : Env) (build : BuildTask → Shared → Shared)
    (task : BuildTask) (specifier : Str) (kind : ResolveKind) (sh : Shared) :
    (resolveExternal env build task specifier kind sh).2.1 =
        { task with
          imports :=
            if kind = ResolveKind.ResolveJSDynamicImport then task.imports
            else task.imports ++ [(resolvePath env build task specifier sh).1],
          requires :=
            if kind = ResolveKind.ResolveJSRequireCall then
              task.requires ++ [(specifier, (resolvePath env build task specifier sh).1)]
            else task.requires } ∧
    (resolveExternal env build task specifier kind sh).1 =
        (if kind = ResolveKind.ResolveJSRequireCall then specifier
          else (resolvePath env build task specifier sh).1) := by
  rw [resolveExternal_eq]
  exact ⟨rfl, rfl⟩

/-- C8 (as stated, refuted): for the builtin `fs` and the target `node`, a
require call makes `resolveExternal` return `fs`, not `node:fs`. -/
theorem resolveExternal_builtin_require_counterexample :
    demoEnv.nodejsInternalModules "fs".toList = true ∧
    (resolveExternal demoEnv.toEnv (fun _ s => s) nodeTask "fs".toList
      ResolveKind.ResolveJSRequireCall {}).1 = "fs".toList ∧
    (resolveExternal demoEnv.toEnv (fun _ s => s) nodeTask "fs".toList
      ResolveKind.ResolveJSRequireCall {}).1 ≠ "node:fs".toList := by
  decide

/-- C8 (amended): for a specifier of the builtin table the resolved path is
`node:<specifier>` when the external set holds `node:<specifier>` or `*`, or
the target is `node`, or the target is `denonext` and the module is not in the
unsupported table; else the Deno standard-library URL for the target `deno`;
else `<CdnBasePath>/node/<specifier>.js`.  No later rule changes it, no nested
build is scheduled, it is the path recorded in `imports` and `requires`, and it
is the returned value for every kind but a require call, which returns the
original specifier. -/
theorem resolveExternal_builtin (env : Env) (build : BuildTask → Shared → Shared)
    (task : BuildTask) (specifier : Str) (kind : ResolveKind) (sh : Shared)
    (h : env.nodejsInternalModules specifier = true) :
    let path : Str :=
      if task.Args.external.Has ("node:".toList ++ specifier) = true
          ∨ task.Args.external.Has "*".toList = true
          ∨ task.Target = "node".toList
          ∨ (task.Target = "denonext".toList ∧ env.denoNextUnspportedNodeModules specifier = false)
      then "node:".toList ++ specifier
      else if task.Target = "deno".toList then
        "https://deno.land/std@".toList ++ task.Args.denoStdVersion ++ "/node/".toList
          ++ specifier ++ ".ts".toList
      else env.CdnBasePath ++ "/node/".toList ++ specifier ++ ".js".toList
    resolvePath env build task specifier sh = (path, sh) ∧
    resolveExternal env build task specifier kind sh =
      (if kind = ResolveKind.ResolveJSRequireCall then specifier else path,
       { task with
          imports :=
            if kind = ResolveKind.ResolveJSDynamicImport then task.imports
            else task.imports ++ [path],
          requires :=
            if kind = ResolveKind.ResolveJSRequireCall then task.requires ++ [(specifier, path)]
            else task.requires },
       sh) := by
  intro path
  have hp : builtinPath env task specifier = path := by
    unfold builtinPath
    simp only [path, Bool.or_eq_true, Bool.and_eq_true, Bool.not_eq_true', decide_eq_true_eq]
    split_ifs <;> first | rfl | (exfalso; tauto)
  have hr := resolvePath_builtin env build task specifier sh h
  rw [hp] at hr
  refine ⟨hr, ?_⟩
  rw [resolveExternal_eq, hr]

theorem resolveExternal_builtin_witness :
    demoEnv.nodejsInternalModules "path".toList = true ∧
    resolveExternal demoEnv.toEnv (fun _ s => s) denoTask "path".toList
        ResolveKind.ResolveJSImportStatement {} =
      ("https://deno.land/std@0.177.0/node/path.ts".toList,
       { denoTask with imports := ["https://deno.land/std@0.177.0/node/path.ts".toList] }, {}) :=
  ⟨by decide,
   by
    have h := (resolveExternal_builtin demoEnv.toEnv (fun _ s => s) denoTask "path".toList
        ResolveKind.ResolveJSImportStatement {} (by decide)).2
    rw [h]
    decide⟩

theorem foldl_pin_eq (pkgName : Str) (deps : List Pkg) :
    ∀ v0 : Str,
      deps.foldl (fun version dep => if pkgName = dep.Name then dep.Version else version) v0 =
        match (deps.filter (fun d => decide (d.Name = pkgName))).getLast? with
        | some d => d.Version
        | none => v0 := by
  induction deps with
  | nil => intro v0; simp
  | cons d ds ih =>
    intro v0
    rw [List.foldl_cons, ih]
    by_cases hd : d.Name = pkgName
    · subst hd
      simp only [List.filter_cons, decide_True, if_true]
      cases hf : ds.filter (fun e => decide (e.Name = d.Name)) with
      | nil => simp
      | cons e es =>
        rw [List.getLast?_cons_cons]
        cases hl : (e :: es).getLast? with
        | none => exact absurd hl (by simp)
        | some x => rfl
    · have hd2 : ¬ pkgName = d.Name := fun h => hd h.symm
      simp [List.filter_cons, hd, hd2]

theorem pkgSliceGet_none_of_filter_nil (deps : List Pkg) (pkgName : Str)
    (h : deps.filter (fun d => decide (d.Name = pkgName)) = []) :
    PkgSliceGet deps pkgName = none := by
  unfold PkgSliceGet
  rw [List.find?_eq_none]
  intro x hx
  have := List.filter_eq_nil_iff.1 h x hx
  simpa using this

/-- C9 (as stated, refuted): the specifier `foo@1.0.0` carries the explicit
version `1.0.0` and is not the react/react-dom case, yet with `foo@2.0.0`
pinned in the `deps` argument the chosen version is `2.0.0`, and
`resolveExternal` returns the import path of `foo@2.0.0`. -/
theorem chooseVersion_explicit_counterexample :
    demoEnv.splitPkgPath "foo@1.0.0".toList = ("foo".toList, "1.0.0".toList, []) ∧
    chooseVersion pinnedTask "foo".toList "1.0.0".toList = "2.0.0".toList ∧
    chooseVersion pinnedTask "foo".toList "1.0.0".toList ≠ "1.0.0".toList ∧
    (resolveExternal demoEnv.toEnv (fun _ s => s) pinnedTask "foo@1.0.0".toList
      ResolveKind.ResolveJSImportStatement {}).1 = "/foo@2.0.0/".toList := by
  decide

/-- C9 (amended): the version that the fallback rule chooses for a package name
(before range resolution) is the task's own version when the package being
built is `react-dom` and the name is `react`; otherwise the version of the last
entry of the `deps` argument with that name, when there is one, also when the
specifier carries an explicit version; otherwise the explicit version written
in the specifier; otherwise the task's own version when the name is the
package being built; otherwise the `dependencies` range, then the
`peerDependencies` range, then `latest`. -/
theorem chooseVersion_precedence (task : BuildTask) (pkgName version : Str) :
    chooseVersion task pkgName version =
      if task.Pkg.Name = "react-dom".toList ∧ pkgName = "react".toList then task.Pkg.Version
      else
        match (task.Args.deps.filter (fun d => decide (d.Name = pkgName))).getLast? with
        | some d => d.Version
        | none =>
          if version ≠ [] then version
          else if pkgName = task.Pkg.Name then task.Pkg.Version
          else
            match task.npm.Dependencies.lookup pkgName with
            | some v => v
            | none =>
              match task.npm.PeerDependencies.lookup pkgName with
              | some v => v
              | none => "latest".toList := by
  unfold chooseVersion
  simp only [foldl_pin_eq, Bool.and_eq_true, decide_eq_true_eq]
  by_cases hr : task.Pkg.Name = "react-dom".toList ∧ pkgName = "react".toList
  · rw [if_pos hr, if_pos hr]
  · rw [if_neg hr, if_neg hr]
    cases hf : (task.Args.deps.filter (fun d => decide (d.Name = pkgName))).getLast? with
    | some d => rfl
    | none =>
      have hnil : task.Args.deps.filter (fun d => decide (d.Name = pkgName)) = [] := by
        cases hl : task.Args.deps.filter (fun d => decide (d.Name = pkgName)) with
        | nil => rfl
        | cons a as => rw [hl] at hf; simp [List.getLast?_cons] at hf
      have hget := pkgSliceGet_none_of_filter_nil _ _ hnil
      simp only [hget]
      by_cases hv : version = []
      · simp [hv]
      · simp [hv]

/-! ## The sub-build registry -/

theorem Shared.Extends.refl (sh : Shared) : sh.Extends sh :=
  fun _ => ⟨id, Or.inl rfl⟩

theorem Shared.Extends.trans {a b c : Shared} (hab : a.Extends b) (hbc : b.Extends c) :
    a.Extends c := by
  intro id
  obtain ⟨m1, c1⟩ := hab id
  obtain ⟨m2, c2⟩ := hbc id
  refine ⟨fun h => m2 (m1 h), ?_⟩
  rcases c1 with c1 | ⟨n1, h1, c1⟩
  · rcases c2 with c2 | ⟨n2, h2, c2⟩
    · exact Or.inl (c2.trans c1)
    · refine Or.inr ⟨?_, h2, by omega⟩
      cases ha : a.subBuilds.Has id with
      | false => rfl
      | true => rw [m1 ha] at n2; cases n2
  · rcases c2 with c2 | ⟨n2, _, _⟩
    · exact Or.inr ⟨n1, m2 h1, by omega⟩
    · rw [h1] at n2; cases n2

theorem count_append_singleton (l : List Str) (a id : Str) :
    (l ++ [a]).count id = l.count id + (if a = id then 1 else 0) := by
  rw [List.count_append, List.count_singleton]
  by_cases h : a = id
  · simp [h]
  · have : (a == id) = false := by simpa using h
    simp [h, this]

theorem Shared.Extends.register (sh : Shared) (id : Str) (h : sh.subBuilds.Has id = false) :
    sh.Extends { subBuilds := sh.subBuilds.Add id, started := sh.started ++ [id] } := by
  intro x
  refine ⟨fun hx => by simp [StringSet.has_add, hx], ?_⟩
  simp only [count_append_singleton, StringSet.has_add]
  by_cases hx : id = x
  · subst hx; exact Or.inr ⟨h, by simp, by simp⟩
  · exact Or.inl (by simp [hx])

theorem scheduleSubBuild_extends (env : Env) (build : BuildTask → Shared → Shared)
    (hb : ∀ (t : BuildTask) (s : Shared), s.Extends (build t s)) (task : BuildTask)
    (subPkg : Pkg) (sh : Shared) :
    sh.Extends (scheduleSubBuild env build task subPkg sh) := by
  unfold scheduleSubBuild
  by_cases ht : task.subBuilds = true
  · cases hh : sh.subBuilds.Has (env.taskID (subBuildOf task subPkg)) with
    | true => simp [ht, hh, Shared.Extends.refl]
    | false =>
      simp only [ht, hh, if_true, Bool.not_false]
      exact (Shared.Extends.register sh _ hh).trans (hb _ _)
  · simp [ht, Shared.Extends.refl]

theorem hasPrefix_nil_false (p : Str) (h : p ≠ []) : hasPrefix [] p = false := by
  cases p with
  | nil => exact absurd rfl h
  | cons c cs => rfl

theorem resolvePath_shared (env : Env) (build : BuildTask → Shared → Shared)
    (task : BuildTask) (specifier : Str) (sh : Shared) :
    (resolvePath env build task specifier sh).2 =
      if reachesSubModuleRule env task specifier then
        scheduleSubBuild env build task (subPkgOf env task specifier) sh
      else sh := by
  have hne := builtinPath_ne_nil env task specifier
  have hpre : hasPrefix [] (task.Pkg.Name ++ ['/']) = false :=
    hasPrefix_nil_false _ (by simp)
  unfold resolvePath reachesSubModuleRule
  cases hb : env.nodejsInternalModules specifier with
  | true => simp [hne]
  | false =>
    cases he : (task.Args.external.Has "*".toList
        || task.Args.external.Has (env.getPkgName specifier)) with
    | true =>
      cases specifier with
      | nil => simp [he, hpre]
      | cons c cs => simp [he]
    | false =>
      cases hp : hasPrefix specifier (task.Pkg.Name ++ "/".toList) with
      | true =>
        cases hn : task.NoBundle <;> simp [he, hp, hn]
      | false => simp [he, hp]

theorem resolveExternal_shared (env : Env) (build : BuildTask → Shared → Shared)
    (task : BuildTask) (specifier : Str) (kind : ResolveKind) (sh : Shared) :
    (resolveExternal env build task specifier kind sh).2.2 =
      if reachesSubModuleRule env task specifier then
        scheduleSubBuild env build task (subPkgOf env task specifier) sh
      else sh := by
  rw [resolveExternal_eq, resolvePath_shared]

theorem resolveExternal_subBuilds (env : Env) (build : BuildTask → Shared → Shared)
    (task : BuildTask) (specifier : Str) (kind : ResolveKind) (sh : Shared) :
    (resolveExternal env build task specifier kind sh).2.1.subBuilds = task.subBuilds := by
  rw [resolveExternal_eq]

theorem runCalls_call (env : Env) (specifier : Str) (kind : ResolveKind) (nested rest : Calls)
    (task : BuildTask) (sh : Shared) :
    runCalls env (Calls.call specifier kind nested rest) task sh =
      runCalls env rest
        (resolveExternal env (fun t s => (runCalls env nested t s).2) task specifier kind sh).2.1
        (resolveExternal env (fun t s => (runCalls env nested t s).2) task specifier kind sh).2.2 :=
  rfl

theorem runCalls_extends (env : Env) (calls : Calls) :
    ∀ (task : BuildTask) (sh : Shared), sh.Extends (runCalls env calls task sh).2 := by
  induction calls with
  | done => intro task sh; exact Shared.Extends.refl sh
  | call specifier kind nested rest ihn ihr =>
    intro task sh
    have h1 : sh.Extends
        (resolveExternal env (fun t s => (runCalls env nested t s).2) task specifier kind sh).2.2 := by
      rw [resolveExternal_shared]
      split_ifs
      · exact scheduleSubBuild_extends env _ (fun t s => ihn t s) task _ sh
      · exact Shared.Extends.refl sh
    rw [runCalls_call]
    exact h1.trans (ihr _ _)

theorem runCalls_no_registry (env : Env) (calls : Calls) :
    ∀ (task : BuildTask) (sh : Shared), task.subBuilds = false →
      (runCalls env calls task sh).2 = sh := by
  induction calls with
  | done => intro task sh _; rfl
  | call specifier kind nested rest _ ihr =>
    intro task sh ht
    have h1 :
        (resolveExternal env (fun t s => (runCalls env nested t s).2) task specifier kind sh).2.2
          = sh := by
      rw [resolveExternal_shared]
      split_ifs
      · simp [scheduleSubBuild, ht]
      · rfl
    rw [runCalls_call, h1]
    exact ihr _ sh (by rw [resolveExternal_subBuilds]; exact ht)

theorem nodup_of_count_le_one (l : List Str) (h : ∀ id : Str, l.count id ≤ 1) : l.Nodup := by
  induction l with
  | nil => exact List.nodup_nil
  | cons a l ih =>
    rw [List.nodup_cons]
    constructor
    · intro ha
      have h1 := h a
      rw [List.count_cons] at h1
      have h2 : 0 < l.count a := List.count_pos_iff.2 ha
      simp at h1
      omega
    · apply ih
      intro id
      have h1 := h id
      rw [List.count_cons] at h1
      omega

theorem resolveExternal_registry_step (env : Env) (nested : Calls) (task : BuildTask)
    (specifier : Str) (kind : ResolveKind) (sh : Shared) :
    (resolveExternal env (fun t s => (runCalls env nested t s).2) task specifier kind sh).2.2 =
      if reachesSubModuleRule env task specifier = true ∧ task.subBuilds = true
          ∧ sh.subBuilds.Has (env.taskID (subBuildOf task (subPkgOf env task specifier))) = false
      then
        (runCalls env nested (subBuildOf task (subPkgOf env task specifier))
          { subBuilds :=
              sh.subBuilds.Add (env.taskID (subBuildOf task (subPkgOf env task specifier))),
            started :=
              sh.started ++ [env.taskID (subBuildOf task (subPkgOf env task specifier))] }).2
      else sh := by
  rw [resolveExternal_shared]
  unfold scheduleSubBuild
  cases hr : reachesSubModuleRule env task specifier <;>
    cases ht : task.subBuilds <;>
    cases hh : sh.subBuilds.Has (env.taskID (subBuildOf task (subPkgOf env task specifier))) <;>
    simp [hh]

/-- C3: in every run of `resolveExternal` calls by a task and the sub-builds
that share its registry (started with no build run yet), no identifier is
started twice, and every started identifier was not in the registry before and
is in it afterwards.  For a single call and any nested build `build`: the
shared state after the call is the one that `build` leaves, run on the
sub-build task of the call with the identifier registered (and logged as
started), exactly when the call reaches the sub-module rule, the task has a
registry and the identifier is not yet registered; in every other case `build`
is not run and the shared state is the one before the call.  With the nested
builds of a call tree for `build`: the identifier is started once by such a
call and not at all otherwise, the identifier is registered after a call that
reaches the sub-module rule with a registry, and otherwise the shared state is
untouched.  A task without a registry starts no nested build. -/
theorem subBuild_started_at_most_once (env : Env) (calls nested : Calls) (task : BuildTask)
    (specifier : Str) (kind : ResolveKind) (reg : StringSet) (sh : Shared) :
    ((runCalls env calls task { subBuilds := reg, started := [] }).2.started.Nodup ∧
      ∀ id ∈ (runCalls env calls task { subBuilds := reg, started := [] }).2.started,
        reg.Has id = false ∧
        (runCalls env calls task { subBuilds := reg, started := [] }).2.subBuilds.Has id = true) ∧
    (∀ build : BuildTask → Shared → Shared,
      (resolveExternal env build task specifier kind sh).2.2 =
        if reachesSubModuleRule env task specifier = true ∧ task.subBuilds = true
            ∧ sh.subBuilds.Has (env.taskID (subBuildOf task (subPkgOf env task specifier)))
                = false
        then
          build (subBuildOf task (subPkgOf env task specifier))
            { subBuilds :=
                sh.subBuilds.Add (env.taskID (subBuildOf task (subPkgOf env task specifier))),
              started :=
                sh.started ++ [env.taskID (subBuildOf task (subPkgOf env task specifier))] }
        else sh) ∧
    ((resolveExternal env (fun t s => (runCalls env nested t s).2) task specifier kind
          sh).2.2.started.count (env.taskID (subBuildOf task (subPkgOf env task specifier)))
        = sh.started.count (env.taskID (subBuildOf task (subPkgOf env task specifier)))
          + (if reachesSubModuleRule env task specifier = true ∧ task.subBuilds = true
                ∧ sh.subBuilds.Has (env.taskID (subBuildOf task (subPkgOf env task specifier)))
                    = false
             then 1 else 0) ∧
      (if reachesSubModuleRule env task specifier = true ∧ task.subBuilds = true then
        (resolveExternal env (fun t s => (runCalls env nested t s).2) task specifier kind
          sh).2.2.subBuilds.Has (env.taskID (subBuildOf task (subPkgOf env task specifier)))
            = true
       else
        (resolveExternal env (fun t s => (runCalls env nested t s).2) task specifier kind
          sh).2.2 = sh)) ∧
    (runCalls env calls { task with subBuilds := false } sh).2 = sh := by
  refine ⟨?_, ?_, ?_, runCalls_no_registry env calls _ sh rfl⟩
  rotate_left
  · intro build
    rw [resolveExternal_shared]
    unfold scheduleSubBuild
    cases hr : reachesSubModuleRule env task specifier <;>
      cases ht : task.subBuilds <;>
      cases hh : sh.subBuilds.Has (env.taskID (subBuildOf task (subPkgOf env task specifier))) <;>
      simp [hh]
  rotate_left
  · have hext := runCalls_extends env calls task { subBuilds := reg, started := [] }
    constructor
    · apply nodup_of_count_le_one
      intro id
      rcases (hext id).2 with h | ⟨_, _, h⟩
      · rw [h]; simp
      · rw [h]; simp
    · intro id hid
      have hpos : 0 < (runCalls env calls task
          { subBuilds := reg, started := [] }).2.started.count id := List.count_pos_iff.2 hid
      rcases (hext id).2 with h | ⟨h1, h2, _⟩
      · rw [h] at hpos; simp at hpos
      · exact ⟨h1, h2⟩
  · rw [resolveExternal_registry_step]
    by_cases hc : reachesSubModuleRule env task specifier = true ∧ task.subBuilds = true
        ∧ sh.subBuilds.Has (env.taskID (subBuildOf task (subPkgOf env task specifier))) = false
    · rw [if_pos hc, if_pos hc, if_pos ⟨hc.1, hc.2.1⟩]
      have hext := runCalls_extends env nested (subBuildOf task (subPkgOf env task specifier))
        { subBuilds :=
            sh.subBuilds.Add (env.taskID (subBuildOf task (subPkgOf env task specifier))),
          started := sh.started ++ [env.taskID (subBuildOf task (subPkgOf env task specifier))] }
      obtain ⟨hm, hcnt⟩ := hext (env.taskID (subBuildOf task (subPkgOf env task specifier)))
      have hreg : (sh.subBuilds.Add
          (env.taskID (subBuildOf task (subPkgOf env task specifier)))).Has
            (env.taskID (subBuildOf task (subPkgOf env task specifier))) = true := by
        simp [StringSet.has_add]
      refine ⟨?_, hm hreg⟩
      rcases hcnt with h | ⟨h1, _, _⟩
      · rw [h]; simp [count_append_singleton]
      · rw [hreg] at h1; cases h1
    · rw [if_neg hc, if_neg hc]
      refine ⟨by simp, ?_⟩
      by_cases hc2 : reachesSubModuleRule env task specifier = true ∧ task.subBuilds = true
      · rw [if_pos hc2]
        cases hh : sh.subBuilds.Has (env.taskID (subBuildOf task (subPkgOf env task specifier))) with
        | true => rfl
        | false => exact absurd ⟨hc2.1, hc2.2, hh⟩ hc
      · rw [if_neg hc2]

theorem subBuild_started_at_most_once_witness :
    (runCalls demoEnv.toEnv mutualCalls registryTask {}).2.started
        = ["pkg@1.0.0/a".toList, "pkg@1.0.0/b".toList] ∧
    (runCalls demoEnv.toEnv mutualCalls registryTask {}).2.started.Nodup ∧
    (resolveExternal demoEnv.toEnv markingBuild registryTask "pkg/a".toList
        ResolveKind.ResolveJSImportStatement {}).2.2
      = markingBuild (subBuildOf registryTask (subPkgOf demoEnv.toEnv registryTask "pkg/a".toList))
          { subBuilds := newStringSet.Add "pkg@1.0.0/a".toList,
            started := ["pkg@1.0.0/a".toList] } ∧
    (resolveExternal demoEnv.toEnv markingBuild registryTask "pkg/a".toList
        ResolveKind.ResolveJSImportStatement {}).2.2.started
      = ["pkg@1.0.0/a".toList, "ran a".toList] ∧
    (resolveExternal demoEnv.toEnv markingBuild registryTask "pkg/a".toList
        ResolveKind.ResolveJSImportStatement
        { subBuilds := newStringSet.Add "pkg@1.0.0/a".toList, started := [] }).2.2.started
      = [] :=
  ⟨by decide,
   (subBuild_started_at_most_once demoEnv.toEnv mutualCalls Calls.done registryTask
      "pkg/a".toList ResolveKind.ResolveJSImportStatement newStringSet {}).1.1,
   ((subBuild_started_at_most_once demoEnv.toEnv mutualCalls Calls.done registryTask
      "pkg/a".toList ResolveKind.ResolveJSImportStatement newStringSet {}).2.1
        markingBuild).trans (by decide),
   by decide, by decide⟩

/-! ## The rebuild loop -/

theorem lookup_mapSet {β : Type} (m : List (Str × β)) (k : Str) (v : β) (k1 : Str) :
    (mapSet m k v).lookup k1 = if k1 = k then some v else m.lookup k1 := by
  induction m with
  | nil =>
    by_cases h : k1 = k
    · subst h; simp [mapSet, List.lookup]
    · have hb : (k1 == k) = false := by simpa using h
      simp [mapSet, List.lookup, h, hb]
  | cons e es ih =>
    obtain ⟨k2, v2⟩ := e
    by_cases h2 : k2 = k
    · subst h2
      by_cases h : k1 = k2
      · subst h; simp [mapSet, List.lookup]
      · have hb : (k1 == k2) = false := by simpa using h
        simp [mapSet, List.lookup, h, hb]
    · by_cases h : k1 = k
      · subst h
        have hb : (k1 == k2) = false := by
          have : ¬ k1 = k2 := fun e => h2 e.symm
          simpa using this
        simp [mapSet, List.lookup, h2, hb, ih]
      · by_cases h3 : k1 = k2
        · subst h3; simp [mapSet, List.lookup, h2]
        · have hb : (k1 == k2) = false := by simpa using h3
          simp [mapSet, List.lookup, h2, hb, ih, h]

theorem RetryState.holds_insert (st : RetryState) (k k1 : DiscoveryKey) :
    (st.insert k).holds k1 = (decide (k1 = k) || st.holds k1) := by
  cases k with
  | implicitExternal name =>
    cases k1 with
    | implicitExternal name1 =>
      simp [RetryState.insert, RetryState.holds, StringSet.has_add]
    | browserExport path1 name1 =>
      simp [RetryState.insert, RetryState.holds]
  | browserExport path name =>
    cases k1 with
    | implicitExternal name1 =>
      cases hl : st.browserExclude.lookup path <;>
        simp [RetryState.insert, RetryState.holds, hl]
    | browserExport path1 name1 =>
      cases hl : st.browserExclude.lookup path with
      | none =>
        by_cases hp : path1 = path
        · subst hp
          simp [RetryState.insert, RetryState.holds, hl, lookup_mapSet, StringSet.has_add,
            StringSet.has_new]
        · simp [RetryState.insert, RetryState.holds, hl, lookup_mapSet, hp]
      | some exports =>
        by_cases hp : path1 = path
        · subst hp
          simp [RetryState.insert, RetryState.holds, hl, lookup_mapSet, StringSet.has_add]
        · simp [RetryState.insert, RetryState.holds, hl, lookup_mapSet, hp]

theorem hasPrefix_head_eq (s : Str) (c d : Char) (p q : Str)
    (h1 : hasPrefix s (c :: p) = true) (h2 : hasPrefix s (d :: q) = true) : c = d := by
  cases s with
  | nil => simp [hasPrefix, List.isPrefixOf] at h1
  | cons a as =>
    simp [hasPrefix, List.isPrefixOf] at h1 h2
    rw [h1.1, h2.1]

theorem not_resolve_and_export (msg : Str)
    (h1 : hasPrefix msg "Could not resolve \"".toList = true) :
    hasPrefix msg "No matching export in \"".toList = false := by
  cases h2 : hasPrefix msg "No matching export in \"".toList with
  | false => rfl
  | true =>
    have := hasPrefix_head_eq msg 'C' 'N' "ould not resolve \"".toList
      "o matching export in \"".toList h1 h2
    exact absurd this (by decide)

theorem onBuildError_eq (importPath : Str) (st : RetryState) (msg : Str) :
    onBuildError importPath st msg =
      match diagnosticKey importPath msg with
      | some k =>
        if st.holds k = true then Verdict.fail ("esbuild: ".toList ++ msg)
        else Verdict.retry (st.insert k)
      | none =>
        if hasPrefix msg "Could not resolve \"".toList = true
            ∧ strContains msg ("Could not resolve \"".toList ++ importPath ++ "\"".toList) = true
        then Verdict.fail ("could not resolve \"".toList ++ importPath ++ "\"".toList)
        else Verdict.fail ("esbuild: ".toList ++ msg) := by
  unfold onBuildError diagnosticKey
  cases h1 : hasPrefix msg "Could not resolve \"".toList with
  | true =>
    have h2 := not_resolve_and_export msg h1
    cases h3 : strContains msg ("Could not resolve \"".toList ++ importPath ++ "\"".toList) with
    | true => simp only [h3, if_true, and_self]
    | false =>
      cases h4 : st.implicitExternal.Has ((splitChar dq msg).getD 1 []) with
      | true =>
        simp only [h2, h3, h4, RetryState.holds, if_true, Bool.false_eq_true, if_false,
          Bool.not_true]
      | false =>
        simp only [h3, h4, RetryState.holds, RetryState.insert, if_true, Bool.false_eq_true,
          if_false, Bool.not_false]
  | false =>
    simp only [Bool.false_eq_true, if_false, false_and]
    cases h2 : hasPrefix msg "No matching export in \"".toList with
    | false => simp only [Bool.false_eq_true, if_false]
    | true =>
      simp only [if_true]
      generalize (splitChar dq msg).getD 1 [] = a1
      generalize (splitChar dq msg).getD 3 [] = a3
      generalize (splitChar dq msg).length = n
      generalize "browser-exclude:".toList = bx
      generalize "default".toList = dflt
      generalize "esbuild: ".toList ++ msg = esb
      by_cases h5 : n > 4
      · cases h6 : hasPrefix a1 bx with
        | false => simp [h5]
        | true =>
          by_cases h7 : a3 = dflt
          · simp [h5, h7]
          · cases hl : st.browserExclude.lookup (trimPrefix a1 bx) with
            | none =>
              simp [h5, h7, RetryState.holds, RetryState.insert, StringSet.has_new, hl]
            | some exports =>
              cases hh : exports.Has a3 <;>
                simp [h5, h7, hl, hh, RetryState.holds, RetryState.insert]
      · simp [h5]

theorem rebuild_succ (env : Env) (apiBuild : Nat → RetryState → PassResult) (importPath : Str)
    (fuel pass : Nat) (st : RetryState) (task : BuildTask) (sh : Shared) :
    rebuild env apiBuild importPath (fuel + 1) pass st task sh =
      match (apiBuild pass st).Errors with
      | [] =>
        some { passes := pass + 1, state := st,
               task := (runCalls env (apiBuild pass st).calls task sh).1,
               shared := (runCalls env (apiBuild pass st).calls task sh).2,
               ending := LoopEnd.built (apiBuild pass st) }
      | msg :: _ =>
        match onBuildError importPath st msg with
        | Verdict.retry st1 =>
          rebuild env apiBuild importPath fuel (pass + 1) st1
            (runCalls env (apiBuild pass st).calls task sh).1
            (runCalls env (apiBuild pass st).calls task sh).2
        | Verdict.fail err =>
          some { passes := pass + 1, state := st,
                 task := (runCalls env (apiBuild pass st).calls task sh).1,
                 shared := (runCalls env (apiBuild pass st).calls task sh).2,
                 ending := LoopEnd.failed err } :=
  rfl

theorem undiscovered_insert_lt (K : Finset DiscoveryKey) (st : RetryState) (k : DiscoveryKey)
    (hk : k ∈ K) (hn : st.holds k = false) :
    (K.filter (fun k1 => (st.insert k).holds k1 = false)).card
      < (K.filter (fun k1 => st.holds k1 = false)).card := by
  apply Finset.card_lt_card
  rw [Finset.ssubset_iff_of_subset]
  · refine ⟨k, ?_, ?_⟩
    · simp [hk, hn]
    · simp [RetryState.holds_insert]
  · intro x hx
    simp only [Finset.mem_filter, RetryState.holds_insert, Bool.or_eq_false_iff] at hx ⊢
    exact ⟨hx.1, hx.2.2⟩

theorem rebuild_bound (env : Env) (apiBuild : Nat → RetryState → PassResult) (importPath : Str)
    (K : Finset DiscoveryKey)
    (hK : ∀ (pass : Nat) (st : RetryState) (msg : Str) (rest : List Str) (k : DiscoveryKey),
      (apiBuild pass st).Errors = msg :: rest → diagnosticKey importPath msg = some k → k ∈ K) :
    ∀ (fuel pass : Nat) (st : RetryState) (task : BuildTask) (sh : Shared),
      (K.filter (fun k => st.holds k = false)).card < fuel →
      ∃ run, rebuild env apiBuild importPath fuel pass st task sh = some run ∧
        run.passes ≤ pass + (K.filter (fun k => st.holds k = false)).card + 1 := by
  intro fuel
  induction fuel with
  | zero => intro pass st task sh h; exact absurd h (Nat.not_lt_zero _)
  | succ fuel ih =>
    intro pass st task sh h
    rw [rebuild_succ]
    cases hE : (apiBuild pass st).Errors with
    | nil => exact ⟨_, rfl, by simp⟩
    | cons msg rest =>
      simp only []
      rw [onBuildError_eq]
      cases hk : diagnosticKey importPath msg with
      | none =>
        simp only []
        split_ifs
        · exact ⟨_, rfl, by simp⟩
        · exact ⟨_, rfl, by simp⟩
      | some k =>
        simp only []
        cases hh : st.holds k with
        | true => exact ⟨_, rfl, by simp⟩
        | false =>
          simp only [Bool.false_eq_true, if_false]
          have hlt := undiscovered_insert_lt K st k (hK pass st msg rest k hE hk) hh
          obtain ⟨run, hrun, hp⟩ := ih (pass + 1) (st.insert k)
            (runCalls env (apiBuild pass st).calls task sh).1
            (runCalls env (apiBuild pass st).calls task sh).2 (by omega)
          exact ⟨run, hrun, by omega⟩

/-- C1 (as stated, refuted): six diagnostics about the stubs `a` and `b` and
the export names `x`, `y`, `z` name five distinct strings in all (three
distinct export names), yet the loop runs seven bundling passes, more than
five plus one. -/
theorem rebuild_names_counterexample :
    (∀ s ∈ stubDiagnostics.flatMap (diagnosticNames "app".toList), s ∈ stubNames) ∧
    stubNames.length = 5 ∧
    (rebuild demoEnv.toEnv stubBundler "app".toList 100 0 {} {} {}).map (fun r => r.passes)
      = some 7 := by
  set_option maxRecDepth 100000 in decide

/-- C1 (amended): with the bundler an arbitrary oracle, if every diagnostic it
reports names a discovery item of a finite set `K` (an unresolved specifier,
or a pair of stub path and export name), the rebuild loop ends after at most
`K.card + 1` bundling passes, for every bound on the passes above `K.card`.
Every retry adds an item that was not yet held, to the implicit-external set or
to the export-name set of one stub, and changes nothing else; a
`Could not resolve` diagnostic for a name already in the implicit-external set
ends the build with an error. -/
theorem rebuild_terminates (env : Env) (apiBuild : Nat → RetryState → PassResult)
    (importPath : Str) (task : BuildTask) (sh : Shared) (K : Finset DiscoveryKey)
    (hK : ∀ (pass : Nat) (st : RetryState) (msg : Str) (rest : List Str) (k : DiscoveryKey),
      (apiBuild pass st).Errors = msg :: rest → diagnosticKey importPath msg = some k → k ∈ K) :
    (∀ fuel, K.card < fuel →
      ∃ run, rebuild env apiBuild importPath fuel 0 {} task sh = some run ∧
        run.passes ≤ K.card + 1) ∧
    (∀ (st st1 : RetryState) (msg : Str), onBuildError importPath st msg = Verdict.retry st1 →
      ∃ k, diagnosticKey importPath msg = some k ∧ st.holds k = false ∧ st1 = st.insert k ∧
        ∀ k1, st1.holds k1 = (decide (k1 = k) || st.holds k1)) ∧
    (∀ (st : RetryState) (msg : Str), hasPrefix msg "Could not resolve \"".toList = true →
      st.implicitExternal.Has ((splitChar dq msg).getD 1 []) = true →
      ∃ err, onBuildError importPath st msg = Verdict.fail err) := by
  refine ⟨?_, ?_, ?_⟩
  · intro fuel hf
    have hle : (K.filter (fun k => ({} : RetryState).holds k = false)).card ≤ K.card :=
      Finset.card_filter_le _ _
    obtain ⟨run, hrun, hp⟩ := rebuild_bound env apiBuild importPath K hK fuel 0 {} task sh
      (by omega)
    exact ⟨run, hrun, by omega⟩
  · intro st st1 msg h
    rw [onBuildError_eq] at h
    cases hk : diagnosticKey importPath msg with
    | none =>
      rw [hk] at h
      simp only [] at h
      split_ifs at h
    | some k =>
      rw [hk] at h
      simp only [] at h
      cases hh : st.holds k with
      | true => rw [hh] at h; simp at h
      | false =>
        rw [hh] at h
        simp only [Bool.false_eq_true, if_false, Verdict.retry.injEq] at h
        exact ⟨k, rfl, hh, h.symm, fun k1 => by rw [← h, RetryState.holds_insert]⟩
  · intro st msg h1 h2
    rw [onBuildError_eq]
    unfold diagnosticKey
    simp only [h1, if_true]
    split_ifs <;> first | exact ⟨_, rfl⟩ | skip
    all_goals simp_all [RetryState.holds]

theorem rebuild_terminates_witness :
    stubKeys.toFinset.card = 6 ∧
    ∃ run, rebuild demoEnv.toEnv stubBundler "app".toList 7 0 {} {} {} = some run ∧
      run.passes ≤ stubKeys.toFinset.card + 1 := by
  have hcard : stubKeys.toFinset.card = 6 := by
    rw [List.toFinset_card_of_nodup (by decide)]; rfl
  have hall : ∀ m ∈ stubDiagnostics, ∃ k ∈ stubKeys, diagnosticKey "app".toList m = some k := by
    set_option maxRecDepth 100000 in decide
  refine ⟨hcard, ?_⟩
  exact (rebuild_terminates demoEnv.toEnv stubBundler "app".toList {} {} stubKeys.toFinset
    (by
      intro pass st msg rest k hE hk
      have hmem : msg ∈ stubDiagnostics := by
        simp only [stubBundler] at hE
        cases hg : stubDiagnostics.get? pass with
        | none => rw [hg] at hE; cases hE
        | some m =>
          rw [hg] at hE
          simp only [Option.toList, List.cons.injEq] at hE
          rw [← hE.1]
          exact List.get?_mem hg
      obtain ⟨k1, hk1, hd⟩ := hall msg hmem
      rw [hd] at hk
      cases hk
      exact List.mem_toFinset.2 hk1)).1 7 (by rw [hcard]; decide)

/-! ## The header of a JS output -/

theorem processImport_not_mem_requireImports (src : Str) (l : List (Str × Str)) :
    ∀ i : Nat, HeaderPart.processImport src ∉ requireImports l i := by
  induction l with
  | nil => intro i; simp [requireImports]
  | cons d rest ih => intro i; simp [requireImports, ih]

theorem processImport_not_mem_requireCases (src : Str) (isEsModule : Nat → Bool)
    (l : List (Str × Str)) :
    ∀ (i : Nat) (record : StringSet),
      HeaderPart.processImport src ∉ requireCases isEsModule l i record := by
  induction l with
  | nil => intro i record; simp [requireCases]
  | cons d rest ih =>
    intro i record
    unfold requireCases
    split_ifs
    · exact ih _ _
    · simp [ih]

theorem processImport_not_mem_requireParts (env : BuildEnv) (task : BuildTask) (js src : Str) :
    HeaderPart.processImport src ∉ requireParts env task js := by
  unfold requireParts
  split_ifs
  · simp [processImport_not_mem_requireImports, processImport_not_mem_requireCases]
  · simp

theorem processImport_not_mem_bufferParts (env : BuildEnv) (task : BuildTask)
    (npm : NpmPackageInfo) (ids : StringSet) (src : Str) :
    HeaderPart.processImport src ∉ bufferParts env task npm ids := by
  unfold bufferParts
  split_ifs <;> simp

/-- C6 (as stated, refuted): the `browser` map sends `process` to the empty
string and the target is `deno`, not `node`, yet the header of an output that
refers to `__Process$` has the line that imports `__Process$` from the Deno
standard library. -/
theorem process_import_deno_counterexample :
    processExcludedNpm.Browser.lookup "process".toList = some [] ∧
    denoTask.Target ≠ "node".toList ∧
    HeaderPart.processImport "https://deno.land/std@0.177.0/node/process.ts".toList
      ∈ headerParts demoEnv denoTask processExcludedNpm processJS ∧
    strContains (renderHeader (headerParts demoEnv denoTask processExcludedNpm processJS))
      "import __Process$ from \"https://deno.land/std@0.177.0/node/process.ts\";\n".toList
        = true := by
  set_option maxRecDepth 100000 in decide

/-- C6 (amended): when the `browser` map sends `process` to the empty string,
the target is neither `deno` nor `denonext`, and the external set holds neither
`node:process` nor `*`, no part of the header imports `__Process$`, whatever
the bundled output refers to. -/
theorem no_process_import_when_browser_excluded (env : BuildEnv) (task : BuildTask)
    (npm : NpmPackageInfo) (jsContent src : Str)
    (hb : npm.Browser.lookup "process".toList = some [])
    (hdeno : task.Target ≠ "deno".toList) (hnext : task.Target ≠ "denonext".toList)
    (he1 : task.Args.external.Has "node:process".toList = false)
    (he2 : task.Args.external.Has "*".toList = false) :
    HeaderPart.processImport src ∉ headerParts env task npm jsContent := by
  have hlen : npm.Browser.length > 0 := by
    cases hB : npm.Browser with
    | nil => rw [hB] at hb; simp [List.lookup] at hb
    | cons e es => simp
  have hproc : ∀ ids : StringSet, processParts env task npm ids = [] := by
    intro ids
    unfold processParts
    simp only [he1, he2, hdeno, hnext, hb, hlen, Bool.or_self, Bool.false_eq_true, if_false,
      if_true, decide_True, Bool.not_true]
    split_ifs <;> rfl
  have hbuf := fun ids => processImport_not_mem_bufferParts env task npm ids src
  have hreq := processImport_not_mem_requireParts env task jsContent src
  unfold headerParts compatParts
  split_ifs <;> simp [hproc, hbuf, hreq]

theorem no_process_import_when_browser_excluded_witness :
    "__Process$".toList ∈ demoEnv.regexpGlobalIdentFindAll processJS ∧
    HeaderPart.processImport (demoEnv.CdnBasePath ++ "/node/process.js".toList)
      ∉ headerParts demoEnv browserTask processExcludedNpm processJS :=
  ⟨by decide,
   no_process_import_when_browser_excluded demoEnv browserTask processExcludedNpm processJS _
    (by decide) (by decide) (by decide) (by decide) (by decide)⟩

/-! ## The `require` dispatcher -/

theorem mem_distinctInOrder (l : List Str) : ∀ x : Str, x ∈ distinctInOrder l ↔ x ∈ l := by
  induction l with
  | nil => intro x; simp [distinctInOrder]
  | cons a as ih =>
    intro x
    simp only [distinctInOrder, List.mem_cons, List.mem_filter, ih, decide_eq_true_eq]
    constructor
    · rintro (h | ⟨h, _⟩)
      · exact Or.inl h
      · exact Or.inr h
    · rintro (h | h)
      · exact Or.inl h
      · by_cases hx : x = a
        · exact Or.inl hx
        · exact Or.inr ⟨h, hx⟩

theorem distinctInOrder_nodup (l : List Str) : (distinctInOrder l).Nodup := by
  induction l with
  | nil => simp [distinctInOrder]
  | cons a as ih =>
    simp only [distinctInOrder, List.nodup_cons, List.mem_filter, decide_eq_true_eq]
    exact ⟨fun h => h.2 rfl, ih.filter _⟩

theorem requireImports_eq (l : List (Str × Str)) :
    ∀ i : Nat, requireImports l i
      = (l.enumFrom i).map (fun p => HeaderPart.requireImport p.1 p.2.2) := by
  induction l with
  | nil => intro i; rfl
  | cons d rest ih => intro i; simp [requireImports, ih]

theorem requireCases_eq (isEsModule : Nat → Bool) (l : List (Str × Str)) :
    ∀ (i : Nat) (record : StringSet),
      requireCases isEsModule l i record =
        ((distinctInOrder (l.map Prod.fst)).filter (fun s => !record.Has s)).map
          (fun s => HeaderPart.requireCase s
            (isEsModule (i + (l.map Prod.fst).indexOf s)) (i + (l.map Prod.fst).indexOf s)) := by
  induction l with
  | nil => intro i record; rfl
  | cons d rest ih =>
    intro i record
    have hidx : ∀ s : Str, s ≠ d.1 →
        i + ((d :: rest).map Prod.fst).indexOf s = (i + 1) + (rest.map Prod.fst).indexOf s := by
      intro s hs
      rw [List.map_cons, indexOf_cons_of_ne _ (fun h => hs h.symm)]
      omega
    unfold requireCases
    simp only [List.map_cons, distinctInOrder, List.filter_cons, List.filter_filter]
    cases hh : record.Has d.1 with
    | true =>
      simp only [if_true, Bool.not_true, Bool.false_eq_true, if_false]
      rw [ih]
      have hf : (distinctInOrder (rest.map Prod.fst)).filter
            (fun a => (!record.Has a) && decide (a ≠ d.1))
          = (distinctInOrder (rest.map Prod.fst)).filter (fun s => !record.Has s) := by
        apply List.filter_congr
        intro x _
        by_cases hx : x = d.1
        · subst hx; simp [hh]
        · simp [hx]
      rw [hf]
      apply List.map_congr_left
      intro s hs
      have hsne : s ≠ d.1 := by
        rintro rfl
        simp [hh] at hs
      have := hidx s hsne
      simp only [List.map_cons] at this
      rw [this]
    | false =>
      simp only [Bool.false_eq_true, if_false, Bool.not_false, if_true, List.map_cons]
      rw [ih]
      have hf : (distinctInOrder (rest.map Prod.fst)).filter
            (fun a => (!record.Has a) && decide (a ≠ d.1))
          = (distinctInOrder (rest.map Prod.fst)).filter (fun s => !(record.Add d.1).Has s) := by
        apply List.filter_congr
        intro x _
        by_cases hx : x = d.1
        · subst hx; simp [StringSet.has_add]
        · simp [StringSet.has_add, hx]
      rw [hf, indexOf_cons_same]
      congr 1
      apply List.map_congr_left
      intro s hs
      have hsne : s ≠ d.1 := by
        rintro rfl
        simp [StringSet.has_add] at hs
      have := hidx s hsne
      simp only [List.map_cons] at this
      rw [this]

theorem get?_indexOf_fst (l : List (Str × Str)) :
    ∀ s : Str, s ∈ l.map Prod.fst →
      ∃ d, l.get? ((l.map Prod.fst).indexOf s) = some d ∧ d.1 = s := by
  induction l with
  | nil => intro s hs; simp at hs
  | cons e rest ih =>
    intro s hs
    by_cases he : e.1 = s
    · refine ⟨e, ?_, he⟩
      rw [List.map_cons, he, indexOf_cons_same]
      rfl
    · have hs2 : s ∈ rest.map Prod.fst := by
        rcases List.mem_cons.1 hs with h | h
        · exact absurd h.symm he
        · exact h
      obtain ⟨d, hd, hd1⟩ := ih s hs2
      refine ⟨d, ?_, hd1⟩
      rw [List.map_cons, indexOf_cons_of_ne _ he]
      exact hd

/-- C7: for a non-empty list of recorded requires the header has one
namespace import `import * as __<hex i>$ from "<resolved path>";` per recorded
pair, then the opening of the dispatcher, then exactly one `case"<specifier>"`
per distinct original specifier, in the order of first occurrence, each
returning (through the wrapper `c` for an ES module and `e` otherwise) the
namespace variable of the index of the specifier's first occurrence, then the
default branch that throws `module not found`. -/
theorem requireParts_spec (env : BuildEnv) (task : BuildTask) (jsContent : Str)
    (h : task.requires ≠ []) :
    requireParts env task jsContent =
      task.requires.enum.map (fun p => HeaderPart.requireImport p.1 p.2.2)
        ++ [HeaderPart.requireOpen]
        ++ (distinctInOrder (task.requires.map Prod.fst)).map (fun s =>
            HeaderPart.requireCase s (isEsModuleOf env task jsContent s)
              ((task.requires.map Prod.fst).indexOf s))
        ++ [HeaderPart.requireDefault] ∧
    (∀ (i : Nat) (path : Str), (HeaderPart.requireImport i path).render =
      "import * as __".toList ++ hex i ++ "$ from \"".toList ++ path ++ "\";".toList ++ EOL) ∧
    (∀ (s : Str) (esModule : Bool) (i : Nat), (HeaderPart.requireCase s esModule i).render =
      "case\"".toList ++ s ++ "\":return ".toList ++ (if esModule then "c".toList else "e".toList)
        ++ "(__".toList ++ hex i ++ "$);".toList) ∧
    HeaderPart.requireDefault.render =
      "default:throw new Error(\"module \\\"\"+n+\"\\\" not found\");\x7d\x7d;".toList ++ EOL := by
  refine ⟨?_, fun _ _ => rfl, ?_, rfl⟩
  · have hlen : task.requires.length > 0 := List.length_pos.2 h
    unfold requireParts
    rw [if_pos hlen]
    simp only []
    rw [requireImports_eq, requireCases_eq]
    have hf : (distinctInOrder (task.requires.map Prod.fst)).filter
        (fun s => !newStringSet.Has s) = distinctInOrder (task.requires.map Prod.fst) := by
      rw [List.filter_eq_self]
      intro a _
      simp [StringSet.has_new]
    rw [hf]
    congr 2
    · apply List.map_congr_left
      intro s hs
      obtain ⟨d, hd, hd1⟩ := get?_indexOf_fst task.requires s ((mem_distinctInOrder _ s).1 hs)
      simp only [Nat.zero_add, hd, hd1]
  · intro s esModule i
    cases esModule <;> simp [HeaderPart.render]

theorem requireParts_spec_witness :
    requireTask.requires ≠ [] ∧
    requireParts demoEnv requireTask [] =
      [ HeaderPart.requireImport 0 "/foo@1.0.0/".toList,
        HeaderPart.requireImport 1 "/bar@2.0.0/".toList,
        HeaderPart.requireImport 2 "/foo@1.0.0/".toList,
        HeaderPart.requireOpen,
        HeaderPart.requireCase "foo".toList false 0,
        HeaderPart.requireCase "bar".toList false 1,
        HeaderPart.requireDefault ] :=
  ⟨by decide,
   by
    rw [(requireParts_spec demoEnv requireTask [] (by decide)).1]
    decide⟩

/-! ## The source-map offset -/

theorem countFrom_singleton (c : Char) (s : Str) : countFrom [c] s 0 = s.count c := by
  induction s with
  | nil => rfl
  | cons a as ih =>
    rw [countFrom, List.count_cons]
    by_cases h : c = a
    · subst h
      simp [List.isPrefixOf, ih]
      omega
    · have h2 : ¬ a = c := fun e => h e.symm
      simp [List.isPrefixOf, ih, h, h2]

theorem stringsCount_EOL (s : Str) : stringsCount s EOL = s.count '\n' := by
  unfold stringsCount
  have h : EOL = ['\n'] := rfl
  rw [h, if_neg (by simp), countFrom_singleton]

theorem banner_count_pos (pkg target nodeEnv : Str) :
    0 < (HeaderPart.banner pkg target nodeEnv).render.count '\n' := by
  rw [List.count_pos_iff]
  simp [HeaderPart.render]

theorem headerParts_count_pos (env : BuildEnv) (task : BuildTask) (npm : NpmPackageInfo)
    (jsContent : Str) :
    1 ≤ stringsCount (renderHeader (headerParts env task npm jsContent)) EOL := by
  rw [stringsCount_EOL]
  unfold headerParts renderHeader
  rw [List.flatMap_cons, List.count_append]
  have := banner_count_pos (env.PkgString task.Pkg) (env.toLower task.Target) (nodeEnvOf task)
  omega

theorem hasSuffix_excl (s a b : Str) (hab : a.reverse.isPrefixOf b.reverse = false)
    (hba : b.reverse.isPrefixOf a.reverse = false) (ha : hasSuffix s a = true) :
    hasSuffix s b = false := by
  cases hb : hasSuffix s b with
  | false => rfl
  | true =>
    unfold hasSuffix at ha hb
    rw [List.isPrefixOf_iff_prefix] at ha hb
    rcases Nat.le_total a.reverse.length b.reverse.length with hl | hl
    · have := List.prefix_of_prefix_length_le ha hb hl
      rw [← List.isPrefixOf_iff_prefix, hab] at this
      cases this
    · have := List.prefix_of_prefix_length_le hb ha hl
      rw [← List.isPrefixOf_iff_prefix, hba] at this
      cases this

theorem foldl_set_replicate (n m : Nat) (z : Char) :
    (List.range n).foldl (fun buf i => buf.set i ';') (List.replicate (n + m) z)
      = List.replicate n ';' ++ List.replicate m z := by
  induction n generalizing m with
  | zero => simp
  | succ n ih =>
    rw [List.range_succ, List.foldl_append]
    have h1 : n + 1 + m = n + (m + 1) := by omega
    rw [h1, ih (m + 1)]
    simp only [List.foldl_cons, List.foldl_nil]
    rw [List.replicate_succ (n := m), List.set_append_right _ _ (by simp)]
    simp [List.replicate_succ', List.append_assoc]

theorem fixMappings_eq (smOffset : Nat) (mapping : Str) :
    fixMappings (smOffset : Int) mapping = some (List.replicate smOffset ';' ++ mapping) := by
  unfold fixMappings
  have h1 : ¬ ((smOffset : Int) + (mapping.length : Int) < 0) := by omega
  have h2 : ¬ ((smOffset : Int) < 0) := by omega
  have h3 : ((smOffset : Int) + (mapping.length : Int)).toNat = smOffset + mapping.length := by
    omega
  simp only [h1, h2, if_false, h3, Int.toNat_ofNat, foldl_set_replicate]
  simp [copyAt]

theorem assembleJS_smOffset (env : BuildEnv) (task : BuildTask) (npm : NpmPackageInfo)
    (contents : Str) :
    (assembleJS env task npm contents).1.smOffset =
      (removeShebang contents task.smOffset).2
        + stringsCount (renderHeader (headerParts env
            { task with smOffset := (removeShebang contents task.smOffset).2 } npm
            (removeShebang contents task.smOffset).1)) EOL :=
  rfl

theorem removeShebang_offset (contents : Str) (smOffset : Int) :
    (removeShebang contents smOffset).2
      = smOffset - (if hasPrefix contents "#!/".toList = true then 1 else 0) := by
  unfold removeShebang
  split_ifs <;> simp

theorem writeJSFiles_no_js (env : BuildEnv) (npm : NpmPackageInfo) (files : List OutputFile)
    (h : files.filter (fun f => hasSuffix f.Path ".js".toList) = []) :
    ∀ (err : Option Str) (task : BuildTask) (effects : List Effect),
      writeJSFiles env npm files err task effects = (false, err, task, effects) := by
  induction files with
  | nil => intro err task effects; rfl
  | cons file rest ih =>
    intro err task effects
    cases hs : hasSuffix file.Path ".js".toList with
    | true =>
      simp only [List.filter_cons, hs, if_true] at h
      exact absurd h (List.cons_ne_nil _ _)
    | false =>
      simp only [List.filter_cons, hs, Bool.false_eq_true, if_false] at h
      rw [writeJSFiles]
      simp only [hs, Bool.false_eq_true, if_false]
      exact ih h err task effects

theorem writeJSFiles_single (env : BuildEnv) (npm : NpmPackageInfo) (js : OutputFile)
    (hw : ∀ path content, env.fsWriteFile path content = none) (files : List OutputFile)
    (h : files.filter (fun f => hasSuffix f.Path ".js".toList) = [js]) :
    ∀ (err : Option Str) (task : BuildTask) (effects : List Effect),
      writeJSFiles env npm files err task effects =
        (false, none, (assembleJS env task npm js.Contents).1,
          effects ++ [Effect.writeFile (env.getSavepath (assembleJS env task npm js.Contents).1)
            (assembleJS env task npm js.Contents).2]) := by
  induction files with
  | nil => exact absurd h (by simp)
  | cons file rest ih =>
    intro err task effects
    cases hs : hasSuffix file.Path ".js".toList with
    | true =>
      simp only [List.filter_cons, hs, if_true, List.cons.injEq] at h
      obtain ⟨hf, hr⟩ := h
      subst hf
      rw [writeJSFiles]
      simp only [hs, if_true, hw]
      exact writeJSFiles_no_js env npm rest hr none _ _
    | false =>
      simp only [List.filter_cons, hs, Bool.false_eq_true, if_false] at h
      rw [writeJSFiles]
      simp only [hs, Bool.false_eq_true, if_false]
      exact ih h err task effects

theorem writeOtherFiles_step (env : BuildEnv)
    (hw : ∀ path content, env.fsWriteFile path content = none) (k : Nat) (file : OutputFile)
    (err : Option Str) (task : BuildTask) (effects : List Effect)
    (hk : task.smOffset = (k : Int)) :
    ∃ (errm : Option Str) (taskm : BuildTask) (effectsm : List Effect),
      taskm.smOffset = (k : Int) ∧
      ∀ rest, writeOtherFiles env (file :: rest) err task effects
        = writeOtherFiles env rest errm taskm effectsm := by
  cases hc : hasSuffix file.Path ".css".toList with
  | true =>
    refine ⟨none, { task with esm := task.esm.map (fun esm => { esm with PackageCSS := true }) },
      effects ++ [Effect.writeFile (trimSuffix (env.getSavepath task)
        (env.pathExt (env.getSavepath task)) ++ ".css".toList) file.Contents],
      hk, fun rest => ?_⟩
    rw [writeOtherFiles]
    simp only [hc, if_true, hw]
  | false =>
    cases hm : hasSuffix file.Path ".js.map".toList with
    | false =>
      refine ⟨err, task, effects, hk, fun rest => ?_⟩
      rw [writeOtherFiles]
      simp only [hc, hm, Bool.false_eq_true, if_false]
    | true =>
      cases hu : env.jsonUnmarshal file.Contents with
      | none =>
        refine ⟨err, task, effects, hk, fun rest => ?_⟩
        rw [writeOtherFiles]
        simp only [hc, hm, hu, Bool.false_eq_true, if_false, if_true]
      | some parsed =>
        obtain ⟨mappings, others⟩ := parsed
        cases mappings with
        | none =>
          cases he : env.jsonEncode (none, others) with
          | none =>
            refine ⟨err, task, effects, hk, fun rest => ?_⟩
            rw [writeOtherFiles]
            simp only [hc, hm, hu, he, Bool.false_eq_true, if_false, if_true]
          | some buf =>
            refine ⟨none, task,
              effects ++ [Effect.writeFile (env.getSavepath task ++ ".map".toList) buf],
              hk, fun rest => ?_⟩
            rw [writeOtherFiles]
            simp only [hc, hm, hu, he, hw, Bool.false_eq_true, if_false, if_true]
        | some mapping =>
          cases he : env.jsonEncode (some (List.replicate k ';' ++ mapping), others) with
          | none =>
            refine ⟨err, task, effects, hk, fun rest => ?_⟩
            rw [writeOtherFiles]
            simp only [hc, hm, hu, hk, fixMappings_eq, Option.map_some', he, Bool.false_eq_true,
              if_false, if_true]
          | some buf =>
            refine ⟨none, task,
              effects ++ [Effect.writeFile (env.getSavepath task ++ ".map".toList) buf],
              hk, fun rest => ?_⟩
            rw [writeOtherFiles]
            simp only [hc, hm, hu, hk, fixMappings_eq, Option.map_some', he, hw,
              Bool.false_eq_true, if_false, if_true]

theorem writeOtherFiles_prefix (env : BuildEnv)
    (hw : ∀ path content, env.fsWriteFile path content = none) (k : Nat)
    (l1 : List OutputFile) :
    ∀ (err : Option Str) (task : BuildTask) (effects : List Effect),
      task.smOffset = (k : Int) →
      ∃ (errm : Option Str) (taskm : BuildTask) (effectsm : List Effect),
        writeOtherFiles env l1 err task effects = (none, errm, taskm, effectsm) ∧
        taskm.smOffset = (k : Int) ∧
        ∀ l2, writeOtherFiles env (l1 ++ l2) err task effects
          = writeOtherFiles env l2 errm taskm effectsm := by
  induction l1 with
  | nil => intro err task effects hk; exact ⟨err, task, effects, rfl, hk, fun _ => rfl⟩
  | cons file rest ih =>
    intro err task effects hk
    obtain ⟨err1, task1, effects1, hk1, hstep⟩ :=
      writeOtherFiles_step env hw k file err task effects hk
    obtain ⟨errm, taskm, effectsm, hrun, hkm, happ⟩ := ih err1 task1 effects1 hk1
    refine ⟨errm, taskm, effectsm, ?_, hkm, fun l2 => ?_⟩
    · rw [hstep rest, hrun]
    · rw [List.cons_append, hstep (rest ++ l2), happ l2]

theorem writeOtherFiles_map (env : BuildEnv)
    (hw : ∀ path content, env.fsWriteFile path content = none) (map : OutputFile)
    (rest : List OutputFile) (mapping others : Str) (err : Option Str) (task : BuildTask)
    (effects : List Effect) (k : Nat)
    (hmap : hasSuffix map.Path ".js.map".toList = true)
    (hu : env.jsonUnmarshal map.Contents = some (some mapping, others))
    (hk : task.smOffset = (k : Int)) :
    writeOtherFiles env (map :: rest) err task effects =
      (match env.jsonEncode (some (List.replicate k ';' ++ mapping), others) with
       | some buf =>
         writeOtherFiles env rest none task
           (effects ++ [Effect.writeFile (env.getSavepath task ++ ".map".toList) buf])
       | none => writeOtherFiles env rest err task effects) := by
  have h3 : hasSuffix map.Path ".css".toList = false :=
    hasSuffix_excl _ _ _ (by decide) (by decide) hmap
  rw [writeOtherFiles]
  simp only [h3, hmap, hu, hk, fixMappings_eq, Option.map_some', Bool.false_eq_true, if_false,
    if_true]
  cases env.jsonEncode (some (List.replicate k ';' ++ mapping), others) with
  | none => rfl
  | some buf => simp only [hw]

/-- C5 (as stated, refuted): the JS output begins with a shebang line, the
generated header has one line terminator, the source map is the JSON document
with the `mappings` string `AAAA;BBBB`, and the `mappings` string of the
document that `build` writes is `AAAA;BBBB` itself, with no `;` in front of
it. -/
theorem mappings_shebang_counterexample :
    stringsCount (renderHeader (headerParts shebangEnv browserTask
        (shebangEnv.analyze browserTask false).2.1
        (removeShebang shebangJS.Contents 0).1)) EOL = 1 ∧
    shebangEnv.jsonUnmarshal appMap.Contents
      = some (some "AAAA;BBBB".toList, "\"version\":3".toList) ∧
    (build shebangEnv 1 browserTask {}).map (fun r => (r.outcome, r.effects)) =
      some (Outcome.returned none,
        [ Effect.writeFile "/builds/app.js".toList
            ("/* esm.sh - esbuild bundle(app@1.2.3) es2022 production */\n".toList
              ++ "export default 1;\n".toList ++ "//# sourceMappingURL=app@1.2.3.map".toList),
          Effect.writeFile "/builds/app.js.map".toList
            "\x7b\"mappings\":\"AAAA;BBBB\",\"version\":3\x7d\n".toList,
          Effect.storeToDB "app@1.2.3/".toList (some {}) ]) ∧
    "AAAA;BBBB".toList ≠ List.replicate 1 ';' ++ "AAAA;BBBB".toList := by
  set_option maxRecDepth 100000 in decide

/-- C5 (amended): for a task that starts with offset 0, and a bundler result
`l1 ++ map :: l2` with exactly one JS output `js` (at any place of the list), a
source map `map` (at any place of the list) and a file store that accepts the
writes: the first loop writes the assembled JS output and leaves the task with
the offset `k`, the number of line terminators in the generated header, less
one when the JS output began with a shebang line (the line that is removed from
the content); the second loop comes to `map` with that offset, and the
`mappings` string it hands to the encoder there is the original string behind
exactly `k` characters `;`; the encoded document is written to the map path
and the loop goes on with the files behind `map`. -/
theorem mappings_offset (env : BuildEnv) (task : BuildTask) (npm : NpmPackageInfo)
    (js map : OutputFile) (l1 l2 : List OutputFile) (mapping others : Str) (err : Option Str)
    (h0 : task.smOffset = 0)
    (hjs : (l1 ++ map :: l2).filter (fun f => hasSuffix f.Path ".js".toList) = [js])
    (hmap : hasSuffix map.Path ".js.map".toList = true)
    (hw : ∀ path content, env.fsWriteFile path content = none)
    (hu : env.jsonUnmarshal map.Contents = some (some mapping, others)) :
    ∃ (k : Nat) (task1 : BuildTask) (effects1 : List Effect)
      (errm : Option Str) (taskm : BuildTask) (effectsm : List Effect),
      k = stringsCount (renderHeader (headerParts env
            { task with smOffset := (removeShebang js.Contents 0).2 } npm
            (removeShebang js.Contents 0).1)) EOL
          - (if hasPrefix js.Contents "#!/".toList = true then 1 else 0) ∧
      task1 = (assembleJS env task npm js.Contents).1 ∧
      effects1 = [Effect.writeFile (env.getSavepath task1) (assembleJS env task npm js.Contents).2] ∧
      writeJSFiles env npm (l1 ++ map :: l2) err task [] = (false, none, task1, effects1) ∧
      task1.smOffset = (k : Int) ∧
      writeOtherFiles env l1 none task1 effects1 = (none, errm, taskm, effectsm) ∧
      taskm.smOffset = (k : Int) ∧
      writeOtherFiles env (l1 ++ map :: l2) none task1 effects1 =
        (match env.jsonEncode (some (List.replicate k ';' ++ mapping), others) with
         | some buf =>
           writeOtherFiles env l2 none taskm
             (effectsm ++ [Effect.writeFile (env.getSavepath taskm ++ ".map".toList) buf])
         | none => writeOtherFiles env l2 errm taskm effectsm) := by
  have hpos := headerParts_count_pos env
    { task with smOffset := (removeShebang js.Contents 0).2 } npm (removeShebang js.Contents 0).1
  have hoff : (assembleJS env task npm js.Contents).1.smOffset =
      ((stringsCount (renderHeader (headerParts env
            { task with smOffset := (removeShebang js.Contents 0).2 } npm
            (removeShebang js.Contents 0).1)) EOL
          - (if hasPrefix js.Contents "#!/".toList = true then 1 else 0) : Nat) : Int) := by
    rw [assembleJS_smOffset, h0]
    rw [removeShebang_offset] at hpos ⊢
    split_ifs at hpos ⊢ <;> omega
  obtain ⟨errm, taskm, effectsm, hrun, hkm, happ⟩ :=
    writeOtherFiles_prefix env hw _ l1 none (assembleJS env task npm js.Contents).1
      [Effect.writeFile (env.getSavepath (assembleJS env task npm js.Contents).1)
        (assembleJS env task npm js.Contents).2] hoff
  refine ⟨_, _, _, errm, taskm, effectsm, rfl, rfl, rfl, ?_, hoff, hrun, hkm, ?_⟩
  · rw [writeJSFiles_single env npm js hw _ hjs err task []]
    rfl
  · rw [happ (map :: l2)]
    exact writeOtherFiles_map env hw map l2 mapping others errm taskm effectsm _ hmap hu hkm

theorem mappings_offset_witness :
    (∃ (task1 : BuildTask) (effects1 : List Effect),
      writeJSFiles plainEnv processExcludedNpm [appMap, plainJS] none browserTask []
        = (false, none, task1, effects1) ∧
      task1.smOffset = 1 ∧
      (writeOtherFiles plainEnv [appMap, plainJS] none task1 effects1).2.2.2 =
        effects1 ++ [Effect.writeFile "/builds/app.js.map".toList
          "\x7b\"mappings\":\";AAAA;BBBB\",\"version\":3\x7d\n".toList]) ∧
    (build mapFirstEnv 1 browserTask {}).map (fun r => (r.outcome, r.effects)) =
      some (Outcome.returned none,
        [ Effect.writeFile "/builds/app.js".toList
            ("/* esm.sh - esbuild bundle(app@1.2.3) es2022 production */\n".toList
              ++ "export default 1;\n".toList ++ "//# sourceMappingURL=app@1.2.3.map".toList),
          Effect.writeFile "/builds/app.js.map".toList
            "\x7b\"mappings\":\";AAAA;BBBB\",\"version\":3\x7d\n".toList,
          Effect.storeToDB "app@1.2.3/".toList (some {}) ]) ∧
    (build plainEnv 1 browserTask {}).map (fun r => (r.outcome, r.effects)) =
      (build mapFirstEnv 1 browserTask {}).map (fun r => (r.outcome, r.effects)) := by
  refine ⟨?_, by set_option maxRecDepth 100000 in decide,
    by set_option maxRecDepth 100000 in decide⟩
  obtain ⟨k, task1, effects1, errm, taskm, effectsm, hk, ht, he, h1, h2, h3, h4, h5⟩ :=
    mappings_offset plainEnv browserTask processExcludedNpm plainJS appMap [] [plainJS]
      "AAAA;BBBB".toList "\"version\":3".toList none (by decide) (by decide) (by decide)
      (fun _ _ => rfl) (by decide)
  have hk1 : k = 1 := by
    rw [hk]
    set_option maxRecDepth 100000 in decide
  subst hk1
  refine ⟨task1, effects1, h1, h2, ?_⟩
  simp only [writeOtherFiles, Prod.mk.injEq] at h3
  obtain ⟨-, -, htm, hem⟩ := h3
  subst htm hem
  rw [List.nil_append] at h5
  rw [h5, ht]
  rfl

/-! ## No manifest for a failed build -/

theorem writeJSFiles_no_store (env : BuildEnv) (npm : NpmPackageInfo) (files : List OutputFile) :
    ∀ (err : Option Str) (task : BuildTask) (effects : List Effect),
      (∀ e ∈ effects, e.isStore = false) →
      (∀ e ∈ (writeJSFiles env npm files err task effects).2.2.2, e.isStore = false) ∧
      ((writeJSFiles env npm files err task effects).1 = false → err = none →
        (writeJSFiles env npm files err task effects).2.1 = none) := by
  induction files with
  | nil => intro err task effects h; exact ⟨h, fun _ he => he⟩
  | cons file rest ih =>
    intro err task effects h
    unfold writeJSFiles
    cases hs : hasSuffix file.Path ".js".toList with
    | false =>
      simp only [Bool.false_eq_true, if_false]
      exact ih err task effects h
    | true =>
      simp only [if_true]
      have h1 : ∀ e ∈ effects ++ [Effect.writeFile
          (env.getSavepath (assembleJS env task npm file.Contents).1)
          (assembleJS env task npm file.Contents).2], e.isStore = false := by
        intro e he
        rcases List.mem_append.1 he with he | he
        · exact h e he
        · simp at he; subst he; rfl
      cases hw : env.fsWriteFile (env.getSavepath (assembleJS env task npm file.Contents).1)
          (assembleJS env task npm file.Contents).2 with
      | some e => exact ⟨h1, fun hf => by simp at hf⟩
      | none =>
        have := ih none (assembleJS env task npm file.Contents).1 _ h1
        exact ⟨this.1, fun hf _ => this.2 hf rfl⟩

theorem writeOtherFiles_no_store (env : BuildEnv) (files : List OutputFile) :
    ∀ (err : Option Str) (task : BuildTask) (effects : List Effect),
      (∀ e ∈ effects, e.isStore = false) →
      (∀ e ∈ (writeOtherFiles env files err task effects).2.2.2, e.isStore = false) ∧
      ((writeOtherFiles env files err task effects).1 = none → err = none →
        (writeOtherFiles env files err task effects).2.1 = none) := by
  induction files with
  | nil => intro err task effects h; exact ⟨h, fun _ he => he⟩
  | cons file rest ih =>
    intro err task effects h
    have happ : ∀ (p c : Str), ∀ e ∈ effects ++ [Effect.writeFile p c], e.isStore = false := by
      intro p c e he
      rcases List.mem_append.1 he with he | he
      · exact h e he
      · simp at he; subst he; rfl
    unfold writeOtherFiles
    cases hc : hasSuffix file.Path ".css".toList with
    | true =>
      simp only [if_true]
      split
      · exact ⟨happ _ _, fun hf => by simp at hf⟩
      · exact ⟨(ih none _ _ (happ _ _)).1, fun hf _ => (ih none _ _ (happ _ _)).2 hf rfl⟩
    | false =>
      simp only [Bool.false_eq_true, if_false]
      cases hm : hasSuffix file.Path ".js.map".toList with
      | true =>
        simp only [if_true]
        split
        · split
          · exact ⟨h, fun hf => by simp at hf⟩
          · split
            · split
              · exact ⟨happ _ _, fun hf => by simp at hf⟩
              · exact ⟨(ih none task _ (happ _ _)).1,
                  fun hf _ => (ih none task _ (happ _ _)).2 hf rfl⟩
            · exact ih err task effects h
        · exact ih err task effects h
      | false =>
        simp only [Bool.false_eq_true, if_false]
        exact ih err task effects h

theorem bundleAndStore_error_no_store (env : BuildEnv) (fuel : Nat) (task : BuildTask)
    (npm : NpmPackageInfo) (sh : Shared) (run : BuildRun) (e : Str)
    (hrun : bundleAndStore env fuel task npm none sh = some run)
    (hout : run.outcome = Outcome.returned (some e)) :
    ∀ x ∈ run.effects, x.isStore = false := by
  unfold bundleAndStore at hrun
  split at hrun
  · cases hrun
  · rename_i lrun _
    split at hrun
    · cases hrun; intro x hx; cases hx
    · rename_i result _
      have hj := writeJSFiles_no_store env npm result.OutputFiles none lrun.task []
        (fun _ h => by cases h)
      split at hrun
      · rename_i err1 task1 effects1 heq
        cases hrun
        rw [heq] at hj
        exact hj.1
      · rename_i err1 task1 effects1 heq
        rw [heq] at hj
        have he1 : err1 = none := hj.2 rfl rfl
        have ho := writeOtherFiles_no_store env result.OutputFiles err1 task1 effects1 hj.1
        split at hrun
        · rename_i out _ task2 effects2 heq2
          cases hrun
          rw [heq2] at ho
          exact ho.1
        · rename_i err2 task2 effects2 heq2
          cases hrun
          rw [heq2] at ho
          have he2 : err2 = none := ho.2 rfl he1
          rw [he2] at hout
          cases hout

/-- When `analyze` reports no error, a call of `build` that returns an error
has made no call of `storeToDB`. -/
theorem build_error_no_store_of_analyze_ok (env : BuildEnv) (fuel : Nat) (task : BuildTask)
    (sh : Shared) (run : BuildRun) (e : Str)
    (ha : (env.analyze task false).2.2.2 = none)
    (hrun : build env fuel task sh = some run)
    (hout : run.outcome = Outcome.returned (some e)) :
    ∀ x ∈ run.effects, x.isStore = false := by
  unfold build at hrun
  simp only [] at hrun
  split at hrun
  · split at hrun
    · cases hrun; intro x hx; cases hx
    · split at hrun
      · cases hrun; intro x hx; simp at hx; subst hx; rfl
      · cases hrun; cases hout
  · rw [ha] at hrun
    simp only [Option.isSome_none, Bool.false_eq_true, false_and, if_false] at hrun
    split at hrun
    · split at hrun
      · cases hrun; cases hout
      · cases hrun; cases hout
    · split at hrun
      · cases hrun; cases hout
      · split at hrun
        · split at hrun
          · cases hrun; intro x hx; cases hx
          · split at hrun
            · cases hrun; intro x hx; cases hx
            · split at hrun
              · cases hrun; intro x hx; cases hx
              · split at hrun
                · cases hrun; intro x hx; simp at hx; subst hx; rfl
                · cases hrun; cases hout
        · exact bundleAndStore_error_no_store env fuel _ _ sh run e hrun hout

/-- C2 (the code at the failing input): when `analyze` returns the tolerated
error `cjsLexer: Can't resolve` for a types-only package, `build` calls
`storeToDB` and then returns that error; the same happens on the bundling path
when no output file is written after the tolerated error. -/
theorem build_stores_then_returns_error :
    (build typesOnlyEnv 1 browserTask {}).map (fun r => (r.outcome, r.effects)) =
      some (Outcome.returned (some "cjsLexer: Can\x27t resolve \"./x\"".toList),
        [ Effect.buildDTS "app@1.2.3/index.d.ts".toList,
          Effect.storeToDB "app@1.2.3/".toList
            (some { TypesOnly := true, Dts := "app@1.2.3/index.d.ts".toList }) ]) ∧
    (build tolerantEnv 1 browserTask {}).map (fun r => (r.outcome, r.effects)) =
      some (Outcome.returned (some "cjsLexer: Can\x27t resolve \"./x\"".toList),
        [ Effect.storeToDB "app@1.2.3/".toList (some {}) ]) := by
  set_option maxRecDepth 100000 in decide

/-! ## The JSON sub-module path of `build` -/

/-- C11 (as stated, refuted): for the JSON sub-module `package.json` whose file
exists and reads as `{"a":1}`, the artifact written is `export default {"a":1}`
and has no `;` after the file's contents. -/
theorem build_json_counterexample :
    hasSuffix jsonTask.Pkg.SubModule ".json".toList = true ∧
    jsonEnv.existsFile (jsonPathOf jsonEnv jsonTask) = true ∧
    (build jsonEnv 0 jsonTask {}).map (fun r => (r.outcome, r.effects)) =
      some (Outcome.returned none,
        [ Effect.writeFile "/builds/app.js".toList "export default \x7b\"a\":1\x7d".toList,
          Effect.storeToDB "app@1.2.3/package.json".toList (some { HasExportDefault := true }) ]) ∧
    "export default \x7b\"a\":1\x7d".toList
      ≠ "export default ".toList ++ "\x7b\"a\":1\x7d".toList ++ ";".toList := by
  set_option maxRecDepth 100000 in decide

/-- C11 (amended): for a task whose sub-module ends with `.json` and whose JSON
file exists, is read and is written without error, `build` writes an artifact
that is exactly `export default ` followed by the file's contents (nothing
after them), sets the manifest to `HasExportDefault = true` with every other
field at its zero value, stores it and returns nil; it does so for every bound
on the passes, runs no bundling pass, and its result does not depend on
`analyze` or on the bundler. -/
theorem build_json (env : BuildEnv) (fuel : Nat) (task : BuildTask) (sh : Shared) (json : Str)
    (hs : hasSuffix task.Pkg.SubModule ".json".toList = true)
    (he : env.existsFile (jsonPathOf env task) = true)
    (hr : env.readFile (jsonPathOf env task) = Except.ok json)
    (hw : env.fsWriteFile (env.getSavepath task) ("export default ".toList ++ json) = none) :
    build env fuel task sh =
      some { outcome := Outcome.returned none,
             task := { task with esm := some { HasExportDefault := true } },
             shared := sh,
             effects :=
              [ Effect.writeFile (env.getSavepath task) ("export default ".toList ++ json),
                Effect.storeToDB
                  (env.taskID { task with esm := some { HasExportDefault := true } })
                  (some { HasExportDefault := true }) ],
             passes := 0 } ∧
    ∀ (analyze : BuildTask → Bool → ESMBuild × NpmPackageInfo × Str × Option Str)
      (apiBuild : Nat → RetryState → PassResult),
      build { env with analyze := analyze, apiBuild := apiBuild } fuel task sh
        = build env fuel task sh := by
  unfold jsonPathOf at he hr
  constructor
  · unfold build
    simp only [hs, he, hr, hw, Bool.and_self, if_true, storeToDB, List.singleton_append]
  · intro analyze apiBuild
    unfold build
    simp only [hs, he, hr, hw, Bool.and_self, if_true, storeToDB, List.singleton_append]

theorem build_json_witness :
    build jsonEnv 7 jsonTask {} =
      some { outcome := Outcome.returned none,
             task := { jsonTask with esm := some { HasExportDefault := true } },
             shared := {},
             effects :=
              [ Effect.writeFile "/builds/app.js".toList "export default \x7b\"a\":1\x7d".toList,
                Effect.storeToDB "app@1.2.3/package.json".toList
                  (some { HasExportDefault := true }) ],
             passes := 0 } :=
  (build_json jsonEnv 7 jsonTask {} "\x7b\"a\":1\x7d".toList (by decide) (by decide) rfl
    (by decide)).1

/-! ## Unresolved specifiers in the rebuild loop -/

theorem onBuildError_own_entry (importPath : Str) (st : RetryState) (msg : Str)
    (hp : hasPrefix msg "Could not resolve \"".toList = true)
    (hc : strContains msg ("Could not resolve \"".toList ++ importPath ++ "\"".toList) = true) :
    onBuildError importPath st msg
      = Verdict.fail ("could not resolve \"".toList ++ importPath ++ "\"".toList) := by
  rw [onBuildError_eq]
  unfold diagnosticKey
  simp only [hp, hc, if_true, and_self]

theorem onBuildError_implicit_external (importPath : Str) (st : RetryState) (msg : Str)
    (hp : hasPrefix msg "Could not resolve \"".toList = true)
    (hc : strContains msg ("Could not resolve \"".toList ++ importPath ++ "\"".toList) = false)
    (hn : st.implicitExternal.Has ((splitChar dq msg).getD 1 []) = false) :
    onBuildError importPath st msg
      = Verdict.retry
          { st with implicitExternal := st.implicitExternal.Add ((splitChar dq msg).getD 1 []) } := by
  rw [onBuildError_eq]
  unfold diagnosticKey
  simp only [hp, hc, if_true, Bool.false_eq_true, if_false, RetryState.holds, hn,
    RetryState.insert]

/-- C12: when the first error text of a pass starts with `Could not resolve "`
and contains `Could not resolve "<the task's own import path>"`, the loop ends
at this pass without a retry, with the discovery sets unchanged and the error
`could not resolve "<import path>"`; when the text does not contain that and
the specifier between its first pair of double quotes is not yet in the
implicit-external set, the specifier is added to the set (nothing else
changes) and the loop goes on with the next pass. -/
theorem could_not_resolve_verdict (env : Env) (apiBuild : Nat → RetryState → PassResult)
    (importPath : Str) (fuel pass : Nat) (st : RetryState) (task : BuildTask) (sh : Shared)
    (msg : Str) (rest : List Str)
    (hE : (apiBuild pass st).Errors = msg :: rest)
    (hp : hasPrefix msg "Could not resolve \"".toList = true)
    (hn : strContains msg ("Could not resolve \"".toList ++ importPath ++ "\"".toList) = true
      ∨ st.implicitExternal.Has ((splitChar dq msg).getD 1 []) = false) :
    if strContains msg ("Could not resolve \"".toList ++ importPath ++ "\"".toList) = true then
      onBuildError importPath st msg
        = Verdict.fail ("could not resolve \"".toList ++ importPath ++ "\"".toList) ∧
      rebuild env apiBuild importPath (fuel + 1) pass st task sh =
        some { passes := pass + 1, state := st,
               task := (runCalls env (apiBuild pass st).calls task sh).1,
               shared := (runCalls env (apiBuild pass st).calls task sh).2,
               ending := LoopEnd.failed
                ("could not resolve \"".toList ++ importPath ++ "\"".toList) }
    else
      onBuildError importPath st msg
        = Verdict.retry
            { implicitExternal := st.implicitExternal.Add ((splitChar dq msg).getD 1 []),
              browserExclude := st.browserExclude } ∧
      rebuild env apiBuild importPath (fuel + 1) pass st task sh =
        rebuild env apiBuild importPath fuel (pass + 1)
          { implicitExternal := st.implicitExternal.Add ((splitChar dq msg).getD 1 []),
            browserExclude := st.browserExclude }
          (runCalls env (apiBuild pass st).calls task sh).1
          (runCalls env (apiBuild pass st).calls task sh).2 := by
  cases hc : strContains msg ("Could not resolve \"".toList ++ importPath ++ "\"".toList) with
  | true =>
    simp only [if_true]
    have h1 := onBuildError_own_entry importPath st msg hp hc
    refine ⟨h1, ?_⟩
    rw [rebuild_succ, hE]
    simp only [h1]
  | false =>
    simp only [Bool.false_eq_true, if_false]
    have hn2 : st.implicitExternal.Has ((splitChar dq msg).getD 1 []) = false := by
      rcases hn with h | h
      · rw [hc] at h; cases h
      · exact h
    have h1 := onBuildError_implicit_external importPath st msg hp hc hn2
    refine ⟨h1, ?_⟩
    rw [rebuild_succ, hE]
    simp only [h1]

theorem could_not_resolve_verdict_witness :
    (rebuild demoEnv.toEnv ownEntryBundler "app".toList 5 0 {} browserTask {}).map
        (fun r => (r.passes, r.state)) = some (1, {}) ∧
    rebuild demoEnv.toEnv leftPadBundler "app".toList 5 0 {} browserTask {} =
      rebuild demoEnv.toEnv leftPadBundler "app".toList 4 1
        { implicitExternal := ⟨["left-pad".toList]⟩ } browserTask {} := by
  have h1 := could_not_resolve_verdict demoEnv.toEnv ownEntryBundler "app".toList 4 0 {}
    browserTask {} "Could not resolve \"app\"".toList [] rfl (by decide) (Or.inl (by decide))
  have h2 := could_not_resolve_verdict demoEnv.toEnv leftPadBundler "app".toList 4 0 {}
    browserTask {} "Could not resolve \"left-pad\"".toList [] rfl (by decide)
    (Or.inr (by decide))
  rw [if_pos (by decide)] at h1
  rw [if_neg (by decide)] at h2
  refine ⟨?_, ?_⟩
  · rw [h1.2]; rfl
  · rw [h2.2]; rfl

/-! ## Missing exports of browser-excluded stubs -/

theorem splitChar_of_not_mem (sep : Char) (s : Str) (h : sep ∉ s) : splitChar sep s = [s] := by
  induction s with
  | nil => rfl
  | cons c cs ih =>
    have hc : c ≠ sep := fun e => h (by simp [e])
    have hcs : sep ∉ cs := fun e => h (List.mem_cons_of_mem _ e)
    simp [splitChar, hc, ih hcs]

theorem splitChar_append_sep (sep : Char) (a b : Str) (h : sep ∉ a) :
    splitChar sep (a ++ sep :: b) = a :: splitChar sep b := by
  induction a with
  | nil => simp [splitChar]
  | cons c cs ih =>
    have hc : c ≠ sep := fun e => h (by simp [e])
    have hcs : sep ∉ cs := fun e => h (List.mem_cons_of_mem _ e)
    simp [splitChar, hc, ih hcs]

theorem splitChar_noMatchingExportText (P X : Str) (hP : dq ∉ P) (hX : dq ∉ X) :
    splitChar dq (noMatchingExportText P X) =
      ["No matching export in ".toList, "browser-exclude:".toList ++ P, " for import ".toList,
        X, []] := by
  have e : noMatchingExportText P X =
      "No matching export in ".toList ++ dq :: (("browser-exclude:".toList ++ P)
        ++ dq :: (" for import ".toList ++ dq :: (X ++ dq :: []))) := by
    simp [noMatchingExportText, dq]
  have h1 : dq ∉ "No matching export in ".toList := by decide
  have h2 : dq ∉ "browser-exclude:".toList ++ P := by
    intro hm
    rcases List.mem_append.1 hm with hm | hm
    · exact absurd hm (by decide)
    · exact hP hm
  have h3 : dq ∉ " for import ".toList := by decide
  rw [e, splitChar_append_sep _ _ _ h1, splitChar_append_sep _ _ _ h2,
    splitChar_append_sep _ _ _ h3, splitChar_append_sep _ _ _ hX]
  rfl

theorem hasPrefix_append_self (p s : Str) : hasPrefix (p ++ s) p = true := by
  unfold hasPrefix
  rw [List.isPrefixOf_iff_prefix]
  exact List.prefix_append p s

theorem trimPrefix_append_self (p s : Str) : trimPrefix (p ++ s) p = s := by
  unfold trimPrefix
  rw [hasPrefix_append_self, if_pos rfl, List.drop_left]

theorem diagnosticKey_noMatchingExportText (importPath P X : Str) (hP : dq ∉ P) (hX : dq ∉ X) :
    diagnosticKey importPath (noMatchingExportText P X) =
      if X = "default".toList then none else some (DiscoveryKey.browserExport P X) := by
  have hn : hasPrefix (noMatchingExportText P X) "No matching export in \"".toList = true := by
    unfold noMatchingExportText
    simp only [List.append_assoc]
    exact hasPrefix_append_self _ _
  have hc : hasPrefix (noMatchingExportText P X) "Could not resolve \"".toList = false := by
    cases h : hasPrefix (noMatchingExportText P X) "Could not resolve \"".toList with
    | false => rfl
    | true => rw [not_resolve_and_export _ h] at hn; cases hn
  unfold diagnosticKey
  rw [splitChar_noMatchingExportText P X hP hX]
  simp only [hc, hn, Bool.false_eq_true, if_false, if_true, List.getD_cons_succ,
    List.getD_cons_zero, hasPrefix_append_self, trimPrefix_append_self, List.length_cons,
    List.length_nil]
  by_cases hd : X = "default".toList
  · simp [hd]
  · simp [hd]

theorem foldl_append_eq_flatMap (f : Str → Str) (l : List Str) :
    ∀ init : Str, l.foldl (fun contents name => contents ++ f name) init
      = init ++ l.flatMap f := by
  induction l with
  | nil => intro init; simp
  | cons a as ih => intro init; simp [ih, List.append_assoc]

theorem browserExcludeLoad_eq (st : RetryState) (path : Str) :
    browserExcludeLoad st path =
      "export default \x7b\x7d;".toList ++
        ((st.browserExclude.lookup path).getD newStringSet).values.flatMap
          (fun name => "export const ".toList ++ name ++ " = \x7b\x7d;".toList) := by
  unfold browserExcludeLoad
  cases st.browserExclude.lookup path with
  | none => simp [newStringSet]
  | some exports =>
    simp only [Option.getD_some, StringSet.Values]
    have := foldl_append_eq_flatMap
      (fun name => "export const ".toList ++ name ++ " = \x7b\x7d;".toList) exports.values
      "export default \x7b\x7d;".toList
    simp only [List.append_assoc] at this ⊢
    exact this

theorem lookup_insert_browserExport (st : RetryState) (P X : Str)
    (h : st.holds (DiscoveryKey.browserExport P X) = false) :
    (st.insert (DiscoveryKey.browserExport P X)).implicitExternal = st.implicitExternal ∧
    (∀ P1 : Str, P1 ≠ P →
      (st.insert (DiscoveryKey.browserExport P X)).browserExclude.lookup P1
        = st.browserExclude.lookup P1) ∧
    (st.insert (DiscoveryKey.browserExport P X)).browserExclude.lookup P =
      some ⟨((st.browserExclude.lookup P).getD newStringSet).values ++ [X]⟩ := by
  cases hl : st.browserExclude.lookup P with
  | none =>
    refine ⟨by simp [RetryState.insert, hl], ?_, ?_⟩
    · intro P1 hne
      simp [RetryState.insert, hl, lookup_mapSet, hne]
    · simp [RetryState.insert, hl, lookup_mapSet, StringSet.Add, newStringSet]
  | some exports =>
    have hx : X ∉ exports.values := by
      simp only [RetryState.holds, hl] at h
      intro hm
      rw [(StringSet.has_iff exports X).2 hm] at h
      cases h
    refine ⟨by simp [RetryState.insert, hl], ?_, ?_⟩
    · intro P1 hne
      simp [RetryState.insert, hl, lookup_mapSet, hne]
    · simp [RetryState.insert, hl, lookup_mapSet, StringSet.Add, hx]

/-- C16: let the first error text be
`No matching export in "browser-exclude:P" for import "X"` (`P` and `X` without
a double quote).  If `X` is not `default` and is not yet recorded for `P`, the
loop goes on with the next pass after adding `X` to the expected-export set of
`P`: the implicit-external set and the sets of the other stubs are unchanged,
and the load hook of `P` then returns `export default {};` followed by one
`export const <name> = {};` for each name recorded before and for `X`.
Otherwise the loop ends at this pass with the error `esbuild: ` followed by the
unchanged text. -/
theorem no_matching_export_verdict (env : Env) (apiBuild : Nat → RetryState → PassResult)
    (importPath : Str) (fuel pass : Nat) (st : RetryState) (task : BuildTask) (sh : Shared)
    (P X : Str) (rest : List Str)
    (hE : (apiBuild pass st).Errors = noMatchingExportText P X :: rest)
    (hP : dq ∉ P) (hX : dq ∉ X) :
    if X ≠ "default".toList ∧ st.holds (DiscoveryKey.browserExport P X) = false then
      rebuild env apiBuild importPath (fuel + 1) pass st task sh =
        rebuild env apiBuild importPath fuel (pass + 1)
          (st.insert (DiscoveryKey.browserExport P X))
          (runCalls env (apiBuild pass st).calls task sh).1
          (runCalls env (apiBuild pass st).calls task sh).2 ∧
      (st.insert (DiscoveryKey.browserExport P X)).implicitExternal = st.implicitExternal ∧
      (∀ P1 : Str, P1 ≠ P →
        (st.insert (DiscoveryKey.browserExport P X)).browserExclude.lookup P1
          = st.browserExclude.lookup P1) ∧
      (st.insert (DiscoveryKey.browserExport P X)).browserExclude.lookup P =
        some ⟨((st.browserExclude.lookup P).getD newStringSet).values ++ [X]⟩ ∧
      browserExcludeLoad (st.insert (DiscoveryKey.browserExport P X)) P =
        "export default \x7b\x7d;".toList ++
          (((st.browserExclude.lookup P).getD newStringSet).values ++ [X]).flatMap
            (fun name => "export const ".toList ++ name ++ " = \x7b\x7d;".toList)
    else
      onBuildError importPath st (noMatchingExportText P X)
        = Verdict.fail ("esbuild: ".toList ++ noMatchingExportText P X) ∧
      rebuild env apiBuild importPath (fuel + 1) pass st task sh =
        some { passes := pass + 1, state := st,
               task := (runCalls env (apiBuild pass st).calls task sh).1,
               shared := (runCalls env (apiBuild pass st).calls task sh).2,
               ending := LoopEnd.failed ("esbuild: ".toList ++ noMatchingExportText P X) } := by
  have hk := diagnosticKey_noMatchingExportText importPath P X hP hX
  have hcnr : hasPrefix (noMatchingExportText P X) "Could not resolve \"".toList = false := by
    have hn : hasPrefix (noMatchingExportText P X) "No matching export in \"".toList = true := by
      unfold noMatchingExportText
      simp only [List.append_assoc]
      exact hasPrefix_append_self _ _
    cases h : hasPrefix (noMatchingExportText P X) "Could not resolve \"".toList with
    | false => rfl
    | true => rw [not_resolve_and_export _ h] at hn; cases hn
  by_cases hc : X ≠ "default".toList ∧ st.holds (DiscoveryKey.browserExport P X) = false
  · rw [if_pos hc]
    rw [if_neg hc.1] at hk
    have hv : onBuildError importPath st (noMatchingExportText P X)
        = Verdict.retry (st.insert (DiscoveryKey.browserExport P X)) := by
      rw [onBuildError_eq, hk]
      simp only [hc.2, Bool.false_eq_true, if_false]
    obtain ⟨h1, h2, h3⟩ := lookup_insert_browserExport st P X hc.2
    refine ⟨?_, h1, h2, h3, ?_⟩
    · rw [rebuild_succ, hE]
      simp only [hv]
    · rw [browserExcludeLoad_eq, h3]
      rfl
  · rw [if_neg hc]
    have hv : onBuildError importPath st (noMatchingExportText P X)
        = Verdict.fail ("esbuild: ".toList ++ noMatchingExportText P X) := by
      rw [onBuildError_eq]
      by_cases hd : X = "default".toList
      · rw [if_pos hd] at hk
        rw [hk]
        simp only [hcnr, Bool.false_eq_true, false_and, if_false]
      · rw [if_neg hd] at hk
        rw [hk]
        have hh : st.holds (DiscoveryKey.browserExport P X) = true := by
          cases h : st.holds (DiscoveryKey.browserExport P X) with
          | true => rfl
          | false => exact absurd ⟨hd, h⟩ hc
        simp only [hh, if_true]
    refine ⟨hv, ?_⟩
    rw [rebuild_succ, hE]
    simp only [hv]

theorem no_matching_export_verdict_witness :
    browserExcludeLoad (fsStubState.insert
        (DiscoveryKey.browserExport "fs".toList "writeFile".toList)) "fs".toList =
      "export default \x7b\x7d;export const readFile = \x7b\x7d;export const writeFile = \x7b\x7d;".toList ∧
    onBuildError "app".toList fsStubState (noMatchingExportText "fs".toList "readFile".toList)
      = Verdict.fail ("esbuild: ".toList
          ++ "No matching export in \"browser-exclude:fs\" for import \"readFile\"".toList) := by
  have h1 := no_matching_export_verdict demoEnv.toEnv
    (fun _ _ => { Errors := [noMatchingExportText "fs".toList "writeFile".toList] })
    "app".toList 3 0 fsStubState browserTask {} "fs".toList "writeFile".toList [] rfl
    (by decide) (by decide)
  have h2 := no_matching_export_verdict demoEnv.toEnv
    (fun _ _ => { Errors := [noMatchingExportText "fs".toList "readFile".toList] })
    "app".toList 3 0 fsStubState browserTask {} "fs".toList "readFile".toList [] rfl
    (by decide) (by decide)
  rw [if_pos (by decide)] at h1
  rw [if_neg (by decide)] at h2
  refine ⟨?_, ?_⟩
  · rw [h1.2.2.2.2]; decide
  · rw [h2.1]; decide

/-! ## The shebang step -/

theorem drop_indexOf_succ (line rest : Str) (h : '\n' ∉ line) :
    (line ++ '\n' :: rest).drop ((line ++ '\n' :: rest).indexOf '\n' + 1) = rest := by
  induction line with
  | nil => simp [List.indexOf_cons]
  | cons c cs ih =>
    have hc : c ≠ '\n' := fun e => h (by simp [e])
    have hcs : '\n' ∉ cs := fun e => h (List.mem_cons_of_mem _ e)
    have hb : (c == '\n') = false := by simpa using hc
    rw [List.cons_append, List.indexOf_cons, hb]
    simpa using ih hcs

/-- The shebang step when the content has a line feed, and when it has no
shebang: a content `line ++ "\n" ++ rest` that begins with `#!/` (with no line
feed in `line`) is cut down to `rest` and the offset decreases by one; a
content that does not begin with `#!/` and the offset are left as they are. -/
theorem removeShebang_with_line_feed (line rest other : Str) (smOffset : Int)
    (hs : hasPrefix (line ++ '\n' :: rest) "#!/".toList = true) (hl : '\n' ∉ line)
    (ho : hasPrefix other "#!/".toList = false) :
    removeShebang (line ++ '\n' :: rest) smOffset = (rest, smOffset - 1) ∧
    removeShebang other smOffset = (other, smOffset) := by
  constructor
  · unfold removeShebang indexByte
    have hm : '\n' ∈ line ++ '\n' :: rest := by simp
    rw [if_pos hs, if_pos hm]
    have hn : (((line ++ '\n' :: rest).indexOf '\n' : Nat) + 1 : Int).toNat
        = (line ++ '\n' :: rest).indexOf '\n' + 1 := by omega
    rw [hn, drop_indexOf_succ line rest hl]
  · unfold removeShebang
    simp only [ho, Bool.false_eq_true, if_false]

/-- The shebang step on a content without any line feed (a content that is not
a complete line): `bytes.IndexByte` gives `-1`, the slice `jsContent[0:]` is
the whole content, and the offset decreases by one. -/
theorem removeShebang_no_line_feed (content : Str) (smOffset : Int)
    (hs : hasPrefix content "#!/".toList = true) (hn : '\n' ∉ content) :
    removeShebang content smOffset = (content, smOffset - 1) := by
  unfold removeShebang indexByte
  rw [if_pos hs, if_neg hn]
  rfl

/-- C17: a JS output that begins with `#!/` and whose first line is `line`
(the content is `line`, a line feed, and the bytes `rest` behind it) is cut
down by the shebang step to exactly `rest`, the bytes after the first line
feed: the content is the removed line followed by what is kept, and the
offset is decreased by exactly one; the header is generated for `rest`, and
the task's offset after the output is the old one, less one, plus the line
terminators of the header.  A JS output `other` that does not begin with `#!/`
is left unchanged, with the offset as it was: the task's offset after it is
the old one plus the line terminators of the header. -/
theorem shebang_stripped (env : BuildEnv) (task : BuildTask) (npm : NpmPackageInfo)
    (line rest other : Str)
    (hs : hasPrefix (line ++ '\n' :: rest) "#!/".toList = true) (hl : '\n' ∉ line)
    (ho : hasPrefix other "#!/".toList = false) :
    removeShebang (line ++ '\n' :: rest) task.smOffset = (rest, task.smOffset - 1) ∧
    line ++ '\n' :: (removeShebang (line ++ '\n' :: rest) task.smOffset).1
      = line ++ '\n' :: rest ∧
    (assembleJS env task npm (line ++ '\n' :: rest)).1.smOffset =
      task.smOffset - 1 + stringsCount (renderHeader (headerParts env
        { task with smOffset := task.smOffset - 1 } npm rest)) EOL ∧
    removeShebang other task.smOffset = (other, task.smOffset) ∧
    (assembleJS env task npm other).1.smOffset =
      task.smOffset + stringsCount (renderHeader (headerParts env
        { task with smOffset := task.smOffset } npm other)) EOL := by
  have h := removeShebang_with_line_feed line rest other task.smOffset hs hl ho
  refine ⟨h.1, ?_, ?_, h.2, ?_⟩
  · rw [h.1]
  · rw [assembleJS_smOffset, h.1]
  · rw [assembleJS_smOffset, h.2]

theorem shebang_stripped_witness :
    shebangJS.Contents = "#!/usr/bin/env node".toList ++ '\n' :: "export default 1;\n".toList ∧
    removeShebang shebangJS.Contents 0 = ("export default 1;\n".toList, -1) ∧
    (assembleJS shebangEnv browserTask processExcludedNpm shebangJS.Contents).1.smOffset = 0 ∧
    removeShebang plainJS.Contents 0 = (plainJS.Contents, 0) ∧
    (assembleJS plainEnv browserTask processExcludedNpm plainJS.Contents).1.smOffset = 1 ∧
    (build shebangEnv 1 browserTask {}).map (fun r => r.effects.head?) =
      some (some (Effect.writeFile "/builds/app.js".toList
        ("/* esm.sh - esbuild bundle(app@1.2.3) es2022 production */\n".toList
          ++ "export default 1;\n".toList ++ "//# sourceMappingURL=app@1.2.3.map".toList))) := by
  have h := shebang_stripped shebangEnv browserTask processExcludedNpm
    "#!/usr/bin/env node".toList "export default 1;\n".toList plainJS.Contents
    (by decide) (by decide) (by decide)
  have e : shebangJS.Contents
      = "#!/usr/bin/env node".toList ++ '\n' :: "export default 1;\n".toList := by decide
  refine ⟨e, ?_, ?_, h.2.2.2.1, ?_, ?_⟩
  · rw [e]; exact h.1
  · rw [e, h.2.2.1]
    set_option maxRecDepth 100000 in decide
  · set_option maxRecDepth 100000 in decide
  · set_option maxRecDepth 100000 in decide

/-! ## The source-map offset never goes negative -/

theorem assembleJS_smOffset_nonneg (env : BuildEnv) (task : BuildTask) (npm : NpmPackageInfo)
    (contents : Str) (h : 0 ≤ task.smOffset) :
    0 ≤ (assembleJS env task npm contents).1.smOffset := by
  have hpos := headerParts_count_pos env
    { task with smOffset := (removeShebang contents task.smOffset).2 } npm
    (removeShebang contents task.smOffset).1
  rw [assembleJS_smOffset]
  rw [removeShebang_offset] at hpos ⊢
  split_ifs at hpos ⊢ <;> omega

theorem writeJSFiles_smOffset_nonneg (env : BuildEnv) (npm : NpmPackageInfo)
    (files : List OutputFile) :
    ∀ (err : Option Str) (task : BuildTask) (effects : List Effect), 0 ≤ task.smOffset →
      0 ≤ (writeJSFiles env npm files err task effects).2.2.1.smOffset := by
  induction files with
  | nil => intro err task effects h; exact h
  | cons file rest ih =>
    intro err task effects h
    unfold writeJSFiles
    cases hs : hasSuffix file.Path ".js".toList with
    | false =>
      simp only [Bool.false_eq_true, if_false]
      exact ih err task effects h
    | true =>
      simp only [if_true]
      have h1 := assembleJS_smOffset_nonneg env task npm file.Contents h
      cases hw : env.fsWriteFile (env.getSavepath (assembleJS env task npm file.Contents).1)
          (assembleJS env task npm file.Contents).2 with
      | some e => exact h1
      | none => exact ih none _ _ h1

theorem fixMappings_of_nonneg (smOffset : Int) (mapping : Str) (h : 0 ≤ smOffset) :
    fixMappings smOffset mapping = some (List.replicate smOffset.toNat ';' ++ mapping) := by
  have e : smOffset = ((smOffset.toNat : Nat) : Int) := by omega
  have := fixMappings_eq smOffset.toNat mapping
  rw [← e] at this
  exact this

theorem writeOtherFiles_no_panic (env : BuildEnv) (files : List OutputFile) :
    ∀ (err : Option Str) (task : BuildTask) (effects : List Effect), 0 ≤ task.smOffset →
      (writeOtherFiles env files err task effects).1 ≠ some Outcome.panicked ∧
      (writeOtherFiles env files err task effects).2.2.1.smOffset = task.smOffset := by
  induction files with
  | nil => intro err task effects h; exact ⟨by simp [writeOtherFiles], rfl⟩
  | cons file rest ih =>
    intro err task effects h
    unfold writeOtherFiles
    cases hc : hasSuffix file.Path ".css".toList with
    | true =>
      simp only [if_true]
      split
      · exact ⟨by simp, rfl⟩
      · exact ih none _ _ h
    | false =>
      simp only [Bool.false_eq_true, if_false]
      cases hm : hasSuffix file.Path ".js.map".toList with
      | true =>
        simp only [if_true]
        split
        · rename_i mappings others _
          cases mappings with
          | none =>
            simp only []
            split
            · split
              · exact ⟨by simp, rfl⟩
              · exact ih none task _ h
            · exact ih err task effects h
          | some mapping =>
            simp only [fixMappings_of_nonneg _ _ h, Option.map_some']
            split
            · split
              · exact ⟨by simp, rfl⟩
              · exact ih none task _ h
            · exact ih err task effects h
        · exact ih err task effects h
      | false =>
        simp only [Bool.false_eq_true, if_false]
        exact ih err task effects h

theorem runCalls_smOffset (env : Env) (calls : Calls) :
    ∀ (task : BuildTask) (sh : Shared), (runCalls env calls task sh).1.smOffset = task.smOffset := by
  induction calls with
  | done => intro task sh; rfl
  | call specifier kind nested rest _ ihr =>
    intro task sh
    rw [runCalls_call, ihr, resolveExternal_eq]

theorem rebuild_smOffset (env : Env) (apiBuild : Nat → RetryState → PassResult)
    (importPath : Str) (fuel : Nat) :
    ∀ (pass : Nat) (st : RetryState) (task : BuildTask) (sh : Shared) (run : LoopRun),
      rebuild env apiBuild importPath fuel pass st task sh = some run →
      run.task.smOffset = task.smOffset := by
  induction fuel with
  | zero => intro pass st task sh run h; simp [rebuild] at h
  | succ fuel ih =>
    intro pass st task sh run h
    rw [rebuild_succ] at h
    split at h
    · cases h; exact runCalls_smOffset _ _ _ _
    · split at h
      · rw [ih _ _ _ _ run h]; exact runCalls_smOffset _ _ _ _
      · cases h; exact runCalls_smOffset _ _ _ _

theorem checkDTS_smOffset (env : BuildEnv) (task : BuildTask) :
    (checkDTS env task).smOffset = task.smOffset := by
  unfold checkDTS
  simp only []
  split_ifs <;> rfl

theorem bundleAndStore_no_panic (env : BuildEnv) (fuel : Nat) (task : BuildTask)
    (npm : NpmPackageInfo) (err : Option Str) (sh : Shared) (run : BuildRun)
    (h0 : 0 ≤ task.smOffset)
    (hrun : bundleAndStore env fuel task npm err sh = some run) :
    run.outcome ≠ Outcome.panicked ∧ 0 ≤ run.task.smOffset := by
  unfold bundleAndStore at hrun
  split at hrun
  · cases hrun
  · rename_i lrun hl
    have hlo : 0 ≤ lrun.task.smOffset := by
      rw [rebuild_smOffset _ _ _ _ _ _ _ _ _ hl]; exact h0
    split at hrun
    · cases hrun; exact ⟨by simp, hlo⟩
    · rename_i result _
      have hj := writeJSFiles_smOffset_nonneg env npm result.OutputFiles err lrun.task [] hlo
      split at hrun
      · rename_i err1 task1 effects1 heq
        cases hrun
        rw [heq] at hj
        exact ⟨by simp, hj⟩
      · rename_i err1 task1 effects1 heq
        rw [heq] at hj
        have ho := writeOtherFiles_no_panic env result.OutputFiles err1 task1 effects1 hj
        split at hrun
        · rename_i out _ task2 effects2 heq2
          cases hrun
          rw [heq2] at ho
          refine ⟨?_, by rw [ho.2]; exact hj⟩
          intro hp
          have hp2 : out = Outcome.panicked := hp
          exact ho.1 (by rw [hp2])
        · rename_i err2 task2 effects2 heq2
          cases hrun
          rw [heq2] at ho
          refine ⟨by simp, ?_⟩
          rw [checkDTS_smOffset]
          show 0 ≤ task2.smOffset
          rw [ho.2]; exact hj

theorem build_no_panic (env : BuildEnv) (fuel : Nat) (task : BuildTask) (sh : Shared)
    (run : BuildRun) (h0 : 0 ≤ task.smOffset) (hrun : build env fuel task sh = some run) :
    run.outcome ≠ Outcome.panicked := by
  unfold build at hrun
  simp only [] at hrun
  split at hrun
  · split at hrun
    · cases hrun; simp
    · split at hrun
      · cases hrun; simp
      · cases hrun; simp
  · split at hrun
    · cases hrun; simp
    · split at hrun
      · split at hrun
        · cases hrun; simp
        · cases hrun; simp
      · split at hrun
        · cases hrun; simp
        · split at hrun
          · split at hrun
            · cases hrun; simp
            · split at hrun
              · cases hrun; simp
              · split at hrun
                · cases hrun; simp
                · split at hrun
                  · cases hrun; simp
                  · cases hrun; simp
          · exact (bundleAndStore_no_panic env fuel _ _ _ sh run (by exact h0) hrun).1

/-- C19: for a task that starts with offset 0 and every list of bundler output
files, the offset after the loop over the JS outputs is non-negative (each JS
output takes at most one for a shebang and adds at least one for the banner
line), so the rewriting of a `mappings` string with it never fails: it yields
the string behind that many `;`, the loop over the `.css` and `.js.map` outputs
never panics, and no call of `build` ends in a panic. -/
theorem smOffset_never_negative (env : BuildEnv) (fuel : Nat) (task : BuildTask)
    (npm : NpmPackageInfo) (files : List OutputFile) (err : Option Str) (sh : Shared)
    (h0 : task.smOffset = 0) :
    0 ≤ (writeJSFiles env npm files err task []).2.2.1.smOffset ∧
    (∀ mapping : Str,
      fixMappings (writeJSFiles env npm files err task []).2.2.1.smOffset mapping =
        some (List.replicate (writeJSFiles env npm files err task []).2.2.1.smOffset.toNat ';'
          ++ mapping)) ∧
    (writeOtherFiles env files (writeJSFiles env npm files err task []).2.1
        (writeJSFiles env npm files err task []).2.2.1
        (writeJSFiles env npm files err task []).2.2.2).1 ≠ some Outcome.panicked ∧
    (∀ run : BuildRun, build env fuel task sh = some run → run.outcome ≠ Outcome.panicked) := by
  have hn : 0 ≤ task.smOffset := by rw [h0]
  have hj := writeJSFiles_smOffset_nonneg env npm files err task [] hn
  exact ⟨hj, fun mapping => fixMappings_of_nonneg _ _ hj,
    (writeOtherFiles_no_panic env files _ _ _ hj).1,
    fun run hrun => build_no_panic env fuel task sh run hn hrun⟩

theorem smOffset_never_negative_witness :
    (build twoShebangEnv 1 browserTask {}).map (fun r => (r.outcome, r.task.smOffset))
      = some (Outcome.returned none, 0) ∧
    ∀ run : BuildRun, build twoShebangEnv 1 browserTask {} = some run →
      run.outcome ≠ Outcome.panicked :=
  ⟨by set_option maxRecDepth 100000 in decide,
   (smOffset_never_negative twoShebangEnv 1 browserTask processExcludedNpm
      [shebangJS, appMap, shebangJS] none {} rfl).2.2.2⟩

/-! ## The resolve hook: normalization of the specifier -/

theorem hasSuffix_singleton (s : Str) (c : Char) :
    hasSuffix s [c] = decide (s.getLast? = some c) := by
  rcases List.eq_nil_or_concat s with h | ⟨t, d, h⟩
  · subst h; rfl
  · subst h
    unfold hasSuffix
    by_cases hcd : c = d
    · subst hcd; simp [List.isPrefixOf]
    · have hdc : ¬ d = c := fun e => hcd e.symm
      simp [List.isPrefixOf, hcd, hdc]

theorem hasSuffix_append_singleton (pre body : Str) (c : Char) (h : body ≠ []) :
    hasSuffix (pre ++ body) [c] = hasSuffix body [c] := by
  rw [hasSuffix_singleton, hasSuffix_singleton, List.getLast?_append_of_ne_nil _ h]

theorem trimSuffix_append_singleton (x : Str) (c : Char) : trimSuffix (x ++ [c]) [c] = x := by
  have h : hasSuffix (x ++ [c]) [c] = true := by
    rw [hasSuffix_singleton]; simp
  unfold trimSuffix
  rw [if_pos h]
  simp

theorem trimSuffix_of_not (s p : Str) (h : hasSuffix s p = false) : trimSuffix s p = s := by
  unfold trimSuffix
  simp [h]

theorem trimPrefix_of_not (s p : Str) (h : hasPrefix s p = false) : trimPrefix s p = s := by
  unfold trimPrefix
  simp [h]

theorem trimSuffix_slash (x suf : Str) (hx : hasSuffix x ['/'] = false)
    (hsuf : suf = [] ∨ suf = ['/']) : trimSuffix (x ++ suf) ['/'] = x := by
  rcases hsuf with rfl | rfl
  · rw [List.append_nil]; exact trimSuffix_of_not _ _ hx
  · exact trimSuffix_append_singleton x '/'

theorem hasSuffix_slash_append (pre body : Str) (hpre : hasSuffix pre ['/'] = false)
    (hb : hasSuffix body ['/'] = false) : hasSuffix (pre ++ body) ['/'] = false := by
  cases body with
  | nil => rw [List.append_nil]; exact hpre
  | cons c cs => rw [hasSuffix_append_singleton _ _ _ (by simp)]; exact hb

/-- C14 (as stated, refuted): the normalized form of `lodash//` ends with `/`,
and the normalized form of `npm:node:fs` starts with `node:`. -/
theorem normalizeSpecifier_counterexample :
    normalizeSpecifier "lodash//".toList = "lodash/".toList ∧
    hasSuffix (normalizeSpecifier "lodash//".toList) "/".toList = true ∧
    normalizeSpecifier "npm:node:fs".toList = "node:fs".toList ∧
    hasPrefix (normalizeSpecifier "npm:node:fs".toList) "node:".toList = true := by
  decide

/-- C14 (amended): the normalization removes one trailing `/`, then one leading
`node:`, then one leading `npm:`.  For a specifier of the form
`[node:][npm:]body[/]`, where `body` neither ends with `/` nor starts with
`node:` or `npm:`, the normalized specifier is `body`; in particular it equals
the input when the input has neither a trailing slash nor one of the
prefixes. -/
theorem normalizeSpecifier_strips (pre body suf : Str)
    (hb1 : hasSuffix body "/".toList = false)
    (hb2 : hasPrefix body "node:".toList = false)
    (hb3 : hasPrefix body "npm:".toList = false)
    (hpre : pre = [] ∨ pre = "node:".toList ∨ pre = "npm:".toList ∨ pre = "node:npm:".toList)
    (hsuf : suf = [] ∨ suf = "/".toList) :
    normalizeSpecifier (pre ++ body ++ suf) = body ∧ normalizeSpecifier body = body := by
  have key : ∀ p : Str, hasSuffix p ['/'] = false →
      trimPrefix (trimPrefix (p ++ body) "node:".toList) "npm:".toList = body →
      normalizeSpecifier (p ++ body ++ suf) = body := by
    intro p hp h
    unfold normalizeSpecifier
    have e : trimSuffix (p ++ body ++ suf) "/".toList = p ++ body :=
      trimSuffix_slash _ _ (hasSuffix_slash_append p body hp hb1) hsuf
    simp only [e]
    exact h
  have hbody : trimPrefix (trimPrefix body "node:".toList) "npm:".toList = body := by
    rw [trimPrefix_of_not _ _ hb2, trimPrefix_of_not _ _ hb3]
  constructor
  · rcases hpre with rfl | rfl | rfl | rfl
    · exact key [] (by decide) hbody
    · apply key _ (by decide)
      rw [trimPrefix_append_self, trimPrefix_of_not _ _ hb3]
    · apply key _ (by decide)
      have hn : hasPrefix ("npm:".toList ++ body) "node:".toList = false := by
        simp [hasPrefix, List.isPrefixOf]
      rw [trimPrefix_of_not _ _ hn, trimPrefix_append_self]
    · apply key _ (by decide)
      have e : "node:npm:".toList ++ body = "node:".toList ++ ("npm:".toList ++ body) := by
        simp
      rw [e, trimPrefix_append_self, trimPrefix_append_self]
  · have := key [] (by decide) hbody
    have h2 : normalizeSpecifier (body ++ suf) = body := by simpa using this
    unfold normalizeSpecifier
    rw [trimSuffix_of_not _ _ hb1]
    exact hbody

theorem normalizeSpecifier_strips_witness :
    normalizeSpecifier "node:npm:lodash/".toList = "lodash".toList ∧
    normalizeSpecifier "lodash".toList = "lodash".toList :=
  normalizeSpecifier_strips "node:npm:".toList "lodash".toList "/".toList (by decide) (by decide)
    (by decide) (Or.inr (Or.inr (Or.inr rfl))) (Or.inr rfl)

/-! ## The resolve hook: in-package local files -/

theorem noBundleOf_iff (task : BuildTask) (npm : NpmPackageInfo) :
    noBundleOf task npm = true ↔
      task.NoBundle = true
        ∨ (∃ sideEffects, npm.SideEffects = some sideEffects ∧ 0 < sideEffects.Len)
        ∨ (∃ config, npm.ESMConfig = some config
            ∧ config.lookup "bundle".toList = some (some false)) := by
  have hbase : (task.NoBundle || (match npm.SideEffects with
        | some sideEffects => decide (sideEffects.Len > 0)
        | none => false)) = true ↔
      task.NoBundle = true
        ∨ (∃ sideEffects, npm.SideEffects = some sideEffects ∧ 0 < sideEffects.Len) := by
    cases npm.SideEffects with
    | none => simp
    | some sideEffects => simp
  unfold noBundleOf
  simp only []
  cases hcfg : npm.ESMConfig with
  | none =>
    simp only [hbase]
    constructor
    · rintro (h | h)
      · exact Or.inl h
      · exact Or.inr (Or.inl h)
    · rintro (h | h | ⟨_, h, _⟩)
      · exact Or.inl h
      · exact Or.inr h
      · cases h
  | some config =>
    simp only [Option.some.injEq, exists_eq_left']
    cases hl : config.lookup "bundle".toList with
    | none =>
      simp only [hbase]
      constructor
      · rintro (h | h)
        · exact Or.inl h
        · exact Or.inr (Or.inl h)
      · rintro (h | h | h)
        · exact Or.inl h
        · exact Or.inr h
        · cases h
    | some v =>
      cases v with
      | none =>
        simp only [hbase]
        constructor
        · rintro (h | h)
          · exact Or.inl h
          · exact Or.inr (Or.inl h)
        · rintro (h | h | h)
          · exact Or.inl h
          · exact Or.inr h
          · cases h
      | some b =>
        cases b with
        | false => simp
        | true =>
          simp only [Bool.not_true, Bool.false_eq_true, if_false, hbase]
          constructor
          · rintro (h | h)
            · exact Or.inl h
            · exact Or.inr (Or.inl h)
          · rintro (h | h | h)
            · exact Or.inl h
            · exact Or.inr h
            · cases h

/-- C15 (as stated, refuted): for a task with the `NoBundle` flag, a static import
of the in-package file `./lib/util.js`, matched by no `exports` entry and not a
re-export file, does not get the empty result: the hook returns the
external path that `resolveExternal` gives for `pkg/lib/util.js`.  And for the
task of the sub-module `lib/util`, a dynamic import of that file, again
matched by no `exports` entry and not a re-export file, gets the empty
result, not an external one. -/
theorem inPackage_noBundle_counterexample :
    (noBundleTask.NoBundle = true ∧
      utilArgs.Kind = ResolveKind.ResolveJSImportStatement ∧
      onResolveDecision demoHookEnv noBundleTask pkgNpm {} none utilArgs
        = Decision.external "pkg/lib/util.js".toList ∧
      (OnResolve demoHookEnv Calls.done noBundleTask pkgNpm {} none utilArgs {}).map
          (fun r => r.1)
        = some { Path := "/pkg@1.0.0/lib/util.nobundle.js".toList, External := true }) ∧
    (utilTask.Pkg.SubModule = "lib/util".toList ∧
      utilDynamicArgs.Kind = ResolveKind.ResolveJSDynamicImport ∧
      pkgNpm.PkgExports = none ∧
      reexportTarget demoHookEnv "/wd/node_modules/pkg/lib/util.js".toList = none ∧
      utilDynamicArgs.Path ≠ entryPointOf demoHookEnv.toBuildEnv utilTask pkgNpm ∧
      resolveSpecifier demoHookEnv utilTask pkgNpm {} none utilDynamicArgs utilDynamicArgs.Path
        = inPackageRule demoHookEnv utilTask pkgNpm (noBundleOf utilTask pkgNpm)
            ResolveKind.ResolveJSDynamicImport "/wd/node_modules/pkg/lib/util.js".toList
            "pkg/lib/util.js".toList ∧
      onResolveDecision demoHookEnv utilTask pkgNpm {} none utilDynamicArgs
        = Decision.result {} ∧
      (OnResolve demoHookEnv Calls.done utilTask pkgNpm {} none utilDynamicArgs {}).map
          (fun r => r.1)
        = some {}) := by
  set_option maxRecDepth 100000 in decide

/-- C15 (amended): for a specifier that reaches the in-package rule and is
matched neither by an `exports` entry nor by the re-export heuristic: when the
bare name of the file is the task's own sub-module, the hook returns the empty
result, for every kind; otherwise it returns the empty result when the kind
is not dynamic-import and the bundling of local files is not switched off, and
when the kind is dynamic-import, or when that bundling is switched off, it
returns the external result whose path is `resolveExternal` of the
package-relative specifier.  The bundling of local files is switched off
exactly when the task's `NoBundle` flag is set, or the package declares side
effects, or its `esm` configuration sets `bundle` to false. -/
theorem inPackage_unmatched (env : HookEnv) (task : BuildTask) (npm : NpmPackageInfo)
    (kind : ResolveKind) (fullFilepath specifier : Str)
    (hp : hasPrefix specifier (npm.Name ++ "/".toList) = true)
    (hexp : npm.PkgExports.bind (exportsRedirect env task npm
        (env.stripModuleExt (".".toList ++ trimPrefix specifier npm.Name))
        (".".toList ++ trimPrefix specifier npm.Name)) = none)
    (hre : reexportTarget env fullFilepath = none) :
    inPackageRule env task npm (noBundleOf task npm) kind fullFilepath specifier =
      (if env.stripModuleExt (".".toList ++ trimPrefix specifier npm.Name)
          = "./".toList ++ task.Pkg.SubModule
       then Decision.result {}
       else if kind = ResolveKind.ResolveJSDynamicImport then Decision.external specifier
       else if task.NoBundle = true
          ∨ (∃ sideEffects, npm.SideEffects = some sideEffects ∧ 0 < sideEffects.Len)
          ∨ (∃ config, npm.ESMConfig = some config
              ∧ config.lookup "bundle".toList = some (some false))
        then Decision.external specifier
       else Decision.result {}) := by
  have hnb := noBundleOf_iff task npm
  unfold inPackageRule
  simp only [hp, if_true]
  by_cases hself : env.stripModuleExt (".".toList ++ trimPrefix specifier npm.Name)
      = "./".toList ++ task.Pkg.SubModule
  · rw [if_pos hself, if_pos hself]
  · rw [if_neg hself, if_neg hself]
    simp only [hexp, hre]
    by_cases hk : kind = ResolveKind.ResolveJSDynamicImport
    · simp [hk]
    · by_cases hn : noBundleOf task npm = true
      · have := hnb.1 hn
        simp only [hk, if_false, this, if_true, hn, not_true_eq_false, and_false]
      · have : ¬ (task.NoBundle = true
            ∨ (∃ sideEffects, npm.SideEffects = some sideEffects ∧ 0 < sideEffects.Len)
            ∨ (∃ config, npm.ESMConfig = some config
                ∧ config.lookup "bundle".toList = some (some false))) := fun h => hn (hnb.2 h)
        simp only [hk, if_false, this, ne_eq, not_false_eq_true, hn, and_self, if_true]
        simp

theorem inPackage_unmatched_witness :
    onResolveDecision demoHookEnv pkgTask pkgNpm {} none utilArgs = Decision.result {} ∧
    onResolveDecision demoHookEnv pkgTask pkgNpm {} none utilDynamicArgs
      = Decision.external "pkg/lib/util.js".toList ∧
    inPackageRule demoHookEnv pkgTask pkgNpm (noBundleOf pkgTask pkgNpm)
        ResolveKind.ResolveJSDynamicImport "/wd/node_modules/pkg/lib/util.js".toList
        "pkg/lib/util.js".toList
      = Decision.external "pkg/lib/util.js".toList ∧
    inPackageRule demoHookEnv utilTask pkgNpm (noBundleOf utilTask pkgNpm)
        ResolveKind.ResolveJSDynamicImport "/wd/node_modules/pkg/lib/util.js".toList
        "pkg/lib/util.js".toList
      = Decision.result {} := by
  have h := inPackage_unmatched demoHookEnv pkgTask pkgNpm ResolveKind.ResolveJSDynamicImport
    "/wd/node_modules/pkg/lib/util.js".toList "pkg/lib/util.js".toList (by decide) (by decide)
    (by decide)
  have h2 := inPackage_unmatched demoHookEnv utilTask pkgNpm ResolveKind.ResolveJSDynamicImport
    "/wd/node_modules/pkg/lib/util.js".toList "pkg/lib/util.js".toList (by decide) (by decide)
    (by decide)
  rw [if_neg (by decide), if_pos rfl] at h
  rw [if_pos (by decide)] at h2
  exact ⟨by set_option maxRecDepth 100000 in decide,
    by set_option maxRecDepth 100000 in decide, h, h2⟩

/-! ## The resolve hook: wildcard entries of the `exports` map -/

theorem hasSuffix_append_self (a p : Str) : hasSuffix (a ++ p) p = true := by
  unfold hasSuffix
  rw [List.reverse_append, List.isPrefixOf_iff_prefix]
  exact List.prefix_append _ _

theorem exportsRedirect_guard (env : HookEnv) (task : BuildTask) (npm : NpmPackageInfo)
    (bareName modulePath : Str) (entries : List (Str × Paths)) :
    ∀ url : Str, exportsRedirect env task npm bareName modulePath entries = some url →
      url ≠ env.ImportPath task.Pkg ∧ url ≠ env.ImportPath task.Pkg ++ "/index".toList := by
  induction entries with
  | nil => intro url h; simp [exportsRedirect] at h
  | cons e rest ih =>
    obtain ⟨name, paths⟩ := e
    intro url h
    unfold exportsRedirect at h
    simp only [] at h
    split_ifs at h with h1 h2 h3 h4 h5 h6
    · exact ih url h
    · cases h; exact h4
    · exact ih url h
    · exact ih url h
    · cases h; exact h6
    · exact ih url h
    · exact ih url h

/-- C13 (as stated, refuted): with the entry `./*` to `./dist/*/index.js` and
the in-package file `./dist/foo/index.js`, the `*` of the target stands for
`foo`, yet the hook externalizes the sub-module `pkg/foo/index`, not `pkg/foo`;
putting `foo/index` back into the target does not give the file. -/
theorem wildcard_redirect_counterexample :
    demoHookEnv.splitByLastByte "./dist/*/index.js".toList '*'
      = ("./dist/".toList, "/index.js".toList) ∧
    "./dist/".toList ++ "foo".toList ++ "/index.js".toList = "./dist/foo/index.js".toList ∧
    onResolveDecision demoHookEnv pkgTask dirExportsNpm {} none fooIndexArgs
      = Decision.external "pkg/foo/index".toList ∧
    demoHookEnv.pathJoin ["pkg".toList, "./".toList ++ "foo".toList] = "pkg/foo".toList ∧
    "./dist/".toList ++ "foo/index".toList ++ "/index.js".toList
      ≠ "./dist/foo/index.js".toList := by
  set_option maxRecDepth 100000 in decide

/-- C13 (amended): take a wildcard `exports` entry `name` with the string
target `target`, let `pre` and `suffix` be the parts of `target` around its
last `*` and `exportPrefix` the part of `name` before its last `*`, and take an
in-package file with the module path `modulePath` whose bare name (the module
path without its module extension) is `pre ++ x`, where either the target ends
with its `*` (`suffix` is empty) or the module path is `pre ++ x ++ suffix`,
that is, the target ends with exactly the extension that is stripped.  Then
the file matches the entry, the sub-module it is redirected to is
`<package>/<exportPrefix followed by x>`, where `x` is the text the `*` of the
target stands for (up to the module extension), and the redirect is issued
unless that sub-module is the task's own import path or that path followed by
`/index`, in which case the next entries are tried.  No entry ever redirects to
the task's own import path or to that path followed by `/index`. -/
theorem wildcard_redirect (env : HookEnv) (task : BuildTask) (npm : NpmPackageInfo)
    (name target pre suffix exportPrefix exportSuffix x modulePath : Str)
    (rest : List (Str × Paths))
    (hname : name = ".".toList ∨ hasPrefix name "./".toList = true)
    (hstar : '*' ∈ name)
    (ht : env.splitByLastByte target '*' = (pre, suffix))
    (hn : env.splitByLastByte name '*' = (exportPrefix, exportSuffix))
    (hbare : env.stripModuleExt modulePath = pre ++ x)
    (hsuf : suffix = [] ∨ modulePath = pre ++ x ++ suffix) :
    wildcardMatch env (env.stripModuleExt modulePath) modulePath target = (true, pre) ∧
    exportsRedirect env task npm (env.stripModuleExt modulePath) modulePath
        ((name, Paths.str target) :: rest) =
      (if env.pathJoin [npm.Name, exportPrefix ++ x] ≠ env.ImportPath task.Pkg
          ∧ env.pathJoin [npm.Name, exportPrefix ++ x]
              ≠ env.ImportPath task.Pkg ++ "/index".toList
       then some (env.pathJoin [npm.Name, exportPrefix ++ x])
       else exportsRedirect env task npm (env.stripModuleExt modulePath) modulePath rest) ∧
    (∀ (bareName modulePath : Str) (entries : List (Str × Paths)) (url : Str),
      exportsRedirect env task npm bareName modulePath entries = some url →
        url ≠ env.ImportPath task.Pkg ∧ url ≠ env.ImportPath task.Pkg ++ "/index".toList) := by
  have hm : wildcardMatch env (env.stripModuleExt modulePath) modulePath target
      = (true, pre) := by
    unfold wildcardMatch
    rw [ht, hbare]
    have h1 : hasPrefix (pre ++ x) pre = true := hasPrefix_append_self pre x
    have h2 : (decide (suffix = []) || hasSuffix modulePath suffix) = true := by
      rcases hsuf with h | h
      · simp [h]
      · rw [h, hasSuffix_append_self, Bool.or_true]
    simp only [h1, h2, Bool.and_self]
  refine ⟨hm, ?_, fun bareName modulePath entries url h =>
    exportsRedirect_guard env task npm bareName modulePath entries url h⟩
  have hcond : (!(decide (name = ".".toList) || hasPrefix name "./".toList)) = false := by
    rcases hname with h | h
    · simp [h]
    · simp only [h, Bool.or_true, Bool.not_true]
  rw [exportsRedirect]
  simp only [hcond, Bool.false_eq_true, if_false, hstar, if_true, hm, hn]
  rw [hbare, trimPrefix_append_self]

theorem wildcard_redirect_witness :
    (onResolveDecision demoHookEnv pkgTask fileExportsNpm {} none fooArgs
        = Decision.external "pkg/foo".toList ∧
      exportsRedirect demoHookEnv pkgTask fileExportsNpm
          (demoHookEnv.stripModuleExt "./dist/foo.js".toList) "./dist/foo.js".toList
          [("./*".toList, Paths.str "./dist/*.js".toList)]
        = some "pkg/foo".toList) ∧
    (onResolveDecision demoHookEnv pkgTask starExportsNpm {} none fooArgs
        = Decision.external "pkg/foo".toList ∧
      exportsRedirect demoHookEnv pkgTask starExportsNpm
          (demoHookEnv.stripModuleExt "./dist/foo.js".toList) "./dist/foo.js".toList
          [("./*".toList, Paths.str "./dist/*".toList)]
        = some "pkg/foo".toList) ∧
    (onResolveDecision demoHookEnv pkgTask sameExportsNpm {} none utilArgs
        = Decision.external "pkg/lib/util".toList ∧
      exportsRedirect demoHookEnv pkgTask sameExportsNpm
          (demoHookEnv.stripModuleExt "./lib/util.js".toList) "./lib/util.js".toList
          [("./*".toList, Paths.str "./*".toList)]
        = some "pkg/lib/util".toList) := by
  have h1 := (wildcard_redirect demoHookEnv pkgTask fileExportsNpm "./*".toList
    "./dist/*.js".toList "./dist/".toList ".js".toList "./".toList [] "foo".toList
    "./dist/foo.js".toList [] (Or.inr (by decide)) (by decide) (by decide) (by decide)
    (by decide) (Or.inr (by decide))).2.1
  have h2 := (wildcard_redirect demoHookEnv pkgTask starExportsNpm "./*".toList
    "./dist/*".toList "./dist/".toList [] "./".toList [] "foo".toList
    "./dist/foo.js".toList [] (Or.inr (by decide)) (by decide) (by decide) (by decide)
    (by decide) (Or.inl rfl)).2.1
  have h3 := (wildcard_redirect demoHookEnv pkgTask sameExportsNpm "./*".toList
    "./*".toList "./".toList [] "./".toList [] "lib/util".toList
    "./lib/util.js".toList [] (Or.inr (by decide)) (by decide) (by decide) (by decide)
    (by decide) (Or.inl rfl)).2.1
  rw [if_pos (by decide)] at h1 h2 h3
  refine ⟨⟨by set_option maxRecDepth 100000 in decide, ?_⟩,
    ⟨by set_option maxRecDepth 100000 in decide, ?_⟩,
    ⟨by set_option maxRecDepth 100000 in decide, ?_⟩⟩
  · rw [h1]; decide
  · rw [h2]; decide
  · rw [h3]; decide

/-! ## The resolve hook: source-control URLs in the dependencies -/

theorem git_not_npm (v : Str)
    (hg : (hasPrefix v "git+ssh://".toList || hasPrefix v "git+https://".toList
      || hasPrefix v "git://".toList) = true) :
    hasPrefix v "npm:".toList = false := by
  cases hn : hasPrefix v "npm:".toList with
  | false => rfl
  | true =>
    exfalso
    simp only [Bool.or_eq_true] at hg
    rcases hg with (hg | hg) | hg
    · exact absurd (hasPrefix_head_eq v 'n' 'g' "pm:".toList "it+ssh://".toList hn hg) (by decide)
    · exact absurd (hasPrefix_head_eq v 'n' 'g' "pm:".toList "it+https://".toList hn hg)
        (by decide)
    · exact absurd (hasPrefix_head_eq v 'n' 'g' "pm:".toList "it://".toList hn hg) (by decide)

/-- The dependency-alias rule for a source-control URL with a non-empty path:
when the alias of the specifier starts with `git+ssh://`, `git+https://` or
`git://` and parses with the host name `github.com` and a non-empty path, the
hook returns the external path `/gh/<repo>`, where `<repo>` is the URL path
without its first character and without a trailing `.git` (behind the port and
`/` for the scheme `git+ssh`), followed by `@` and the escaped fragment when
the fragment is not empty. -/
theorem resolveDependencyAlias_github (env : HookEnv) (npm : NpmPackageInfo)
    (specifier v : Str) (gitUrl : URL)
    (hv : npm.Dependencies.lookup specifier = some v)
    (hg : (hasPrefix v "git+ssh://".toList || hasPrefix v "git+https://".toList
      || hasPrefix v "git://".toList) = true)
    (hu : env.urlParse v = some gitUrl)
    (hh : gitUrl.Hostname = "github.com".toList)
    (hp : gitUrl.Path ≠ []) :
    resolveDependencyAlias env npm specifier =
      Sum.inl (Decision.result
        { Path := "/gh/".toList
            ++ (if gitUrl.Scheme = "git+ssh".toList then gitUrl.Port ++ "/".toList else [])
            ++ trimSuffix (gitUrl.Path.drop 1) ".git".toList
            ++ (if gitUrl.Fragment ≠ [] then "@".toList ++ env.urlQueryEscape gitUrl.Fragment
                else []),
          External := true }) := by
  have hn := git_not_npm v hg
  have hl : ¬ gitUrl.Path.length < 1 := by
    cases hP : gitUrl.Path with
    | nil => exact absurd hP hp
    | cons c cs => simp
  unfold resolveDependencyAlias
  simp only [hv, hn, hg, hu, hh, hl, Bool.false_eq_true, if_false, if_true]
  split_ifs <;> simp

/-- C18 (the code at the failing input): the dependency `tslib` is the
source-control URL `git+https://github.com`, which parses with the host name
`github.com` and an empty path; the slice of the path from index 1 is out of
range and the hook panics instead of returning a result. -/
theorem onResolve_git_empty_path :
    emptyPathGitNpm.Dependencies.lookup "tslib".toList = some "git+https://github.com".toList ∧
    demoHookEnv.urlParse "git+https://github.com".toList
      = some { Scheme := "git+https".toList, Hostname := "github.com".toList } ∧
    resolveDependencyAlias demoHookEnv emptyPathGitNpm "tslib".toList
      = Sum.inl Decision.panic ∧
    onResolveDecision demoHookEnv pkgTask emptyPathGitNpm {} none tslibArgs = Decision.panic ∧
    OnResolve demoHookEnv Calls.done pkgTask emptyPathGitNpm {} none tslibArgs {} = none ∧
    onResolveDecision demoHookEnv pkgTask gitNpm {} none tslibArgs
      = Decision.result { Path := "/gh/microsoft/tslib@v2.3.0".toList, External := true } := by
  set_option maxRecDepth 100000 in decide

end EsmSh
